import Mathlib

/-!
# Duplicate-avoiding challenge generation

A shallow embedding of the client-side content fingerprint, of the bounded
retry loops, the seeding of the seen set and the prompt of
`src/components/admin/AIChallengeManager.jsx` and `src/pages/PostJobWithAI.jsx`,
and of the challenge routes of `src/server/routes/challenges.js`, followed by
the properties proved about them.
-/

namespace ProofJobs

/-! ## JavaScript strings and the built-ins used by the fingerprint -/

/-- A JavaScript string, as its sequence of UTF-16 code units. -/
abbrev JSString := List Nat

/-- The code units of a Lean string literal (one unit per character; used for
characters of the Basic Multilingual Plane only). -/
def lit (s : String) : JSString := s.toList.map Char.toNat

/-- Lower-case mapping of one code unit, as `String.prototype.toLowerCase`
performs it on every unit whose image lies in the Latin-1 range: `A`-`Z`,
`U+00C0`-`U+00DE` without the multiplication sign, and the four letters from
outside the range that are lowered into it (`U+0178`, `U+1E9E`, `U+212A`,
`U+212B`). Every other unit above `U+00FF` is lowered by JavaScript to units
above `U+00FF`, which `btoa` rejects just like the unit itself, so those are
left in place. -/
def lowerUnit (u : Nat) : Nat :=
  if 65 ≤ u ∧ u ≤ 90 then u + 32
  else if 192 ≤ u ∧ u ≤ 222 ∧ u ≠ 215 then u + 32
  else if u = 376 then 255
  else if u = 7838 then 223
  else if u = 8490 then 107
  else if u = 8491 then 229
  else u

/-- The method `String.prototype.toLowerCase`. -/
def toLowerCase (s : JSString) : JSString := s.map lowerUnit

/-- The units removed by `String.prototype.trim`: ECMAScript `WhiteSpace` and
`LineTerminator`. -/
def isWhiteSpace (u : Nat) : Bool :=
  u == 9 || u == 10 || u == 11 || u == 12 || u == 13 || u == 32 || u == 160 ||
  u == 5760 || (8192 ≤ u && u ≤ 8202) || u == 8232 || u == 8233 || u == 8239 ||
  u == 8287 || u == 12288 || u == 65279

/-- The method `String.prototype.trim`. -/
def trim (s : JSString) : JSString := (s.dropWhile isWhiteSpace).rdropWhile isWhiteSpace

/-- The code unit of the `n`-th character of the base64 alphabet
`A`-`Z`, `a`-`z`, `0`-`9`, `+`, `/`. -/
def base64Char (n : Nat) : Nat :=
  if n < 26 then 65 + n
  else if n < 52 then 97 + (n - 26)
  else if n < 62 then 48 + (n - 52)
  else if n = 62 then 43
  else 47

/-- Base64 encoding of a sequence of bytes, with `=` padding (code unit 61). -/
def base64Encode : List Nat → List Nat
  | [] => []
  | [a] => [base64Char (a / 4), base64Char (a % 4 * 16), 61, 61]
  | [a, b] => [base64Char (a / 4), base64Char (a % 4 * 16 + b / 16), base64Char (b % 16 * 4), 61]
  | a :: b :: c :: rest =>
    base64Char (a / 4) :: base64Char (a % 4 * 16 + b / 16) ::
      base64Char (b % 16 * 4 + c / 64) :: base64Char (c % 64) :: base64Encode rest

/-- The global `btoa`: throws (`none`) when a code unit is above 255, otherwise
encodes the units as bytes. -/
def btoa (s : JSString) : Option JSString :=
  if s.all (fun u => decide (u ≤ 255)) then some (base64Encode s) else none

/-- The character class `[a-zA-Z0-9]`. -/
def isAlnum (u : Nat) : Bool :=
  (97 ≤ u && u ≤ 122) || (65 ≤ u && u ≤ 90) || (48 ≤ u && u ≤ 57)

/-- The call `.replace(/[^a-zA-Z0-9]/g, '')`. -/
def stripNonAlnum (s : JSString) : JSString := s.filter isAlnum

/-- The call `.substring(0, n)`. -/
def substring0 (n : Nat) (s : JSString) : JSString := s.take n

/-- A JavaScript value as far as the generation code tells values apart:
`undefined`, a boolean, a string, or anything else (`null`, a number, an
array, an object). -/
inductive Value where
  | undefined
  | boolean (b : Bool)
  | string (s : JSString)
  | other
  deriving DecidableEq, Repr

/-- The expression `v.toLowerCase().trim()`: a TypeError (`none`) unless `v` is a string. -/
def Value.lowerTrim : Value → Option JSString
  | .string s => some (trim (toLowerCase s))
  | _ => none

/-- The spec's normalisation of one field: trim and lower-case. -/
def norm (s : JSString) : JSString := trim (toLowerCase s)

namespace AIChallengeManager

/-- The function `generateContentHash` of `AIChallengeManager.jsx` (lines 78-81);
`none` stands for a thrown exception. -/
def generateContentHash (title description correctAnswer : Value) : Option JSString := do
  let t ← title.lowerTrim
  let d ← description.lowerTrim
  let c ← correctAnswer.lowerTrim
  let content := t ++ d ++ c
  let b ← btoa content
  pure (substring0 32 (stripNonAlnum b))

end AIChallengeManager

namespace PostJobWithAI

/-- The function `generateContentHash` of `PostJobWithAI.jsx` (lines 116-119);
`none` stands for a thrown exception. -/
def generateContentHash (title description correctAnswer : Value) : Option JSString := do
  let t ← title.lowerTrim
  let d ← description.lowerTrim
  let c ← correctAnswer.lowerTrim
  let content := t ++ d ++ c
  let b ← btoa content
  pure (substring0 32 (stripNonAlnum b))

end PostJobWithAI

/-! ## Numbers: the doubles of the `temperature` argument -/

/-- The position of the highest set bit of `n` (0 for `n < 2`); `fuel` bounds
the number of halvings. -/
def log2Fuel : Nat → Nat → Nat
  | 0, _ => 0
  | fuel + 1, n => if n < 2 then 0 else log2Fuel fuel (n / 2) + 1

/-- The floor of the binary logarithm of `n` (0 for `n = 0`). -/
def log2 (n : Nat) : Nat := log2Fuel n n

/-- The integer nearest to `p / q`, the even one of two that are equally near. -/
def roundHalfEven (p q : Nat) : Nat :=
  let k := p / q
  let r := p % q
  if 2 * r < q then k else if q < 2 * r then k + 1 else if k % 2 = 0 then k else k + 1

/-- A JavaScript number that is not negative and not `NaN`: an IEEE 754
binary64 value, written `mantissa * 2 ^ exponent` in units of `2 ^ (-1074)`,
the smallest positive double, with an odd mantissa (both fields 0 for the
number 0). The number 1 is `⟨1, 1074⟩`; `Infinity` is `⟨1, 2098⟩`. -/
structure Double where
  mantissa : Nat
  exponent : Nat
  deriving DecidableEq, Repr

namespace Double

/-- The value `Infinity`. -/
def infinity : Double := ⟨1, 2098⟩

/-- The double with the value of `m * 2 ^ x` units, for an `m` of at most 53
bits: trailing zero bits go to the exponent; from `2 ^ 1024` on the value is
`Infinity`. -/
def normalize (m x : Nat) : Double :=
  if m = 0 then ⟨0, 0⟩
  else
    let tz := log2 (Nat.gcd m (2 ^ log2 m))
    if 2098 ≤ log2 m + x then infinity else ⟨m / 2 ^ tz, x + tz⟩

/-- The double nearest to `p / q * 2 ^ e` units, the one with the even mantissa
of two that are equally near: the rounding of a decimal literal and of every
arithmetic operation. The value is scaled to a mantissa of 53 bits, or to
whole units when it is below `2 ^ 52` units (a subnormal number). -/
def round (p q e : Nat) : Double :=
  if p = 0 then ⟨0, 0⟩
  else
    let a := (53 + log2 q) - log2 p
    let s := log2 (p * 2 ^ a / q) - 52
    if a ≤ e + s then normalize (roundHalfEven (p * 2 ^ a) (q * 2 ^ s)) (e + s - a)
    else normalize (roundHalfEven (p * 2 ^ e) q) 0

/-- The number with the integer value `k`. -/
def ofNat (k : Nat) : Double := round k 1 1074

/-- The value of a decimal literal with the exact value `num / den`, such as
`0.1` (`num = 1`, `den = 10`). -/
def decimal (num den : Nat) : Double := round num den 1074

/-- The expression `a + b`. -/
def add (a b : Double) : Double :=
  if a = infinity ∨ b = infinity then infinity
  else
    let e := min a.exponent b.exponent
    round (a.mantissa * 2 ^ (a.exponent - e) + b.mantissa * 2 ^ (b.exponent - e)) 1 e

/-- The expression `a * b`, for factors whose product is a number (not the
product of `Infinity` and 0). -/
def mul (a b : Double) : Double :=
  if a = infinity ∨ b = infinity then infinity
  else if 1074 ≤ a.exponent + b.exponent then
    round (a.mantissa * b.mantissa) 1 (a.exponent + b.exponent - 1074)
  else round (a.mantissa * b.mantissa) (2 ^ (1074 - (a.exponent + b.exponent))) 0

/-- The comparison `a < b`. -/
def lt (a b : Double) : Bool :=
  let e := min a.exponent b.exponent
  decide (a.mantissa * 2 ^ (a.exponent - e) < b.mantissa * 2 ^ (b.exponent - e))

/-- Whether the exact value of the double is the rational `num / den`. -/
def isExactly (a : Double) (num den : Nat) : Bool :=
  a.mantissa * 2 ^ (a.exponent - 1074) * den == num * 2 ^ (1074 - a.exponent)

end Double

instance : LT Double := ⟨fun a b => Double.lt a b = true⟩

instance (a b : Double) : Decidable (a < b) :=
  inferInstanceAs (Decidable (Double.lt a b = true))

/-- The expression `b + (attempts * 0.1)` for the decimal literal `b` with the
value `baseTenths / 10`: `0.8 + (attempts * 0.1)` in `AIChallengeManager.jsx`
(line 164) and `0.7 + (attempts * 0.1)` in `PostJobWithAI.jsx` (line 190). -/
def temperatureAt (baseTenths attempts : Nat) : Double :=
  Double.add (Double.decimal baseTenths 10)
    (Double.mul (Double.ofNat attempts) (Double.decimal 1 10))

/-! ## Parsed responses, the seen set and the environment -/

/-- A JSON object parsed from a response: the properties the generation code
reads or writes; the remaining properties (difficulty, skills, challenge type,
estimated time, evaluation criteria) are kept as one uninterpreted payload. -/
structure Candidate where
  title : Value
  description : Value
  correct_answer : Value
  content_hash : Value
  job_specific : Value
  generated_for_job : Value
  rest : Nat
  deriving DecidableEq, Repr

/-- The value of `JSON.parse(response)` when it does not throw: `null` (reading
a property of it throws), a number, string, boolean or array (reading `title`
gives `undefined`; `truthy` is its truth value), or an object. -/
inductive Json where
  | null
  | atom (truthy : Bool)
  | object (c : Candidate)
  deriving DecidableEq, Repr

/-- The truth value of a parsed value in a condition such as `isUnique && challenge`. -/
def Json.truthy : Json → Bool
  | .null => false
  | .atom t => t
  | .object _ => true

/-- The properties read from a parsed value that is not `null`: those of the
object, and `undefined` throughout for a number, string, boolean or array. -/
def Json.fields : Json → Candidate
  | .object c => c
  | _ => ⟨.undefined, .undefined, .undefined, .undefined, .undefined, .undefined, 0⟩

/-- What one `await InvokeLLM(...)` does: the promise rejects, or it resolves to
a text, given by what `JSON.parse` makes of it (`none`: a SyntaxError). -/
inductive Response where
  | rejected
  | text (parsed : Option Json)
  deriving DecidableEq, Repr

/-- The method `Set.prototype.has` on a set of hashes kept in insertion order. -/
def setHas (s : List JSString) (h : JSString) : Bool := decide (h ∈ s)

/-- The method `Set.prototype.add`: an element already present stays where it is. -/
def setAdd (s : List JSString) (h : JSString) : List JSString :=
  if h ∈ s then s else s ++ [h]

/-- One call of `InvokeLLM`: the item slot, the attempt number and the
`temperature` argument. -/
structure LLMCall where
  slot : Nat
  attempt : Nat
  temperature : Double
  deriving DecidableEq, Repr

/-- The local variables of the retry loop. -/
structure LoopVars where
  attempts : Nat
  challenge : Json
  isUnique : Bool
  deriving DecidableEq, Repr

namespace AIChallengeManager

/-- The state hook `const [maxDuplicateAttempts] = useState(3)`. -/
def maxDuplicateAttempts : Nat := 3

/-- The object passed to `Challenge.create` (lines 191-202). -/
structure ChallengeRecord where
  title : Value
  description : Value
  content_hash : Value
  rest : Nat
  is_ai_generated : Bool
  created_by_admin : Bool
  deriving DecidableEq, Repr

/-- The value `Challenge.create` resolves to: the stored record and its id. -/
structure SavedChallenge where
  id : Nat
  record : ChallengeRecord
  deriving DecidableEq, Repr

/-- The object passed to `AIChallengeAnswerKey.create` (lines 205-210). -/
structure AnswerKeyRecord where
  challenge_id : Nat
  correct_answer : Value
  explanation : Value
  deriving DecidableEq, Repr

/-- The collaborators of one run, indexed by the place of the call in the run:
what `InvokeLLM` does at attempt `k` of slot `i`, whether `Challenge.create`
of slot `i` resolves (to a record with the given id) or throws, and whether
`AIChallengeAnswerKey.create` of slot `i` resolves. -/
structure Env where
  InvokeLLM : Nat → Nat → Response
  challengeCreate : Nat → Option Nat
  answerKeyCreate : Nat → Bool

/-- What a run of `generateChallenges` reads and writes: the set object
`existingChallengeHashes` the run holds, the counter `duplicateAttempts`, the
local list `generatedChallenges`, and the calls made to the collaborators
(`createdChallenges` and `createdAnswerKeys` are the calls that resolved). -/
structure State where
  existingChallengeHashes : List JSString
  duplicateAttempts : Nat
  generatedChallenges : List SavedChallenge
  llmCalls : List LLMCall
  createCalls : List ChallengeRecord
  createdChallenges : List SavedChallenge
  answerKeyCalls : List AnswerKeyRecord
  createdAnswerKeys : List AnswerKeyRecord
  deriving DecidableEq, Repr

/-- The `while (!isUnique && attempts < maxDuplicateAttempts)` loop of slot `i`
(lines 151-187), run for at most `fuel` iterations. The first component is
`none` when `InvokeLLM` threw, which leaves the loop for the `catch` of the
slot; otherwise it holds the loop variables at the exit. -/
def whileLoop (env : Env) (i : Nat) : Nat → LoopVars → State → Option LoopVars × State
  | 0, v, st => (some v, st)
  | fuel + 1, v, st =>
    if !v.isUnique && decide (v.attempts < maxDuplicateAttempts) then
      let attempts := v.attempts + 1
      let st := { st with llmCalls := st.llmCalls ++ [⟨i, attempts, temperatureAt 8 attempts⟩] }
      match env.InvokeLLM i attempts with
      | .rejected => (none, st)
      | .text none => whileLoop env i fuel { v with attempts := attempts } st
      | .text (some .null) =>
        whileLoop env i fuel { v with attempts := attempts, challenge := .null } st
      | .text (some (.atom t)) =>
        whileLoop env i fuel { v with attempts := attempts, challenge := .atom t } st
      | .text (some (.object c)) =>
        match generateContentHash c.title c.description c.correct_answer with
        | none => whileLoop env i fuel { v with attempts := attempts, challenge := .object c } st
        | some contentHash =>
          if !setHas st.existingChallengeHashes contentHash then
            whileLoop env i fuel
              { attempts := attempts,
                challenge := .object { c with content_hash := .string contentHash },
                isUnique := true }
              { st with existingChallengeHashes := setAdd st.existingChallengeHashes contentHash }
          else
            whileLoop env i fuel { v with attempts := attempts, challenge := .object c }
              { st with duplicateAttempts := st.duplicateAttempts + 1 }
    else (some v, st)

/-- The branch `if (isUnique && challenge) { ... }` of slot `i` (lines 189-213):
`Challenge.create`, then `AIChallengeAnswerKey.create`, then the push onto
`generatedChallenges`; a throw of either call ends the slot in its `catch`. -/
def saveAccepted (env : Env) (i : Nat) (challenge : Candidate) (st : State) : State :=
  let record : ChallengeRecord :=
    { title := challenge.title, description := challenge.description,
      content_hash := challenge.content_hash, rest := challenge.rest,
      is_ai_generated := true, created_by_admin := true }
  let st := { st with createCalls := st.createCalls ++ [record] }
  match env.challengeCreate i with
  | none => st
  | some id =>
    let savedChallenge : SavedChallenge := ⟨id, record⟩
    let key : AnswerKeyRecord :=
      { challenge_id := savedChallenge.id, correct_answer := challenge.correct_answer,
        explanation := challenge.correct_answer }
    let st := { st with createdChallenges := st.createdChallenges ++ [savedChallenge],
                        answerKeyCalls := st.answerKeyCalls ++ [key] }
    if env.answerKeyCreate i then
      { st with createdAnswerKeys := st.createdAnswerKeys ++ [key],
                generatedChallenges := st.generatedChallenges ++ [savedChallenge] }
    else st

/-- The body of the `for` loop for slot `i` (lines 145-218): the retry loop,
then the saves when a unique challenge was found; a throw of `InvokeLLM` ends
the slot in its `catch`. -/
def slot (env : Env) (i : Nat) (st : State) : State :=
  match whileLoop env i maxDuplicateAttempts ⟨0, .null, false⟩ st with
  | (none, st) => st
  | (some v, st) =>
    if v.isUnique && v.challenge.truthy then saveAccepted env i v.challenge.fields st
    else st

/-- The loop `for (let i = 0; i < batchSize; i++)` (lines 144-219). -/
def forLoop (env : Env) (batchSize : Nat) (st : State) : State :=
  (List.range batchSize).foldl (fun st i => slot env i st) st

/-- The function `generateChallenges` (lines 131-225) on a component whose
state holds `selectedSkills`, `batchSize`, the set `existingChallengeHashes`
and the counter `duplicateAttempts`. Prompt building, progress display and
logging have no effect on the run and are left out; the closing
`loadInitialData()` builds a fresh set for the next render and leaves the set
object of this run as it is. -/
def generateChallenges (env : Env) (selectedSkills : List JSString) (batchSize : Nat)
    (existingChallengeHashes : List JSString) (duplicateAttempts : Nat) : State :=
  if selectedSkills.length == 0 then
    ⟨existingChallengeHashes, duplicateAttempts, [], [], [], [], [], []⟩
  else
    forLoop env batchSize ⟨existingChallengeHashes, 0, [], [], [], [], [], []⟩

end AIChallengeManager

namespace PostJobWithAI

/-- The part of the state `jobDetails` that `generateChallengesForJob` reads. -/
structure JobDetails where
  title : JSString
  description : JSString
  required_skills : List JSString
  deriving DecidableEq, Repr

/-- What a run of `generateChallengesForJob` reads and writes: the set object
`existingChallengeHashes` the run holds, the local list `newChallenges`, and
the calls made to `InvokeLLM`. -/
structure State where
  existingChallengeHashes : List JSString
  newChallenges : List Json
  llmCalls : List LLMCall
  deriving DecidableEq, Repr

/-- The `while (!isUnique && attempts < 3)` loop of slot `i` (lines 175-211),
run for at most `fuel` iterations; `InvokeLLM i k` is what the call at attempt
`k` of slot `i` does. The first component is `none` when `InvokeLLM` threw,
which leaves the loop for the `catch` of the slot. -/
def whileLoop (InvokeLLM : Nat → Nat → Response) (jobDetails : JobDetails) (i : Nat) :
    Nat → LoopVars → State → Option LoopVars × State
  | 0, v, st => (some v, st)
  | fuel + 1, v, st =>
    if !v.isUnique && decide (v.attempts < 3) then
      let attempts := v.attempts + 1
      let st := { st with llmCalls := st.llmCalls ++ [⟨i, attempts, temperatureAt 7 attempts⟩] }
      match InvokeLLM i attempts with
      | .rejected => (none, st)
      | .text none => whileLoop InvokeLLM jobDetails i fuel { v with attempts := attempts } st
      | .text (some .null) =>
        whileLoop InvokeLLM jobDetails i fuel { v with attempts := attempts, challenge := .null } st
      | .text (some (.atom t)) =>
        whileLoop InvokeLLM jobDetails i fuel
          { v with attempts := attempts, challenge := .atom t } st
      | .text (some (.object c)) =>
        match generateContentHash c.title c.description c.correct_answer with
        | none =>
          whileLoop InvokeLLM jobDetails i fuel
            { v with attempts := attempts, challenge := .object c } st
        | some contentHash =>
          if !setHas st.existingChallengeHashes contentHash then
            whileLoop InvokeLLM jobDetails i fuel
              { attempts := attempts,
                challenge := .object { c with content_hash := .string contentHash,
                                              job_specific := .boolean true,
                                              generated_for_job := .string jobDetails.title },
                isUnique := true }
              { st with existingChallengeHashes := setAdd st.existingChallengeHashes contentHash }
          else
            whileLoop InvokeLLM jobDetails i fuel
              { v with attempts := attempts, challenge := .object c } st
    else (some v, st)

/-- The body of the `for` loop for slot `i` (lines 169-220): the retry loop,
then the push when a unique challenge was found; a throw of `InvokeLLM` ends
the slot in its `catch`. -/
def slot (InvokeLLM : Nat → Nat → Response) (jobDetails : JobDetails) (i : Nat) (st : State) :
    State :=
  match whileLoop InvokeLLM jobDetails i 3 ⟨0, .null, false⟩ st with
  | (none, st) => st
  | (some v, st) =>
    if v.isUnique && v.challenge.truthy then
      { st with newChallenges := st.newChallenges ++ [v.challenge] }
    else st

/-- The loop `for (let i = 0; i < challengeSettings.number_of_challenges; i++)`
(lines 168-221). -/
def forLoop (InvokeLLM : Nat → Nat → Response) (jobDetails : JobDetails)
    (number_of_challenges : Nat) (st : State) : State :=
  (List.range number_of_challenges).foldl (fun st i => slot InvokeLLM jobDetails i st) st

/-- The function `generateChallengesForJob` (lines 152-225) on a component
whose state holds `jobDetails`, `challengeSettings.number_of_challenges`, the
set `existingChallengeHashes` and the list `generatedChallenges`. The field
`newChallenges` of the result is the list the component holds in
`generatedChallenges` afterwards. Prompt building, progress display and
logging have no effect on the run and are left out. -/
def generateChallengesForJob (InvokeLLM : Nat → Nat → Response) (jobDetails : JobDetails)
    (number_of_challenges : Nat) (existingChallengeHashes : List JSString)
    (generatedChallenges : List Json) : State :=
  if jobDetails.title.isEmpty || jobDetails.description.isEmpty ||
      jobDetails.required_skills.length == 0 then
    ⟨existingChallengeHashes, generatedChallenges, []⟩
  else
    forLoop InvokeLLM jobDetails number_of_challenges ⟨existingChallengeHashes, [], []⟩

end PostJobWithAI

/-! ## Notions used to state the properties -/

/-- Whether the retry loop accepts the response `r` against the set `seen`,
`hash` being the fingerprint function: `r` parses to an object whose title,
description and correct answer have a fingerprint, and it is not in `seen`. -/
def acceptable (hash : Value → Value → Value → Option JSString) (seen : List JSString) :
    Response → Bool
  | .text (some (.object c)) =>
    match hash c.title c.description c.correct_answer with
    | some h => !setHas seen h
    | none => false
  | _ => false

/-- Whether a slot whose calls are answered by `r 1`, `r 2`, `r 3` has an
acceptable attempt among its first three: some attempt `k` is acceptable
against `seen`, and no earlier call of the slot threw (a throw ends the slot). -/
def hasAcceptableAttempt (hash : Value → Value → Value → Option JSString)
    (seen : List JSString) (r : Nat → Response) : Prop :=
  ∃ k ∈ [1, 2, 3], acceptable hash seen (r k) = true ∧
    ∀ j ∈ List.range' 1 (k - 1), r j ≠ Response.rejected

instance (hash : Value → Value → Value → Option JSString) (seen : List JSString)
    (r : Nat → Response) : Decidable (hasAcceptableAttempt hash seen r) := by
  unfold hasAcceptableAttempt
  infer_instance

/-- Whether a value is a string. -/
def Value.isString : Value → Bool
  | .string _ => true
  | _ => false

/-- A malformed or incomplete response: the promise resolves, and the text is
not parseable as JSON or parses to a value lacking a string `title`,
`description` or `correct_answer`. -/
def Response.malformed : Response → Bool
  | .rejected => false
  | .text none => true
  | .text (some (.object c)) =>
    !(c.title.isString && c.description.isString && c.correct_answer.isString)
  | .text (some _) => true

/-- The calls of attempts `1` to `m` of slot `i`, with the temperature of
attempt `k` being the value of `b + (k * 0.1)` for the literal `b` of `base`
tenths. -/
def attemptCalls (base i m : Nat) : List LLMCall :=
  (List.range' 1 m).map (fun k => ⟨i, k, temperatureAt base k⟩)

/-- The calls of attempts `a + 1` to `m` of slot `i`. -/
def attemptCallsFrom (base i a m : Nat) : List LLMCall :=
  (List.range' (a + 1) (m - a)).map (fun k => ⟨i, k, temperatureAt base k⟩)

/-- An ASCII code unit other than `>`, `?`, `~` and DEL. The base64 text of
such units contains no `+` and no `/`. -/
def isPlain (u : Nat) : Bool := decide (u < 128) && decide (u % 64 < 62)

/-- The 6-bit groups of a byte sequence, in the order base64 writes them. -/
def sextets : List Nat → List Nat
  | [] => []
  | [a] => [a / 4, a % 4 * 16]
  | [a, b] => [a / 4, a % 4 * 16 + b / 16, b % 16 * 4]
  | a :: b :: c :: rest =>
    a / 4 :: (a % 4 * 16 + b / 16) :: (b % 16 * 4 + c / 64) :: c % 64 :: sextets rest

/-- The number of the first attempt among 1, 2, 3 whose response is acceptable
against `seen`, if there is one. -/
def firstAcceptable (hash : Value → Value → Value → Option JSString) (seen : List JSString)
    (r : Nat → Response) : Option Nat :=
  [1, 2, 3].find? (fun k => acceptable hash seen (r k))

/-- What can leave the `try` block of a slot as an exception: a rejected
`InvokeLLM`, a rejected `Challenge.create` or a rejected
`AIChallengeAnswerKey.create`. -/
inductive Thrown where
  | generation
  | challengeCreate
  | answerKeyCreate
  deriving DecidableEq, Repr

/-- The `try` block of slot `i` of `AIChallengeManager.generateChallenges`
(lines 145-216) with the exception that leaves it, if any; the `catch` that
follows logs the exception and lets the `for` loop go on. -/
def AIChallengeManager.tryBlock (env : AIChallengeManager.Env) (i : Nat)
    (st : AIChallengeManager.State) : Option Thrown × AIChallengeManager.State :=
  match AIChallengeManager.whileLoop env i AIChallengeManager.maxDuplicateAttempts
      ⟨0, .null, false⟩ st with
  | (none, st) => (some .generation, st)
  | (some v, st) =>
    if v.isUnique && v.challenge.truthy then
      match env.challengeCreate i with
      | none => (some .challengeCreate, AIChallengeManager.saveAccepted env i v.challenge.fields st)
      | some _ =>
        if env.answerKeyCreate i then
          (none, AIChallengeManager.saveAccepted env i v.challenge.fields st)
        else (some .answerKeyCreate, AIChallengeManager.saveAccepted env i v.challenge.fields st)
    else (none, st)

/-- The `try` block of slot `i` of `PostJobWithAI.generateChallengesForJob`
(lines 169-218) with the exception that leaves it, if any; the `catch` that
follows logs the exception and lets the `for` loop go on. -/
def PostJobWithAI.tryBlock (InvokeLLM : Nat → Nat → Response)
    (jobDetails : PostJobWithAI.JobDetails) (i : Nat) (st : PostJobWithAI.State) :
    Option Thrown × PostJobWithAI.State :=
  match PostJobWithAI.whileLoop InvokeLLM jobDetails i 3 ⟨0, .null, false⟩ st with
  | (none, st) => (some .generation, st)
  | (some v, st) =>
    if v.isUnique && v.challenge.truthy then
      (none, { st with newChallenges := st.newChallenges ++ [v.challenge] })
    else (none, st)

/-- Whether one of the two saves of slot `i` throws. -/
def AIChallengeManager.saveFails (env : AIChallengeManager.Env) (i : Nat) : Bool :=
  (env.challengeCreate i).isNone || !env.answerKeyCreate i

/-! ## Posting a job with its generated challenges (`PostJobWithAI.jsx`) -/

namespace PostJobWithAI

/-- The object passed to `Challenge.create` by `handlePostJob` (lines 255-260):
the properties of the challenge other than `correct_answer`, then
`job_post_id`, `is_ai_generated: true` and `created_by_admin: false`. -/
structure PostedChallenge where
  title : Value
  description : Value
  content_hash : Value
  job_specific : Value
  generated_for_job : Value
  rest : Nat
  job_post_id : Nat
  is_ai_generated : Bool
  created_by_admin : Bool
  deriving DecidableEq, Repr

/-- The object passed to `AIChallengeAnswerKey.create` by `handlePostJob`
(lines 263-268). -/
structure PostedAnswerKey where
  challenge_id : Nat
  correct_answer : Value
  explanation : Value
  deriving DecidableEq, Repr

/-- The collaborators of `handlePostJob`: whether `JobPost.create` resolves (to
a post with the given id) or throws, and for the `k`-th generated challenge
whether `Challenge.create` resolves (to a record with the given id) and
whether `AIChallengeAnswerKey.create` resolves. -/
structure PostEnv where
  jobPostCreate : Option Nat
  challengeCreate : Nat → Option Nat
  answerKeyCreate : Nat → Bool

/-- The messages `handlePostJob` shows with `alert`. -/
inductive Alert where
  | notLoggedIn
  | missingFields
  | posted (count : Nat)
  | error
  deriving DecidableEq, Repr

/-- What a call of `handlePostJob` does: the calls of `Challenge.create` and
`AIChallengeAnswerKey.create` (and those of them that resolved), the alerts
shown and whether it navigated to the dashboard. -/
structure PostState where
  createCalls : List PostedChallenge
  createdChallenges : List (Nat × PostedChallenge)
  answerKeyCalls : List PostedAnswerKey
  createdAnswerKeys : List PostedAnswerKey
  alerts : List Alert
  navigated : Bool
  deriving DecidableEq, Repr

/-- The argument of `Challenge.create` for one generated challenge. -/
def postedRecord (jobPostId : Nat) (c : Candidate) : PostedChallenge :=
  { title := c.title, description := c.description, content_hash := c.content_hash,
    job_specific := c.job_specific, generated_for_job := c.generated_for_job, rest := c.rest,
    job_post_id := jobPostId, is_ai_generated := true, created_by_admin := false }

/-- The loop `for (const challenge of generatedChallenges)` of `handlePostJob`
(lines 252-269), from the `k`-th challenge on. The first component tells
whether an exception left the loop: destructuring `null`, a rejected
`Challenge.create` or a rejected `AIChallengeAnswerKey.create`. -/
def saveChallenges (env : PostEnv) (jobPostId : Nat) :
    Nat → List Json → PostState → Bool × PostState
  | _, [], st => (false, st)
  | k, challenge :: rest, st =>
    match challenge with
    | .null => (true, st)
    | challenge =>
      let st := { st with createCalls := st.createCalls ++
        [postedRecord jobPostId challenge.fields] }
      match env.challengeCreate k with
      | none => (true, st)
      | some id =>
        let key : PostedAnswerKey :=
          ⟨id, challenge.fields.correct_answer, challenge.fields.correct_answer⟩
        let st := { st with
          createdChallenges := st.createdChallenges ++
            [(id, postedRecord jobPostId challenge.fields)],
          answerKeyCalls := st.answerKeyCalls ++ [key] }
        if env.answerKeyCreate k then
          saveChallenges env jobPostId (k + 1) rest
            { st with createdAnswerKeys := st.createdAnswerKeys ++ [key] }
        else (true, st)

/-- The function `handlePostJob` (lines 227-280) on a component whose state
holds `user` (its id when logged in), `jobDetails` and `generatedChallenges`. -/
def handlePostJob (env : PostEnv) (user : Option Nat) (jobDetails : JobDetails)
    (generatedChallenges : List Json) : PostState :=
  match user with
  | none => ⟨[], [], [], [], [.notLoggedIn], false⟩
  | some _ =>
    if jobDetails.title.isEmpty || jobDetails.description.isEmpty then
      ⟨[], [], [], [], [.missingFields], false⟩
    else
      match env.jobPostCreate with
      | none => ⟨[], [], [], [], [.error], false⟩
      | some jobPostId =>
        match (if generatedChallenges.length > 0 then
            saveChallenges env jobPostId 0 generatedChallenges ⟨[], [], [], [], [], false⟩
          else (false, ⟨[], [], [], [], [], false⟩)) with
        | (true, st) => { st with alerts := st.alerts ++ [.error] }
        | (false, st) =>
          { st with alerts := st.alerts ++ [.posted generatedChallenges.length],
                    navigated := true }

end PostJobWithAI

/-! ## The challenge routes of the server (`src/server/routes/challenges.js`) -/

namespace Server

/-- The two library functions the server hash is built from:
`String.prototype.toLowerCase` of the runtime and the SHA-256 digest in
hexadecimal, `crypto.createHash('sha256').update(s).digest('hex')`. -/
structure Runtime where
  toLowerCase : JSString → JSString
  sha256hex : JSString → JSString

/-- A property of a JSON request body as far as `+`, template literals and
truth tests tell values apart: absent, a `null`, boolean or number (with its
text and truth value), a string, or an array or object, with the text its
conversion to a primitive value gives, or `none` when that conversion throws
a TypeError (an object with an own `toString` property, which in JSON is
never a function, or an array holding one). -/
inductive BodyValue where
  | undefined
  | scalar (shown : JSString) (truthy : Bool)
  | string (s : JSString)
  | compound (shown : Option JSString)
  deriving DecidableEq, Repr

/-- The text of a value in string concatenation and in a template literal;
`none` when the conversion throws. -/
def BodyValue.text : BodyValue → Option JSString
  | .undefined => some (lit "undefined")
  | .scalar s _ => some s
  | .string s => some s
  | .compound s => s

/-- The truth value of a value in a condition. -/
def BodyValue.truthy : BodyValue → Bool
  | .undefined => false
  | .scalar _ t => t
  | .string s => !s.isEmpty
  | .compound _ => true

/-- The expression `a + b` when its value is a string: one of the operands is
a string, an array or an object, and the conversion of neither operand
throws. Otherwise (`none`) the value is a number or the expression throws a
TypeError. -/
def plus (a b : BodyValue) : Option JSString :=
  match a, b with
  | .undefined, .undefined => none
  | .undefined, .scalar _ _ => none
  | .scalar _ _, .undefined => none
  | .scalar _ _, .scalar _ _ => none
  | a, b =>
    match a.text, b.text with
    | some x, some y => some (x ++ y)
    | _, _ => none

/-- The helper `generateContentHash` (lines 8-10) on a string. -/
def generateContentHash (rt : Runtime) (content : JSString) : JSString :=
  rt.sha256hex (trim (rt.toLowerCase content))

/-- A row of the `challenge` table, as far as the routes use it. -/
structure StoredChallenge where
  id : Nat
  title : BodyValue
  description : BodyValue
  challenge_type : BodyValue
  content_hash : BodyValue
  created_by_user_id : Nat
  rest : Nat
  deriving DecidableEq, Repr

/-- A row of the `aIChallengeAnswerKey` table. -/
structure StoredAnswerKey where
  challenge_id : Nat
  correct_answer : BodyValue
  answer_explanation : BodyValue
  deriving DecidableEq, Repr

/-- The database. -/
structure Db where
  challenges : List StoredChallenge
  answerKeys : List StoredAnswerKey
  deriving DecidableEq, Repr

/-- The query `findFirst({ where: { content_hash } })`: whether a stored
challenge has this content hash. -/
def Db.hasHash (db : Db) (contentHash : JSString) : Bool :=
  db.challenges.any (fun c => decide (c.content_hash = .string contentHash))

/-- The database calls of one request that throw: the `findFirst` made when
the loop variable of `POST /generate-ai` is `i` (the one lookup of `POST /`
for `i = 0`), the `challenge.create`, the `aIChallengeAnswerKey.create`; and
the id the database gives to a created challenge. -/
structure Faults where
  findFirst : Nat → Bool
  create : Bool
  answerKeyCreate : Bool
  newId : Nat

/-- The outcome of `authenticateToken`: no token, a token that does not verify
(or a failing user query), a token of an unknown user, or a user with its id
and whether its role is `ADMIN` or `COMPANY`. -/
inductive Auth where
  | noToken
  | invalid
  | unknownUser
  | user (id : Nat) (adminOrCompany : Bool)
  deriving DecidableEq, Repr

/-- The body of `POST /`. -/
structure CreateBody where
  challenge_type : BodyValue
  title : BodyValue
  description : BodyValue
  content_hash : BodyValue
  correct_answer : BodyValue
  answer_explanation : BodyValue
  rest : Nat
  deriving DecidableEq, Repr

/-- A challenge returned by `POST /generate-ai` (lines 206-213). -/
structure GeneratedChallenge where
  title : JSString
  description : JSString
  category : JSString
  difficulty : BodyValue
  challenge_type : JSString
  content_hash : JSString
  correct_answer : JSString
  answer_explanation : JSString
  deriving DecidableEq, Repr

/-- The JSON sent back. -/
inductive Payload where
  | error (message : JSString)
  | challenge (c : StoredChallenge)
  | challenges (cs : List GeneratedChallenge)
  deriving DecidableEq, Repr

/-- An HTTP response: status code and JSON payload. -/
structure HttpResponse where
  status : Nat
  payload : Payload
  deriving DecidableEq, Repr

/-- The middlewares `authenticateToken, requireCompany` in front of a handler:
`handler` is what the route does for the user with the given id, `refused`
what becomes of a response sent by a middleware. -/
def guarded {α : Type} (auth : Auth) (handler : Nat → α) (refused : HttpResponse → α) : α :=
  match auth with
  | .noToken => refused ⟨401, .error (lit "Access token required")⟩
  | .invalid => refused ⟨403, .error (lit "Invalid or expired token")⟩
  | .unknownUser => refused ⟨401, .error (lit "User not found")⟩
  | .user id ok =>
    if ok then handler id else refused ⟨403, .error (lit "Insufficient permissions")⟩

/-- The handler of `POST /` (lines 13-56) for an authenticated user. -/
def createHandler (rt : Runtime) (faults : Faults) (body : CreateBody) (db : Db)
    (userId : Nat) : HttpResponse × Db :=
  let failed : HttpResponse := ⟨500, .error (lit "Failed to create challenge")⟩
  let store (contentHash : BodyValue) : HttpResponse × Db :=
    if faults.create then (failed, db)
    else
      let challenge : StoredChallenge :=
        { id := faults.newId, title := body.title, description := body.description,
          challenge_type := body.challenge_type, content_hash := contentHash,
          created_by_user_id := userId, rest := body.rest }
      let db := { db with challenges := db.challenges ++ [challenge] }
      if body.correct_answer.truthy then
        if faults.answerKeyCreate then (failed, db)
        else
          (⟨201, .challenge challenge⟩,
            { db with answerKeys := db.answerKeys ++
              [⟨challenge.id, body.correct_answer, body.answer_explanation⟩] })
      else (⟨201, .challenge challenge⟩, db)
  if body.challenge_type = .string (lit "ai_generated") then
    match plus body.title body.description with
    | none => (failed, db)
    | some content =>
      let contentHash := generateContentHash rt content
      if faults.findFirst 0 then (failed, db)
      else if db.hasHash contentHash then
        (⟨400, .error (lit
          "A similar challenge already exists. Please regenerate or modify the content.")⟩, db)
      else store (.string contentHash)
  else store body.content_hash

/-- The route `POST /` (lines 12-57). -/
def postChallenge (rt : Runtime) (faults : Faults) (auth : Auth) (body : CreateBody) (db : Db) :
    HttpResponse × Db :=
  guarded auth (createHandler rt faults body db) (fun response => (response, db))

/-- The decimal text of a number, as a template literal writes it. -/
def decimal (n : Nat) : JSString := (Nat.toDigits 10 n).map Char.toNat

/-- The value of `i + 1`, and of `i` after `i++`, for the loop variable `i` of
`POST /generate-ai`, a double that counts up from 0: exact below `2 ^ 53`,
where `2 ^ 53 + 1` is rounded back to `2 ^ 53` and the variable stops growing. -/
def increment (i : Nat) : Nat := if i < 2 ^ 53 then i + 1 else i

/-- One of the templates of `POST /generate-ai`. -/
structure Template where
  title : JSString
  description : JSString
  category : JSString
  deriving DecidableEq, Repr

/-- The array `templates` of iteration `i` (lines 180-196) for the text of
`job_title`. -/
def templates (jobTitle : JSString) (i : Nat) : List Template :=
  [ { title := lit "Forensic Analysis Case Study " ++ decimal (increment i),
      description := lit "Analyze the following financial discrepancies in a " ++ jobTitle ++
        lit " context: Review the provided financial statements and identify potential fraud indicators. Consider red flags such as unusual account fluctuations, timing discrepancies, and documentation gaps. Provide your analysis methodology and conclusions.",
      category := lit "fraud_detection" },
    { title := lit "Financial Investigation Scenario " ++ decimal (increment i),
      description := lit "You are investigating a potential embezzlement case for a client. Given the financial records and transaction history, identify suspicious patterns and calculate potential losses. Explain your investigative approach and key findings.",
      category := lit "investigation" },
    { title := lit "Compliance Review Challenge " ++ decimal (increment i),
      description := lit "Review the compliance documentation for a " ++ jobTitle ++
        lit " position. Identify gaps in internal controls and suggest improvements to prevent financial misconduct. Focus on segregation of duties and authorization protocols.",
      category := lit "compliance" } ]

/-- The expression `templates[i % templates.length]`. -/
def templateAt (jobTitle : JSString) (i : Nat) : Template :=
  ((templates jobTitle i).get? (i % (templates jobTitle i).length)).getD ⟨[], [], []⟩

/-- The local variables `challenges` and `usedHashes` of `POST /generate-ai`. -/
structure GenState where
  challenges : List GeneratedChallenge
  usedHashes : List JSString
  deriving DecidableEq, Repr

/-- The loop `for (let i = 0; i < count; i++)` of `POST /generate-ai` (lines
178-219) from iteration `i` on, with `remaining` iterations to go; `none`
when a `findFirst` throws. -/
def generateLoop (rt : Runtime) (faults : Faults) (db : Db) (jobTitle : JSString)
    (difficulty : BodyValue) : Nat → Nat → GenState → Option GenState
  | 0, _, st => some st
  | remaining + 1, i, st =>
    let template := templateAt jobTitle i
    let content := template.title ++ template.description
    let contentHash := generateContentHash rt content
    if !setHas st.usedHashes contentHash then
      if faults.findFirst i then none
      else if !db.hasHash contentHash then
        generateLoop rt faults db jobTitle difficulty remaining (increment i)
          { challenges := st.challenges ++
              [{ title := template.title, description := template.description,
                 category := template.category,
                 difficulty := if difficulty.truthy then difficulty
                               else .string (lit "intermediate"),
                 challenge_type := lit "ai_generated",
                 content_hash := contentHash,
                 correct_answer := lit "Sample answer: Analysis should include review of account reconciliations, examination of supporting documentation, and identification of control weaknesses.",
                 answer_explanation := lit "This challenge tests the candidate" ++ [39] ++
                   lit "s ability to systematically approach financial analysis and identify potential issues." }],
            usedHashes := setAdd st.usedHashes contentHash }
      else generateLoop rt faults db jobTitle difficulty remaining (increment i) st
    else generateLoop rt faults db jobTitle difficulty remaining (increment i) st

/-- The value of the property `count` of the body of `POST /generate-ai` as the
comparison `i < count` sees it: absent (the default 1 is taken), a value
whose conversion to a number throws a TypeError, `NaN`, the finite number
`num / den` (with `den` positive) or its negative, or an infinity. -/
inductive Count where
  | absent
  | throws
  | nan
  | finite (negative : Bool) (num den : Nat)
  | infinite (negative : Bool)
  deriving DecidableEq, Repr

/-- How the loop `for (let i = 0; i < count; i++)` ends by its condition: the
condition throws, the loop makes a number of iterations, or the condition
never gets false. -/
inductive Bound where
  | throws
  | iterations (n : Nat)
  | unbounded
  deriving DecidableEq, Repr

/-- The bound that a `count` puts on the loop: the iterations are those of the
integers `i` from 0 with `i < count`, their number for a positive `count`
being `count` rounded up; a `count` above `2 ^ 53` is never reached by the
loop variable. -/
def Count.bound : Count → Bound
  | .absent => .iterations 1
  | .throws => .throws
  | .nan => .iterations 0
  | .finite true _ _ => .iterations 0
  | .finite false num den =>
    if (num + den - 1) / den ≤ 2 ^ 53 then .iterations ((num + den - 1) / den) else .unbounded
  | .infinite true => .iterations 0
  | .infinite false => .unbounded

/-- The first `n` iterations of the loop of `POST /generate-ai` from its start;
`none` when one of them throws: the template literals of the first iteration
when `job_title` has no text, or a `findFirst`. -/
def generateRun (rt : Runtime) (faults : Faults) (db : Db) (jobTitle : BodyValue)
    (difficulty : BodyValue) (n : Nat) : Option GenState :=
  match n, jobTitle.text with
  | 0, _ => some ⟨[], []⟩
  | _ + 1, none => none
  | n + 1, some title => generateLoop rt faults db title difficulty (n + 1) 0 ⟨[], []⟩

/-- The handler of `POST /generate-ai` (lines 171-232); the database is only
read. The result is `none` when the handler never responds: the loop
variable cannot reach `count` and no iteration throws (from the iteration
with `i = 2 ^ 53` on every iteration repeats that one, a lookup failing or
not as that of its loop variable does). -/
def generateHandler (rt : Runtime) (faults : Faults) (db : Db) (jobTitle : BodyValue)
    (difficulty : BodyValue) (count : Count) : Option HttpResponse :=
  let failed : HttpResponse := ⟨500, .error (lit "Failed to generate AI challenges")⟩
  match count.bound with
  | .throws => some failed
  | .unbounded =>
    match generateRun rt faults db jobTitle difficulty (2 ^ 53 + 1) with
    | none => some failed
    | some _ => none
  | .iterations n =>
    match generateRun rt faults db jobTitle difficulty n with
    | none => some failed
    | some st =>
      if st.challenges.length == 0 then
        some ⟨400, .error (lit
          "All generated challenges already exist. Please try again for unique content.")⟩
      else some ⟨200, .challenges st.challenges⟩

/-- The route `POST /generate-ai` (lines 170-233); `none` when no response is
ever sent. -/
def postGenerateAI (rt : Runtime) (faults : Faults) (auth : Auth) (db : Db)
    (jobTitle : BodyValue) (difficulty : BodyValue) (count : Count) : Option HttpResponse :=
  guarded auth (fun _ => generateHandler rt faults db jobTitle difficulty count) some

end Server

/-! ## Seeding the seen set and building the prompt -/

/-- A challenge as `Challenge.list()` returns it, as far as `loadInitialData`
reads it: the property `content_hash`, a string when present (`none` stands
for an absent or `null` property). -/
structure ListedChallenge where
  content_hash : Option JSString
  rest : Nat
  deriving DecidableEq, Repr

/-- The statements that build the set `hashes` from the listed challenges
(lines 62-67 of `AIChallengeManager.jsx`, lines 69-74 of `PostJobWithAI.jsx`):
a `forEach` that adds every truthy `content_hash` to a new set. -/
def collectHashes (challengeList : List ListedChallenge) : List JSString :=
  challengeList.foldl
    (fun hashes challenge =>
      match challenge.content_hash with
      | some h => if !h.isEmpty then setAdd hashes h else hashes
      | none => hashes)
    []

/-- The function `loadInitialData` of `AIChallengeManager.jsx` (lines 51-75) as
far as the set `existingChallengeHashes` goes: `challengeList` is what
`Challenge.list()` resolves to (`none` when it rejects), `skillList` tells
whether `SkillTag.list()` resolves; when `Promise.all` rejects, the `catch`
leaves the state as it is. -/
def AIChallengeManager.loadInitialData (challengeList : Option (List ListedChallenge))
    (skillList : Bool) (existingChallengeHashes : List JSString) : List JSString :=
  match challengeList, skillList with
  | some challengeList, true => collectHashes challengeList
  | _, _ => existingChallengeHashes

/-- The function `loadInitialData` of `PostJobWithAI.jsx` (lines 56-78) as far
as the set `existingChallengeHashes` goes: `currentUser` and `skills` tell
whether `User.me()` and `SkillTag.list()` resolve, `existingChallenges` is
what `Challenge.list()` resolves to (`none` when it rejects); when
`Promise.all` rejects, the `catch` leaves the state as it is. -/
def PostJobWithAI.loadInitialData (currentUser skills : Bool)
    (existingChallenges : Option (List ListedChallenge))
    (existingChallengeHashes : List JSString) : List JSString :=
  match currentUser, skills, existingChallenges with
  | true, true, some existingChallenges => collectHashes existingChallenges
  | _, _, _ => existingChallengeHashes

/-- The method `Array.prototype.join` on an array of strings. -/
def join (sep : JSString) : List JSString → JSString
  | [] => []
  | [x] => x
  | x :: y :: rest => x ++ sep ++ join sep (y :: rest)

/-- The method `Array.prototype.slice(start)` with one argument: a negative
`start` counts from the end. -/
def slice (start : Int) (xs : List JSString) : List JSString :=
  if start < 0 then xs.drop (Int.toNat (xs.length + start))
  else xs.drop (min (Int.toNat start) xs.length)

/-- The call `s.split(', ')`, `acc` holding the characters of the current
piece in reverse: the pieces between the occurrences of comma and space,
found from left to right. -/
def splitCommaSpace : JSString → JSString → List JSString
  | [], acc => [acc.reverse]
  | [c], acc => [(c :: acc).reverse]
  | c :: d :: rest, acc =>
    if c = 44 ∧ d = 32 then acc.reverse :: splitCommaSpace rest []
    else splitCommaSpace (d :: rest) (c :: acc)

namespace AIChallengeManager

/-- The template literal of `generateAIPrompt` (lines 87-128) up to the
interpolation of `hashList`. -/
def promptHead (skillsText difficulty type : JSString) : JSString :=
  lit "You are an expert forensic accounting professional creating unique assessment challenges. \n\nCRITICAL REQUIREMENTS:\n1. Generate completely UNIQUE content - avoid any similarity to existing challenges\n2. Focus on " ++
    skillsText ++
    lit " skills at " ++
    difficulty ++
    lit " difficulty level\n3. Create " ++
    type ++
    lit " type challenges\n4. Each challenge must be substantively different from others\n" ++
    lit "5. Avoid these content patterns (hashes): "

/-- The template literal of `generateAIPrompt` (lines 87-128) after the
interpolation of `hashList`. -/
def promptTail (skillsText difficulty type firstSkill secondSkill : JSString) : JSString :=
  lit "\n\nCHALLENGE REQUIREMENTS:" ++
    lit "\n- Title: Concise, professional title (max 100 characters)\n- Description: Detailed scenario with specific context, numbers, and realistic details (200-500 words)\n- Correct Answer: Comprehensive solution with step-by-step reasoning (150-300 words)\n- Difficulty: " ++
    difficulty ++
    lit "\n- Skills: " ++
    skillsText ++
    lit "\n- Type: " ++
    type ++
    lit "\n\nSCENARIOS TO AVOID:\n- Generic fraud detection scenarios\n- Basic ratio analysis\n- Simple embezzlement cases\n- Standard audit procedures\n\nFOCUS ON UNIQUE ELEMENTS:\n- Specific industry contexts (healthcare, tech, manufacturing, etc.)\n- Modern fraud schemes (cryptocurrency, digital payments, remote work fraud)\n- Complex multi-jurisdictional cases\n- Emerging forensic technologies\n- Industry-specific compliance challenges\n\nGenerate a JSON object with this exact structure:\n\x7b\n  \"title\": \"Specific, unique challenge title\",\n  \"description\": \"Detailed, realistic scenario with specific context and data\",\n  \"correct_answer\": \"Comprehensive solution with methodology and reasoning\",\n  \"difficulty\": \"" ++
    difficulty ++
    lit "\",\n  \"skills\": [\"" ++
    firstSkill ++
    lit "\", \"" ++
    secondSkill ++
    lit "\"],\n  \"challenge_type\": \"" ++
    type ++
    lit "\",\n  \"estimated_time_minutes\": 30,\n  \"evaluation_criteria\": [\"accuracy\", \"methodology\", \"reasoning\", \"completeness\"]\n\x7d"

/-- The function `generateAIPrompt` (lines 84-129): the template literal with
`skillsText`, `difficulty`, `type`, `hashList` and the first two pieces of
`skillsText.split(', ')` filled in. -/
def generateAIPrompt (skills : List JSString) (difficulty type : JSString)
    (existingHashes : List JSString) : JSString :=
  let skillsText := join (lit ", ") skills
  let hashList := join (lit ", ") (slice (-20) existingHashes)
  let pieces := splitCommaSpace skillsText []
  let firstSkill := (pieces.get? 0).getD []
  let secondSkill :=
    match pieces.get? 1 with
    | some s => if !s.isEmpty then s else firstSkill
    | none => firstSkill
  promptHead skillsText difficulty type ++ hashList ++
    promptTail skillsText difficulty type firstSkill secondSkill

end AIChallengeManager

/-- Whether the response `r` of an attempt is a duplicate against the set
`seen`, `hash` being the fingerprint function: `r` parses to an object whose
title, description and correct answer have a fingerprint, and it is in `seen`. -/
def isDuplicateAttempt (hash : Value → Value → Value → Option JSString) (seen : List JSString) :
    Response → Bool
  | .text (some (.object c)) =>
    match hash c.title c.description c.correct_answer with
    | some h => setHas seen h
    | none => false
  | _ => false

/-- A lower-case ASCII letter, a digit or a space. -/
def isLowerDigitSpace (u : Nat) : Bool :=
  (decide (97 ≤ u) && decide (u ≤ 122)) || (decide (48 ≤ u) && decide (u ≤ 57)) || u == 32

/-- A response that parses to an object with a string title, description and
correct answer whose normalised content has a code unit above 255. -/
def Response.nonLatin1 : Response → Bool
  | .text (some (.object c)) =>
    match c.title, c.description, c.correct_answer with
    | .string t, .string d, .string a =>
      (norm t ++ norm d ++ norm a).any (fun u => decide (255 < u))
    | _, _, _ => false
  | _ => false

/-! ## Example inputs -/

/-- The candidate `{title: "T", description: "D", correct_answer: "A"}`. -/
def candidateTDA : Candidate :=
  ⟨.string (lit "T"), .string (lit "D"), .string (lit "A"), .undefined, .undefined, .undefined, 0⟩

/-- Collaborators whose generation call always does `r` and whose saves
succeed, `Challenge.create` of slot `i` giving the id `i`. -/
def envAlways (r : Response) : AIChallengeManager.Env :=
  ⟨fun _ _ => r, fun i => some i, fun _ => true⟩

/-- A job with a title, a description and one required skill. -/
def jobAuditor : PostJobWithAI.JobDetails :=
  ⟨lit "Auditor", lit "Audit the books", [lit "Fraud Detection"]⟩

/-- The candidate `{title: "T<i>", description: "D", correct_answer: "A"}` for a
one-digit `i`. -/
def candidateSlot (i : Nat) : Candidate :=
  ⟨.string (lit "T" ++ [48 + i]), .string (lit "D"), .string (lit "A"),
    .undefined, .undefined, .undefined, i⟩

/-- A generation client that answers every call of an even slot `i` with
`candidateSlot i` and every call of an odd slot with `candidateTDA`. -/
def partialClient (i _k : Nat) : Response :=
  .text (some (.object (if i % 2 = 0 then candidateSlot i else candidateTDA)))

/-- Collaborators answering like `partialClient`, whose `Challenge.create`
throws in slot 0 and succeeds in every other slot. -/
def envFirstSaveFails : AIChallengeManager.Env :=
  ⟨partialClient, fun i => if i = 0 then none else some i, fun _ => true⟩

/-- Collaborators of `handlePostJob` whose `JobPost.create` gives the id 7 and
whose `Challenge.create` throws for the first challenge only. -/
def postEnvFirstFails : PostJobWithAI.PostEnv :=
  ⟨some 7, fun k => if k = 0 then none else some k, fun _ => true⟩

/-- A runtime whose digest is the identity, a digest without collisions, with
the lower-casing of the client model. -/
def plainRuntime : Server.Runtime := ⟨toLowerCase, fun s => s⟩

/-- A request in which no database call throws; a created challenge gets the
id 1. -/
def noFaults : Server.Faults := ⟨fun _ => false, false, false, 1⟩

/-- The body `{challenge_type: "ai_generated", title, description,
correct_answer}` of a `POST /` request. -/
def aiBody (title description correctAnswer : Server.BodyValue) : Server.CreateBody :=
  ⟨.string (lit "ai_generated"), title, description, .undefined, correctAnswer, .undefined, 0⟩

/-- A database holding one challenge, of another user, whose content hash is
`"td"`. -/
def dbWithTD : Server.Db :=
  ⟨[⟨5, .string (lit "t"), .string (lit "D"), .string (lit "ai_generated"),
      .string (lit "td"), 2, 0⟩], []⟩

/-- The challenges `POST /generate-ai` builds, with the identity as digest,
for four iterations and the job title `"Auditor"` on the empty database. -/
def generated4 : List Server.GeneratedChallenge :=
  match Server.generateLoop plainRuntime noFaults ⟨[], []⟩ (lit "Auditor") .undefined 4 0
      ⟨[], []⟩ with
  | some st => st.challenges
  | none => []

/-- A request whose first duplicate lookup throws. -/
def firstLookupFails : Server.Faults := ⟨fun i => decide (i = 0), false, false, 1⟩

/-- The database after the challenges of `generated4` have been stored as
challenges of user 1. -/
def dbWithGenerated4 : Server.Db :=
  ⟨generated4.map (fun c => ⟨1, .string c.title, .string c.description,
      .string c.challenge_type, .string c.content_hash, 1, 0⟩), []⟩

/-- Collaborators whose generation call always returns `candidateTDA`, whose
`Challenge.create` of slot `i` gives the id `i`, and whose
`AIChallengeAnswerKey.create` always throws. -/
def envKeyFails : AIChallengeManager.Env :=
  ⟨fun _ _ => .text (some (.object candidateTDA)), fun i => some i, fun _ => false⟩

/-- A title of 24 lower-case letters. -/
def title24 : JSString := lit "forensic audit of ledger"

/-- A description with an em dash (U+2014). -/
def emDashText : JSString := lit "check " ++ [8212] ++ lit " twice"

/-- The response `{title: "forensic audit of ledger", description: "check —
twice", correct_answer: "a"}`, with an em dash in the description. -/
def emDashResponse : Response :=
  .text (some (.object ⟨.string title24, .string emDashText, .string (lit "a"),
    .undefined, .undefined, .undefined, 0⟩))

/-- The first challenge of `generated4`. -/
def firstGenerated : Server.GeneratedChallenge :=
  match generated4 with
  | c :: _ => c
  | [] => ⟨[], [], [], .undefined, [], [], [], []⟩

/-! ## Properties of the fingerprint -/

theorem lowerUnit_of_lower (v : Nat) (h1 : ¬(65 ≤ v ∧ v ≤ 90))
    (h2 : ¬(192 ≤ v ∧ v ≤ 222 ∧ v ≠ 215)) (h3 : v ≠ 376) (h4 : v ≠ 7838) (h5 : v ≠ 8490)
    (h6 : v ≠ 8491) : lowerUnit v = v := by
  simp only [lowerUnit, h1, h2, h3, h4, h5, h6, if_false]

theorem lowerUnit_idem (u : Nat) : lowerUnit (lowerUnit u) = lowerUnit u := by
  apply lowerUnit_of_lower <;> unfold lowerUnit <;> split_ifs <;> omega

theorem isWhiteSpace_lowerUnit (u : Nat) : isWhiteSpace (lowerUnit u) = isWhiteSpace u := by
  rw [Bool.eq_iff_iff]
  unfold lowerUnit
  split_ifs <;> simp [isWhiteSpace] <;> omega

theorem isWhiteSpace_comp_lowerUnit : isWhiteSpace ∘ lowerUnit = isWhiteSpace :=
  funext isWhiteSpace_lowerUnit

theorem trim_toLowerCase (s : JSString) : trim (toLowerCase s) = toLowerCase (trim s) := by
  simp only [trim, toLowerCase, List.rdropWhile, List.dropWhile_map, ← List.map_reverse,
    isWhiteSpace_comp_lowerUnit]

theorem toLowerCase_idem (s : JSString) : toLowerCase (toLowerCase s) = toLowerCase s := by
  simp [toLowerCase, lowerUnit_idem]

theorem dropWhile_rdropWhile_of_head (p : Nat → Bool) (m : List Nat)
    (hm : ∀ w : m ≠ [], p (m.head w) = false) :
    (m.rdropWhile p).dropWhile p = m.rdropWhile p := by
  have hpre : m.rdropWhile p <+: m := List.rdropWhile_prefix p m
  cases m with
  | nil => simp
  | cons a m' =>
    have ha : p a = false := hm (by simp)
    rcases List.prefix_cons_iff.mp hpre with h | ⟨t, ht, _⟩
    · rw [h]; rfl
    · rw [ht]; simp [ha]

theorem dropWhile_rdropWhile_dropWhile (p : Nat → Bool) (l : List Nat) :
    ((l.dropWhile p).rdropWhile p).dropWhile p = (l.dropWhile p).rdropWhile p :=
  dropWhile_rdropWhile_of_head p _ (fun w => List.head_dropWhile_not p l w)

theorem trim_idem (s : JSString) : trim (trim s) = trim s := by
  unfold trim
  rw [dropWhile_rdropWhile_dropWhile, List.rdropWhile_idempotent]

theorem norm_idem (s : JSString) : norm (norm s) = norm s := by
  unfold norm
  rw [trim_toLowerCase (trim (toLowerCase s)), trim_idem, ← trim_toLowerCase, toLowerCase_idem]

theorem AIChallengeManager.generateContentHash_string (t d c : JSString) :
    AIChallengeManager.generateContentHash (.string t) (.string d) (.string c)
      = (btoa (norm t ++ norm d ++ norm c)).map (fun b => substring0 32 (stripNonAlnum b)) := by
  simp only [AIChallengeManager.generateContentHash, Value.lowerTrim, norm, Option.bind_eq_bind,
    Option.some_bind, Option.pure_def]
  cases btoa (trim (toLowerCase t) ++ trim (toLowerCase d) ++ trim (toLowerCase c)) <;> rfl

theorem PostJobWithAI.generateContentHash_string_job (t d c : JSString) :
    PostJobWithAI.generateContentHash (.string t) (.string d) (.string c)
      = (btoa (norm t ++ norm d ++ norm c)).map (fun b => substring0 32 (stripNonAlnum b)) := by
  simp only [PostJobWithAI.generateContentHash, Value.lowerTrim, norm, Option.bind_eq_bind,
    Option.some_bind, Option.pure_def]
  cases btoa (trim (toLowerCase t) ++ trim (toLowerCase d) ++ trim (toLowerCase c)) <;> rfl

/-- Claim C6. Normalisation idempotence of the client fingerprint: for all
strings `t`, `d`, `c`, both `generateContentHash` functions give the same
result (the same hash, or an exception in both cases) on `(t, d, c)` and on
the trimmed, lower-cased fields `(norm t, norm d, norm c)`; in particular the
titles `" Title "` and `"title"` are not told apart. -/
theorem C6_normalization_idempotence :
    (∀ t d c : JSString,
      AIChallengeManager.generateContentHash (.string t) (.string d) (.string c)
        = AIChallengeManager.generateContentHash
            (.string (norm t)) (.string (norm d)) (.string (norm c))
      ∧ PostJobWithAI.generateContentHash (.string t) (.string d) (.string c)
        = PostJobWithAI.generateContentHash
            (.string (norm t)) (.string (norm d)) (.string (norm c)))
    ∧ (∀ d c : Value,
      AIChallengeManager.generateContentHash (.string (lit " Title ")) d c
        = AIChallengeManager.generateContentHash (.string (lit "title")) d c
      ∧ PostJobWithAI.generateContentHash (.string (lit " Title ")) d c
        = PostJobWithAI.generateContentHash (.string (lit "title")) d c) := by
  refine ⟨fun t d c => ?_, fun d c => ?_⟩
  · simp only [AIChallengeManager.generateContentHash_string,
      PostJobWithAI.generateContentHash_string_job, norm_idem, and_self]
  · have h : Value.lowerTrim (.string (lit " Title ")) = Value.lowerTrim (.string (lit "title")) := by
      decide
    simp only [AIChallengeManager.generateContentHash, PostJobWithAI.generateContentHash, h,
      and_self]

/-- Claim C7. The client fingerprint is determined by the separator-less
concatenation of the normalised fields in the order title, description,
correct answer: two triples with equal concatenations get the same result
from both `generateContentHash` functions. -/
theorem C7_concatenation_determines_hash (t1 d1 c1 t2 d2 c2 : JSString)
    (h : norm t1 ++ norm d1 ++ norm c1 = norm t2 ++ norm d2 ++ norm c2) :
    AIChallengeManager.generateContentHash (.string t1) (.string d1) (.string c1)
      = AIChallengeManager.generateContentHash (.string t2) (.string d2) (.string c2)
    ∧ PostJobWithAI.generateContentHash (.string t1) (.string d1) (.string c1)
      = PostJobWithAI.generateContentHash (.string t2) (.string d2) (.string c2) := by
  simp only [AIChallengeManager.generateContentHash_string,
    PostJobWithAI.generateContentHash_string_job, h, and_self]

/-- Witness of C7: the triples `("ab", "c", "X")` and `("a", "bc", " x")` have the
same normalised concatenation `"abcx"` and the same fingerprint. -/
theorem C7_concatenation_determines_hash_witness :
    (norm (lit "ab") ++ norm (lit "c") ++ norm (lit "X")
        = norm (lit "a") ++ norm (lit "bc") ++ norm (lit " x"))
    ∧ (AIChallengeManager.generateContentHash
          (.string (lit "ab")) (.string (lit "c")) (.string (lit "X"))
        = AIChallengeManager.generateContentHash
          (.string (lit "a")) (.string (lit "bc")) (.string (lit " x"))
      ∧ PostJobWithAI.generateContentHash
          (.string (lit "ab")) (.string (lit "c")) (.string (lit "X"))
        = PostJobWithAI.generateContentHash
          (.string (lit "a")) (.string (lit "bc")) (.string (lit " x"))) :=
  ⟨by decide, C7_concatenation_determines_hash _ _ _ _ _ _ (by decide)⟩

/-- Claim C8, counterexample. Replacing only the correct answer `"A1"` by
`"A2"` under the 24-character title `"forensic ledger review 1"` leaves the
fingerprint unchanged: the first 24 characters of the content already fill the
32 characters that are kept. -/
theorem C8_sensitivity_counterexample :
    norm (lit "A2") ≠ norm (lit "A1")
    ∧ AIChallengeManager.generateContentHash
        (.string (lit "forensic ledger review 1")) (.string (lit "D1")) (.string (lit "A2"))
      = AIChallengeManager.generateContentHash
        (.string (lit "forensic ledger review 1")) (.string (lit "D1")) (.string (lit "A1"))
    ∧ PostJobWithAI.generateContentHash
        (.string (lit "forensic ledger review 1")) (.string (lit "D1")) (.string (lit "A2"))
      = PostJobWithAI.generateContentHash
        (.string (lit "forensic ledger review 1")) (.string (lit "D1")) (.string (lit "A1"))
    ∧ AIChallengeManager.generateContentHash
        (.string (lit "forensic ledger review 1")) (.string (lit "D1")) (.string (lit "A1"))
      = some (lit "Zm9yZW5zaWMgbGVkZ2VyIHJldmlldyAx") := by
  decide

/-! ### The fingerprint of plain content -/

theorem isPlain_iff (u : Nat) : isPlain u = true ↔ u < 128 ∧ u % 64 < 62 := by
  simp [isPlain]

theorem base64Char_isAlnum (n : Nat) (h : n < 62) : isAlnum (base64Char n) = true := by
  unfold base64Char
  split_ifs <;> simp [isAlnum] <;> omega

theorem isAlnum_pad : isAlnum 61 = false := by decide

theorem base64Char_inj (m n : Nat) (hm : m < 64) (hn : n < 64)
    (h : base64Char m = base64Char n) : m = n := by
  unfold base64Char at h
  split_ifs at h <;> omega

theorem stripNonAlnum_base64Encode (x : List Nat) (hx : ∀ u ∈ x, isPlain u = true) :
    stripNonAlnum (base64Encode x) = (sextets x).map base64Char := by
  induction x using base64Encode.induct with
  | case1 => rfl
  | case2 a =>
    have ha := (isPlain_iff a).mp (hx a (by simp))
    simp [base64Encode, sextets, stripNonAlnum, List.filter_cons, isAlnum_pad,
      base64Char_isAlnum (a / 4) (by omega), base64Char_isAlnum (a % 4 * 16) (by omega)]
  | case3 a b =>
    have ha := (isPlain_iff a).mp (hx a (by simp))
    have hb := (isPlain_iff b).mp (hx b (by simp))
    simp [base64Encode, sextets, stripNonAlnum, List.filter_cons, isAlnum_pad,
      base64Char_isAlnum (a / 4) (by omega),
      base64Char_isAlnum (a % 4 * 16 + b / 16) (by omega),
      base64Char_isAlnum (b % 16 * 4) (by omega)]
  | case4 a b c rest ih =>
    have ha := (isPlain_iff a).mp (hx a (by simp))
    have hb := (isPlain_iff b).mp (hx b (by simp))
    have hc := (isPlain_iff c).mp (hx c (by simp))
    have ih' := ih (fun u hu => hx u (by simp [hu]))
    simp only [stripNonAlnum] at ih'
    simp [base64Encode, sextets, stripNonAlnum, List.filter_cons, ih',
      base64Char_isAlnum (a / 4) (by omega),
      base64Char_isAlnum (a % 4 * 16 + b / 16) (by omega),
      base64Char_isAlnum (b % 16 * 4 + c / 64) (by omega),
      base64Char_isAlnum (c % 64) (by omega)]

theorem sextets_length_le (x : List Nat) : 3 * (sextets x).length ≤ 4 * x.length + 2 := by
  induction x using sextets.induct with
  | case1 => simp [sextets]
  | case2 a => simp [sextets]
  | case3 a b => simp [sextets]
  | case4 a b c rest ih => simp only [sextets, List.length_cons]; omega

theorem sextets_lt (x : List Nat) (hx : ∀ u ∈ x, u < 256) : ∀ v ∈ sextets x, v < 64 := by
  induction x using sextets.induct with
  | case1 => simp [sextets]
  | case2 a =>
    have ha := hx a (by simp)
    intro v hv
    simp only [sextets, List.mem_cons, List.mem_singleton, List.not_mem_nil, or_false] at hv
    omega
  | case3 a b =>
    have ha := hx a (by simp)
    have hb := hx b (by simp)
    intro v hv
    simp only [sextets, List.mem_cons, List.mem_singleton, List.not_mem_nil, or_false] at hv
    omega
  | case4 a b c rest ih =>
    have ha := hx a (by simp)
    have hb := hx b (by simp)
    have hc := hx c (by simp)
    have ih' := ih (fun u hu => hx u (by simp [hu]))
    intro v hv
    simp only [sextets, List.mem_cons] at hv
    rcases hv with h | h | h | h | h
    · omega
    · omega
    · omega
    · omega
    · exact ih' v h

theorem sextets_inj (x : List Nat) : ∀ (y : List Nat), (∀ u ∈ x, u < 256) →
    (∀ u ∈ y, u < 256) → sextets x = sextets y → x = y := by
  induction x using sextets.induct with
  | case1 =>
    intro y _ _ h
    match y with
    | [] => rfl
    | [_] => simp [sextets] at h
    | [_, _] => simp [sextets] at h
    | _ :: _ :: _ :: _ => simp [sextets] at h
  | case2 a =>
    intro y hx hy h
    match y, hy with
    | [], _ => simp [sextets] at h
    | [a0], hy =>
      have ha := hx a (by simp)
      have hb := hy a0 (by simp)
      simp only [sextets, List.cons.injEq, and_true] at h
      have : a = a0 := by omega
      rw [this]
    | [_, _], _ => simp [sextets] at h
    | _ :: _ :: _ :: _, _ => simp [sextets] at h
  | case3 a b =>
    intro y hx hy h
    match y, hy with
    | [], _ => simp [sextets] at h
    | [_], _ => simp [sextets] at h
    | [a0, b0], hy =>
      have h1 := hx a (by simp)
      have h2 := hx b (by simp)
      have h3 := hy a0 (by simp)
      have h4 := hy b0 (by simp)
      simp only [sextets, List.cons.injEq, and_true] at h
      have e1 : a = a0 := by omega
      have e2 : b = b0 := by omega
      rw [e1, e2]
    | _ :: _ :: _ :: _, _ => simp [sextets] at h
  | case4 a b c rest ih =>
    intro y hx hy h
    match y, hy with
    | [], _ => simp [sextets] at h
    | [_], _ => simp [sextets] at h
    | [_, _], _ => simp [sextets] at h
    | a0 :: b0 :: c0 :: rest0, hy =>
      have h1 := hx a (by simp)
      have h2 := hx b (by simp)
      have h3 := hx c (by simp)
      have h4 := hy a0 (by simp)
      have h5 := hy b0 (by simp)
      have h6 := hy c0 (by simp)
      simp only [sextets, List.cons.injEq] at h
      obtain ⟨g1, g2, g3, g4, g5⟩ := h
      have e1 : a = a0 := by omega
      have e2 : b = b0 := by omega
      have e3 : c = c0 := by omega
      have e4 : rest = rest0 :=
        ih rest0 (fun u hu => hx u (by simp [hu])) (fun u hu => hy u (by simp [hu])) g5
      rw [e1, e2, e3, e4]

theorem map_base64Char_inj (l1 : List Nat) : ∀ (l2 : List Nat), (∀ v ∈ l1, v < 64) →
    (∀ v ∈ l2, v < 64) → l1.map base64Char = l2.map base64Char → l1 = l2 := by
  induction l1 with
  | nil =>
    intro l2 _ _ h
    cases l2 with
    | nil => rfl
    | cons _ _ => simp at h
  | cons a l ih =>
    intro l2 h1 h2 h
    cases l2 with
    | nil => simp at h
    | cons b l0 =>
      simp only [List.map_cons, List.cons.injEq] at h
      have e1 : a = b := base64Char_inj a b (h1 a (by simp)) (h2 b (by simp)) h.1
      have e2 : l = l0 :=
        ih l0 (fun v hv => h1 v (by simp [hv])) (fun v hv => h2 v (by simp [hv])) h.2
      rw [e1, e2]

theorem sextets_append (j : Nat) : ∀ (p r : List Nat), p.length = 3 * j →
    sextets (p ++ r) = sextets p ++ sextets r ∧ (sextets p).length = 4 * j := by
  induction j with
  | zero =>
    intro p r hp
    have : p = [] := List.length_eq_zero.mp (by omega)
    subst this
    exact ⟨rfl, rfl⟩
  | succ j ih =>
    intro p r hp
    match p, hp with
    | a :: b :: c :: rest, hp =>
      have hr : rest.length = 3 * j := by simp only [List.length_cons] at hp; omega
      obtain ⟨i1, i2⟩ := ih rest r hr
      constructor
      · rw [show (a :: b :: c :: rest) ++ r = a :: b :: c :: (rest ++ r) from rfl]
        simp only [sextets, i1, List.cons_append]
      · simp only [sextets, List.length_cons, i2]; omega

/-- The fingerprint of plain content is the base64 text of its first 24
characters, without padding. -/
theorem fingerprint_plain (k : JSString) (hk : ∀ u ∈ k, isPlain u = true) :
    substring0 32 (stripNonAlnum (base64Encode k)) = (sextets (k.take 24)).map base64Char := by
  rw [stripNonAlnum_base64Encode k hk, substring0]
  rcases le_or_lt k.length 24 with h | h
  · rw [List.take_of_length_le h]
    apply List.take_of_length_le
    have := sextets_length_le k
    rw [List.length_map]
    omega
  · have hlen : (k.take 24).length = 3 * 8 := by rw [List.length_take]; omega
    obtain ⟨e1, e2⟩ := sextets_append 8 (k.take 24) (k.drop 24) hlen
    rw [List.take_append_drop] at e1
    rw [e1, List.map_append]
    apply List.take_left'
    rw [List.length_map, e2]

theorem btoa_plain (k : JSString) (hk : ∀ u ∈ k, isPlain u = true) :
    btoa k = some (base64Encode k) := by
  have : k.all (fun u => decide (u ≤ 255)) = true := by
    rw [List.all_eq_true]
    intro u hu
    have := (isPlain_iff u).mp (hk u hu)
    simp only [decide_eq_true_eq]
    omega
  simp [btoa, this]

/-- On plain content the fingerprint is defined, and two contents have the same
fingerprint exactly when their first 24 characters agree. -/
theorem generateContentHash_plain_eq_iff (t1 d1 c1 t2 d2 c2 : JSString)
    (h1 : ∀ u ∈ norm t1 ++ norm d1 ++ norm c1, isPlain u = true)
    (h2 : ∀ u ∈ norm t2 ++ norm d2 ++ norm c2, isPlain u = true) :
    AIChallengeManager.generateContentHash (.string t1) (.string d1) (.string c1)
      = AIChallengeManager.generateContentHash (.string t2) (.string d2) (.string c2)
    ↔ (norm t1 ++ norm d1 ++ norm c1).take 24 = (norm t2 ++ norm d2 ++ norm c2).take 24 := by
  rw [AIChallengeManager.generateContentHash_string, AIChallengeManager.generateContentHash_string,
    btoa_plain _ h1, btoa_plain _ h2]
  simp only [Option.map_some', Option.some.injEq]
  rw [fingerprint_plain _ h1, fingerprint_plain _ h2]
  have b1 : ∀ u ∈ (norm t1 ++ norm d1 ++ norm c1).take 24, u < 256 := fun u hu => by
    have := (isPlain_iff u).mp (h1 u (List.mem_of_mem_take hu)); omega
  have b2 : ∀ u ∈ (norm t2 ++ norm d2 ++ norm c2).take 24, u < 256 := fun u hu => by
    have := (isPlain_iff u).mp (h2 u (List.mem_of_mem_take hu)); omega
  constructor
  · intro h
    exact sextets_inj _ _ b1 b2
      (map_base64Char_inj _ _ (sextets_lt _ b1) (sextets_lt _ b2) h)
  · intro h
    rw [h]

/-- Claim C8, amended. Sensitivity within the first 24 characters: when the
normalised concatenations before and after the replacement of one field (the
title, the description or the correct answer) consist of ASCII characters
other than `>`, `?`, `~` and DEL, both `generateContentHash` functions return
a different fingerprint for the changed triple if and only if the first 24
characters of the normalised concatenation differ. -/
theorem C8_sensitivity_first_24 (t d c x : JSString)
    (h0 : ∀ u ∈ norm t ++ norm d ++ norm c, isPlain u = true) :
    ((∀ u ∈ norm x ++ norm d ++ norm c, isPlain u = true) →
      ((AIChallengeManager.generateContentHash (.string x) (.string d) (.string c)
            ≠ AIChallengeManager.generateContentHash (.string t) (.string d) (.string c)
          ↔ (norm x ++ norm d ++ norm c).take 24 ≠ (norm t ++ norm d ++ norm c).take 24)
        ∧ (PostJobWithAI.generateContentHash (.string x) (.string d) (.string c)
            ≠ PostJobWithAI.generateContentHash (.string t) (.string d) (.string c)
          ↔ (norm x ++ norm d ++ norm c).take 24 ≠ (norm t ++ norm d ++ norm c).take 24)))
    ∧ ((∀ u ∈ norm t ++ norm x ++ norm c, isPlain u = true) →
      ((AIChallengeManager.generateContentHash (.string t) (.string x) (.string c)
            ≠ AIChallengeManager.generateContentHash (.string t) (.string d) (.string c)
          ↔ (norm t ++ norm x ++ norm c).take 24 ≠ (norm t ++ norm d ++ norm c).take 24)
        ∧ (PostJobWithAI.generateContentHash (.string t) (.string x) (.string c)
            ≠ PostJobWithAI.generateContentHash (.string t) (.string d) (.string c)
          ↔ (norm t ++ norm x ++ norm c).take 24 ≠ (norm t ++ norm d ++ norm c).take 24)))
    ∧ ((∀ u ∈ norm t ++ norm d ++ norm x, isPlain u = true) →
      ((AIChallengeManager.generateContentHash (.string t) (.string d) (.string x)
            ≠ AIChallengeManager.generateContentHash (.string t) (.string d) (.string c)
          ↔ (norm t ++ norm d ++ norm x).take 24 ≠ (norm t ++ norm d ++ norm c).take 24)
        ∧ (PostJobWithAI.generateContentHash (.string t) (.string d) (.string x)
            ≠ PostJobWithAI.generateContentHash (.string t) (.string d) (.string c)
          ↔ (norm t ++ norm d ++ norm x).take 24 ≠ (norm t ++ norm d ++ norm c).take 24))) := by
  refine ⟨fun h => ?_, fun h => ?_, fun h => ?_⟩ <;>
    exact ⟨not_congr (generateContentHash_plain_eq_iff _ _ _ _ _ _ h h0),
      not_congr (generateContentHash_plain_eq_iff _ _ _ _ _ _ h h0)⟩

/-- Witness of C8 (amended): in the triple `("T", "D", "A")`, replacing the
title, the description or the answer by `"B"` changes the fingerprint. -/
theorem C8_sensitivity_first_24_witness :
    AIChallengeManager.generateContentHash (.string (lit "B")) (.string (lit "D")) (.string (lit "A"))
      ≠ AIChallengeManager.generateContentHash
          (.string (lit "T")) (.string (lit "D")) (.string (lit "A"))
    ∧ PostJobWithAI.generateContentHash (.string (lit "T")) (.string (lit "B")) (.string (lit "A"))
      ≠ PostJobWithAI.generateContentHash
          (.string (lit "T")) (.string (lit "D")) (.string (lit "A"))
    ∧ AIChallengeManager.generateContentHash (.string (lit "T")) (.string (lit "D")) (.string (lit "B"))
      ≠ AIChallengeManager.generateContentHash
          (.string (lit "T")) (.string (lit "D")) (.string (lit "A")) :=
  have w := C8_sensitivity_first_24 (lit "T") (lit "D") (lit "A") (lit "B") (by decide)
  ⟨((w.1 (by decide)).1).mpr (by decide), ((w.2.1 (by decide)).2).mpr (by decide),
    ((w.2.2 (by decide)).1).mpr (by decide)⟩

/-- Claim C9, counterexample. For title `"T"`, description `"D"` and answer
`"A"` both functions return `"dGRh"`, which has 4 characters, not 32. -/
theorem C9_fixed_length_counterexample :
    AIChallengeManager.generateContentHash
        (.string (lit "T")) (.string (lit "D")) (.string (lit "A")) = some (lit "dGRh")
    ∧ PostJobWithAI.generateContentHash
        (.string (lit "T")) (.string (lit "D")) (.string (lit "A")) = some (lit "dGRh")
    ∧ (lit "dGRh").length ≠ 32 := by
  decide

/-- Claim C9, amended. Whenever one of the two `generateContentHash` functions
returns a fingerprint, it has at most 32 characters, all of them ASCII letters
or digits. -/
theorem C9_fingerprint_length_le (title description correctAnswer : Value) (h : JSString)
    (hh : AIChallengeManager.generateContentHash title description correctAnswer = some h
      ∨ PostJobWithAI.generateContentHash title description correctAnswer = some h) :
    h.length ≤ 32 ∧ ∀ u ∈ h, isAlnum u = true := by
  have key : ∀ b : JSString, (substring0 32 (stripNonAlnum b)).length ≤ 32
      ∧ ∀ u ∈ substring0 32 (stripNonAlnum b), isAlnum u = true := by
    intro b
    refine ⟨by simp [substring0], fun u hu => ?_⟩
    have hu' : u ∈ stripNonAlnum b := List.mem_of_mem_take hu
    exact (List.mem_filter.mp hu').2
  cases title <;> cases description <;> cases correctAnswer <;>
    simp only [AIChallengeManager.generateContentHash, PostJobWithAI.generateContentHash,
      Value.lowerTrim, Option.bind_eq_bind, Option.some_bind, Option.none_bind, Option.pure_def,
      or_self, reduceCtorEq] at hh
  rename_i t d c
  cases hb : btoa (trim (toLowerCase t) ++ trim (toLowerCase d) ++ trim (toLowerCase c)) with
  | none => simp only [hb, Option.none_bind, or_self, reduceCtorEq] at hh
  | some b =>
    simp only [hb, Option.some_bind, Option.some.injEq, or_self] at hh
    subst hh
    exact key b

/-- Witness of C9 (amended): the fingerprint `"dGRh"` of `("T", "D", "A")`. -/
theorem C9_fingerprint_length_le_witness :
    (lit "dGRh").length ≤ 32 ∧ ∀ u ∈ lit "dGRh", isAlnum u = true :=
  C9_fingerprint_length_le (.string (lit "T")) (.string (lit "D")) (.string (lit "A"))
    (lit "dGRh") (Or.inl (by decide))

/-! ## Properties of the retry loop of `AIChallengeManager.jsx` -/

theorem attemptCallsFrom_zero (base i m : Nat) :
    attemptCallsFrom base i 0 m = attemptCalls base i m := rfl

theorem attemptCallsFrom_self (base i a : Nat) : attemptCallsFrom base i a a = [] := by
  simp [attemptCallsFrom]

theorem attemptCallsFrom_succ (base i a m : Nat) (h : a < m) :
    attemptCallsFrom base i a m = ⟨i, a + 1, temperatureAt base (a + 1)⟩ :: attemptCallsFrom base i (a + 1) m := by
  unfold attemptCallsFrom
  obtain ⟨n, rfl⟩ : ∃ n, m = a + 1 + n := ⟨m - (a + 1), by omega⟩
  have h1 : a + 1 + n - a = n + 1 := by omega
  have h2 : a + 1 + n - (a + 1) = n := by omega
  rw [h1, h2, List.range'_succ, List.map_cons]

theorem acceptable_eq_true_iff (hash : Value → Value → Value → Option JSString)
    (seen : List JSString) (r : Response) :
    acceptable hash seen r = true ↔
      ∃ c h, r = .text (some (.object c)) ∧ hash c.title c.description c.correct_answer = some h
        ∧ h ∉ seen := by
  constructor
  · intro hacc
    match r, hacc with
    | .text (some (.object c)), hacc =>
      simp only [acceptable] at hacc
      cases hh : hash c.title c.description c.correct_answer with
      | none => simp [hh] at hacc
      | some h =>
        refine ⟨c, h, rfl, hh, ?_⟩
        simpa [hh, setHas] using hacc
  · rintro ⟨c, h, rfl, hh, hn⟩
    simp [acceptable, hh, setHas, hn]

namespace AIChallengeManager

theorem whileLoop_exit (env : Env) (i fuel : Nat) (v : LoopVars) (st : State)
    (h : v.isUnique = true ∨ maxDuplicateAttempts ≤ v.attempts) :
    whileLoop env i fuel v st = (some v, st) := by
  cases fuel with
  | zero => rfl
  | succ n =>
    have hc : (!v.isUnique && decide (v.attempts < maxDuplicateAttempts)) = false := by
      rcases h with h | h
      · simp [h]
      · simp [Nat.not_lt.mpr h]
    simp [whileLoop, hc]

theorem whileLoop_rejected (env : Env) (i fuel : Nat) (v : LoopVars) (st : State)
    (hu : v.isUnique = false) (ha : v.attempts < maxDuplicateAttempts)
    (hr : env.InvokeLLM i (v.attempts + 1) = .rejected) :
    whileLoop env i (fuel + 1) v st
      = (none, { st with llmCalls := st.llmCalls ++ [⟨i, v.attempts + 1, temperatureAt 8 (v.attempts + 1)⟩] }) := by
  simp [whileLoop, hu, ha, hr]

theorem whileLoop_accept (env : Env) (i fuel : Nat) (v : LoopVars) (st : State)
    (c : Candidate) (h : JSString)
    (hu : v.isUnique = false) (ha : v.attempts < maxDuplicateAttempts)
    (hr : env.InvokeLLM i (v.attempts + 1) = .text (some (.object c)))
    (hh : generateContentHash c.title c.description c.correct_answer = some h)
    (hn : h ∉ st.existingChallengeHashes) :
    whileLoop env i (fuel + 1) v st
      = (some ⟨v.attempts + 1, .object { c with content_hash := .string h }, true⟩,
         { st with llmCalls := st.llmCalls ++ [⟨i, v.attempts + 1, temperatureAt 8 (v.attempts + 1)⟩],
                   existingChallengeHashes := st.existingChallengeHashes ++ [h] }) := by
  simp [whileLoop, hu, ha, hr, hh, hn, setHas, setAdd, whileLoop_exit]

theorem whileLoop_retry (env : Env) (i : Nat) (v : LoopVars) (st : State)
    (hu : v.isUnique = false) (ha : v.attempts < maxDuplicateAttempts)
    (hr : env.InvokeLLM i (v.attempts + 1) ≠ .rejected)
    (hacc : acceptable generateContentHash st.existingChallengeHashes
      (env.InvokeLLM i (v.attempts + 1)) = false) :
    ∃ ch d, ∀ fuel, whileLoop env i (fuel + 1) v st
      = whileLoop env i fuel ⟨v.attempts + 1, ch, false⟩
          { st with llmCalls := st.llmCalls ++ [⟨i, v.attempts + 1, temperatureAt 8 (v.attempts + 1)⟩],
                    duplicateAttempts := st.duplicateAttempts + d } := by
  obtain ⟨a, ch0, u⟩ := v
  simp only at hu ha hr hacc
  subst hu
  cases hresp : env.InvokeLLM i (a + 1) with
  | rejected => exact absurd hresp hr
  | text p =>
    cases p with
    | none => exact ⟨ch0, 0, fun fuel => by simp [whileLoop, ha, hresp]⟩
    | some j =>
      cases j with
      | null => exact ⟨.null, 0, fun fuel => by simp [whileLoop, ha, hresp]⟩
      | atom t => exact ⟨.atom t, 0, fun fuel => by simp [whileLoop, ha, hresp]⟩
      | object c =>
        cases hh : generateContentHash c.title c.description c.correct_answer with
        | none => exact ⟨.object c, 0, fun fuel => by simp [whileLoop, ha, hresp, hh]⟩
        | some h =>
          have hs : setHas st.existingChallengeHashes h = true := by
            simpa [acceptable, hresp, hh] using hacc
          exact ⟨.object c, 1, fun fuel => by simp [whileLoop, ha, hresp, hh, hs]⟩

end AIChallengeManager

namespace AIChallengeManager

/-- The three ways the retry loop of slot `i` ends when started with
`fuel = maxDuplicateAttempts - attempts` iterations left: attempt `m` is
accepted, attempt `m` throws, or all attempts are used without acceptance.
Every attempt before `m` was a consumed attempt. -/
theorem whileLoop_spec (env : Env) (i : Nat) : ∀ (fuel : Nat) (v : LoopVars) (st : State),
    v.isUnique = false → v.attempts + fuel = maxDuplicateAttempts →
    ∃ m d, v.attempts ≤ m ∧ m ≤ maxDuplicateAttempts ∧
      (∀ k, v.attempts < k → k < m → env.InvokeLLM i k ≠ .rejected ∧
        acceptable generateContentHash st.existingChallengeHashes (env.InvokeLLM i k) = false) ∧
      ((v.attempts < m ∧ ∃ c h, env.InvokeLLM i m = .text (some (.object c)) ∧
          generateContentHash c.title c.description c.correct_answer = some h ∧
          h ∉ st.existingChallengeHashes ∧
          whileLoop env i fuel v st
            = (some ⟨m, .object { c with content_hash := .string h }, true⟩,
               { st with llmCalls := st.llmCalls ++ attemptCallsFrom 8 i v.attempts m,
                         duplicateAttempts := st.duplicateAttempts + d,
                         existingChallengeHashes := st.existingChallengeHashes ++ [h] }))
       ∨ (v.attempts < m ∧ env.InvokeLLM i m = .rejected ∧
          whileLoop env i fuel v st
            = (none, { st with llmCalls := st.llmCalls ++ attemptCallsFrom 8 i v.attempts m,
                               duplicateAttempts := st.duplicateAttempts + d }))
       ∨ (m = maxDuplicateAttempts ∧
          (v.attempts < m → env.InvokeLLM i m ≠ .rejected ∧
            acceptable generateContentHash st.existingChallengeHashes (env.InvokeLLM i m) = false) ∧
          ∃ ch, whileLoop env i fuel v st
            = (some ⟨m, ch, false⟩,
               { st with llmCalls := st.llmCalls ++ attemptCallsFrom 8 i v.attempts m,
                         duplicateAttempts := st.duplicateAttempts + d }))) := by
  intro fuel
  induction fuel with
  | zero =>
    intro v st hu hf
    obtain ⟨a, ch0, u⟩ := v
    simp only at hu hf
    subst hu
    simp only [Nat.add_zero] at hf
    subst hf
    refine ⟨maxDuplicateAttempts, 0, le_refl _, le_refl _,
      fun k h1 h2 => absurd h2 (Nat.not_lt.mpr (Nat.le_of_lt h1)), ?_⟩
    right; right
    refine ⟨rfl, fun h => absurd h (lt_irrefl _), ch0, ?_⟩
    simp [whileLoop, attemptCallsFrom_self]
  | succ fuel ih =>
    intro v st hu hf
    have ha : v.attempts < maxDuplicateAttempts := by omega
    by_cases hr : env.InvokeLLM i (v.attempts + 1) = .rejected
    · refine ⟨v.attempts + 1, 0, by omega, by omega, fun k h1 h2 => by omega, ?_⟩
      right; left
      refine ⟨by omega, hr, ?_⟩
      rw [whileLoop_rejected env i fuel v st hu ha hr, attemptCallsFrom_succ _ _ _ _ (Nat.lt_succ_self _),
        attemptCallsFrom_self]
      rfl
    · cases hacc : acceptable generateContentHash st.existingChallengeHashes
          (env.InvokeLLM i (v.attempts + 1)) with
      | true =>
        obtain ⟨c, h, hresp, hh, hn⟩ := (acceptable_eq_true_iff _ _ _).mp hacc
        refine ⟨v.attempts + 1, 0, by omega, by omega, fun k h1 h2 => by omega, ?_⟩
        left
        refine ⟨by omega, c, h, hresp, hh, hn, ?_⟩
        rw [whileLoop_accept env i fuel v st c h hu ha hresp hh hn,
          attemptCallsFrom_succ _ _ _ _ (Nat.lt_succ_self _), attemptCallsFrom_self]
        rfl
      | false =>
        obtain ⟨ch, d0, hstep⟩ := whileLoop_retry env i v st hu ha hr hacc
        obtain ⟨m, d, h1, h2, h3, h4⟩ := ih ⟨v.attempts + 1, ch, false⟩
          { st with llmCalls := st.llmCalls ++ [⟨i, v.attempts + 1, temperatureAt 8 (v.attempts + 1)⟩],
                    duplicateAttempts := st.duplicateAttempts + d0 } rfl (by simp only; omega)
        simp only at h1 h2 h3 h4
        have hcalls : st.llmCalls ++ [(⟨i, v.attempts + 1, temperatureAt 8 (v.attempts + 1)⟩ : LLMCall)]
            ++ attemptCallsFrom 8 i (v.attempts + 1) m
            = st.llmCalls ++ attemptCallsFrom 8 i v.attempts m := by
          rw [attemptCallsFrom_succ 8 i v.attempts m (by omega)]
          simp
        have hprev : ∀ k, v.attempts < k → k < m + 1 → env.InvokeLLM i k ≠ .rejected ∧
            acceptable generateContentHash st.existingChallengeHashes (env.InvokeLLM i k) = false ∨
            k = m := by
          intro k hk1 hk2
          by_cases hkm : k = m
          · exact Or.inr hkm
          · left
            by_cases hk : k = v.attempts + 1
            · subst hk; exact ⟨hr, hacc⟩
            · exact h3 k (by omega) (by omega)
        have hlt : ∀ k, v.attempts < k → k < m → env.InvokeLLM i k ≠ .rejected ∧
            acceptable generateContentHash st.existingChallengeHashes (env.InvokeLLM i k) = false := by
          intro k hk1 hk2
          rcases hprev k hk1 (by omega) with h | h
          · exact h
          · omega
        refine ⟨m, d0 + d, by omega, h2, hlt, ?_⟩
        rw [hstep fuel]
        rcases h4 with ⟨h5, c, h, hresp, hh, hn, heq⟩ | ⟨h5, hrej, heq⟩ | ⟨h5, h6, ch', heq⟩
        · left
          refine ⟨by omega, c, h, hresp, hh, hn, ?_⟩
          rw [heq, hcalls, Nat.add_assoc]
        · right; left
          refine ⟨by omega, hrej, ?_⟩
          rw [heq, hcalls, Nat.add_assoc]
        · right; right
          refine ⟨h5, fun _ => ?_, ch', ?_⟩
          · by_cases hk : m = v.attempts + 1
            · rw [hk]; exact ⟨hr, hacc⟩
            · exact h6 (by omega)
          · rw [heq, hcalls, Nat.add_assoc]

end AIChallengeManager

namespace AIChallengeManager

/-- The three ways slot `i` ends: attempt `m` is accepted and handed to the
saves, attempt `m` throws, or all three attempts are consumed. -/
theorem slot_spec (env : Env) (i : Nat) (st : State) :
    ∃ m d, 1 ≤ m ∧ m ≤ 3 ∧
      (∀ k, 1 ≤ k → k < m → env.InvokeLLM i k ≠ .rejected ∧
        acceptable generateContentHash st.existingChallengeHashes (env.InvokeLLM i k) = false) ∧
      ((∃ c h, env.InvokeLLM i m = .text (some (.object c)) ∧
          generateContentHash c.title c.description c.correct_answer = some h ∧
          h ∉ st.existingChallengeHashes ∧
          slot env i st = saveAccepted env i { c with content_hash := .string h }
            { st with llmCalls := st.llmCalls ++ attemptCalls 8 i m,
                      duplicateAttempts := st.duplicateAttempts + d,
                      existingChallengeHashes := st.existingChallengeHashes ++ [h] })
       ∨ (env.InvokeLLM i m = .rejected ∧
          slot env i st = { st with llmCalls := st.llmCalls ++ attemptCalls 8 i m,
                                    duplicateAttempts := st.duplicateAttempts + d })
       ∨ (m = 3 ∧ (env.InvokeLLM i 3 ≠ .rejected ∧
            acceptable generateContentHash st.existingChallengeHashes (env.InvokeLLM i 3) = false) ∧
          slot env i st = { st with llmCalls := st.llmCalls ++ attemptCalls 8 i m,
                                    duplicateAttempts := st.duplicateAttempts + d })) := by
  obtain ⟨m, d, _, h2, h3, h4⟩ :=
    whileLoop_spec env i maxDuplicateAttempts ⟨0, .null, false⟩ st rfl (by simp)
  simp only [attemptCallsFrom_zero] at h3 h4
  rcases h4 with ⟨h5, c, h, hresp, hh, hn, heq⟩ | ⟨h5, hrej, heq⟩ | ⟨h5, h6, ch, heq⟩
  · refine ⟨m, d, h5, h2, fun k hk1 hk2 => h3 k hk1 hk2, Or.inl ⟨c, h, hresp, hh, hn, ?_⟩⟩
    simp [slot, heq, Json.truthy, Json.fields]
  · refine ⟨m, d, h5, h2, fun k hk1 hk2 => h3 k hk1 hk2, Or.inr (Or.inl ⟨hrej, ?_⟩)⟩
    simp [slot, heq]
  · have hm : m = 3 := h5
    subst hm
    refine ⟨3, d, by omega, le_refl _, fun k hk1 hk2 => h3 k hk1 hk2,
      Or.inr (Or.inr ⟨rfl, h6 (by omega), ?_⟩)⟩
    simp [slot, heq]

theorem saveAccepted_frame (env : Env) (i : Nat) (c : Candidate) (st : State) :
    (saveAccepted env i c st).existingChallengeHashes = st.existingChallengeHashes
    ∧ (saveAccepted env i c st).llmCalls = st.llmCalls
    ∧ (saveAccepted env i c st).duplicateAttempts = st.duplicateAttempts
    ∧ (saveAccepted env i c st).createCalls
        = st.createCalls ++ [⟨c.title, c.description, c.content_hash, c.rest, true, true⟩] := by
  unfold saveAccepted
  cases env.challengeCreate i <;> cases env.answerKeyCreate i <;> simp

theorem saveAccepted_saved (env : Env) (i : Nat) (c : Candidate) (st : State) :
    ((saveAccepted env i c st).createdChallenges = st.createdChallenges
      ∧ (saveAccepted env i c st).generatedChallenges = st.generatedChallenges)
    ∨ (∃ id, (saveAccepted env i c st).createdChallenges = st.createdChallenges
          ++ [⟨id, ⟨c.title, c.description, c.content_hash, c.rest, true, true⟩⟩]
      ∧ (saveAccepted env i c st).generatedChallenges = st.generatedChallenges)
    ∨ (∃ id, (saveAccepted env i c st).createdChallenges = st.createdChallenges
          ++ [⟨id, ⟨c.title, c.description, c.content_hash, c.rest, true, true⟩⟩]
      ∧ (saveAccepted env i c st).generatedChallenges = st.generatedChallenges
          ++ [⟨id, ⟨c.title, c.description, c.content_hash, c.rest, true, true⟩⟩]) := by
  unfold saveAccepted
  cases env.challengeCreate i <;> cases env.answerKeyCreate i <;> simp

theorem saveAccepted_ok (env : Env) (i id : Nat) (c : Candidate) (st : State)
    (h1 : env.challengeCreate i = some id) (h2 : env.answerKeyCreate i = true) :
    saveAccepted env i c st =
      { st with
        createCalls := st.createCalls ++ [⟨c.title, c.description, c.content_hash, c.rest, true, true⟩],
        createdChallenges := st.createdChallenges
          ++ [⟨id, ⟨c.title, c.description, c.content_hash, c.rest, true, true⟩⟩],
        answerKeyCalls := st.answerKeyCalls ++ [⟨id, c.correct_answer, c.correct_answer⟩],
        createdAnswerKeys := st.createdAnswerKeys ++ [⟨id, c.correct_answer, c.correct_answer⟩],
        generatedChallenges := st.generatedChallenges
          ++ [⟨id, ⟨c.title, c.description, c.content_hash, c.rest, true, true⟩⟩] } := by
  simp [saveAccepted, h1, h2]

theorem forLoop_succ (env : Env) (n : Nat) (st : State) :
    forLoop env (n + 1) st = slot env n (forLoop env n st) := by
  simp [forLoop, List.range_succ]

theorem forLoop_induction (env : Env) (P : Nat → State → Prop) (st : State) (h0 : P 0 st)
    (hs : ∀ i s, P i s → P (i + 1) (slot env i s)) : ∀ n, P n (forLoop env n st) := by
  intro n
  induction n with
  | zero => simpa [forLoop] using h0
  | succ n ih => rw [forLoop_succ]; exact hs n _ ih

end AIChallengeManager

/-! ## Properties of the retry loop of `PostJobWithAI.jsx` -/

namespace PostJobWithAI

theorem whileLoop_exit_job (llm : Nat → Nat → Response) (jd : JobDetails) (i fuel : Nat)
    (v : LoopVars) (st : State) (h : v.isUnique = true ∨ 3 ≤ v.attempts) :
    whileLoop llm jd i fuel v st = (some v, st) := by
  cases fuel with
  | zero => rfl
  | succ n =>
    have hc : (!v.isUnique && decide (v.attempts < 3)) = false := by
      rcases h with h | h
      · simp [h]
      · simp [Nat.not_lt.mpr h]
    simp [whileLoop, hc]

theorem whileLoop_rejected_job (llm : Nat → Nat → Response) (jd : JobDetails) (i fuel : Nat)
    (v : LoopVars) (st : State) (hu : v.isUnique = false) (ha : v.attempts < 3)
    (hr : llm i (v.attempts + 1) = .rejected) :
    whileLoop llm jd i (fuel + 1) v st
      = (none, { st with llmCalls := st.llmCalls ++ [⟨i, v.attempts + 1, temperatureAt 7 (v.attempts + 1)⟩] }) := by
  simp [whileLoop, hu, ha, hr]

theorem whileLoop_accept_job (llm : Nat → Nat → Response) (jd : JobDetails) (i fuel : Nat)
    (v : LoopVars) (st : State) (c : Candidate) (h : JSString)
    (hu : v.isUnique = false) (ha : v.attempts < 3)
    (hr : llm i (v.attempts + 1) = .text (some (.object c)))
    (hh : generateContentHash c.title c.description c.correct_answer = some h)
    (hn : h ∉ st.existingChallengeHashes) :
    whileLoop llm jd i (fuel + 1) v st
      = (some ⟨v.attempts + 1,
           .object { c with content_hash := .string h, job_specific := .boolean true,
                            generated_for_job := .string jd.title }, true⟩,
         { st with llmCalls := st.llmCalls ++ [⟨i, v.attempts + 1, temperatureAt 7 (v.attempts + 1)⟩],
                   existingChallengeHashes := st.existingChallengeHashes ++ [h] }) := by
  simp [whileLoop, hu, ha, hr, hh, hn, setHas, setAdd, whileLoop_exit_job]

theorem whileLoop_retry_job (llm : Nat → Nat → Response) (jd : JobDetails) (i : Nat)
    (v : LoopVars) (st : State) (hu : v.isUnique = false) (ha : v.attempts < 3)
    (hr : llm i (v.attempts + 1) ≠ .rejected)
    (hacc : acceptable generateContentHash st.existingChallengeHashes
      (llm i (v.attempts + 1)) = false) :
    ∃ ch, ∀ fuel, whileLoop llm jd i (fuel + 1) v st
      = whileLoop llm jd i fuel ⟨v.attempts + 1, ch, false⟩
          { st with llmCalls := st.llmCalls ++ [⟨i, v.attempts + 1, temperatureAt 7 (v.attempts + 1)⟩] } := by
  obtain ⟨a, ch0, u⟩ := v
  simp only at hu ha hr hacc
  subst hu
  cases hresp : llm i (a + 1) with
  | rejected => exact absurd hresp hr
  | text p =>
    cases p with
    | none => exact ⟨ch0, fun fuel => by simp [whileLoop, ha, hresp]⟩
    | some j =>
      cases j with
      | null => exact ⟨.null, fun fuel => by simp [whileLoop, ha, hresp]⟩
      | atom t => exact ⟨.atom t, fun fuel => by simp [whileLoop, ha, hresp]⟩
      | object c =>
        cases hh : generateContentHash c.title c.description c.correct_answer with
        | none => exact ⟨.object c, fun fuel => by simp [whileLoop, ha, hresp, hh]⟩
        | some h =>
          have hs : setHas st.existingChallengeHashes h = true := by
            simpa [acceptable, hresp, hh] using hacc
          exact ⟨.object c, fun fuel => by simp [whileLoop, ha, hresp, hh, hs]⟩

/-- The three ways the retry loop of slot `i` ends when started with
`fuel = 3 - attempts` iterations left: attempt `m` is accepted, attempt `m`
throws, or all attempts are used without acceptance. -/
theorem whileLoop_spec_job (llm : Nat → Nat → Response) (jd : JobDetails) (i : Nat) :
    ∀ (fuel : Nat) (v : LoopVars) (st : State),
    v.isUnique = false → v.attempts + fuel = 3 →
    ∃ m, v.attempts ≤ m ∧ m ≤ 3 ∧
      (∀ k, v.attempts < k → k < m → llm i k ≠ .rejected ∧
        acceptable generateContentHash st.existingChallengeHashes (llm i k) = false) ∧
      ((v.attempts < m ∧ ∃ c h, llm i m = .text (some (.object c)) ∧
          generateContentHash c.title c.description c.correct_answer = some h ∧
          h ∉ st.existingChallengeHashes ∧
          whileLoop llm jd i fuel v st
            = (some ⟨m, .object { c with content_hash := .string h, job_specific := .boolean true,
                                         generated_for_job := .string jd.title }, true⟩,
               { st with llmCalls := st.llmCalls ++ attemptCallsFrom 7 i v.attempts m,
                         existingChallengeHashes := st.existingChallengeHashes ++ [h] }))
       ∨ (v.attempts < m ∧ llm i m = .rejected ∧
          whileLoop llm jd i fuel v st
            = (none, { st with llmCalls := st.llmCalls ++ attemptCallsFrom 7 i v.attempts m }))
       ∨ (m = 3 ∧
          (v.attempts < m → llm i m ≠ .rejected ∧
            acceptable generateContentHash st.existingChallengeHashes (llm i m) = false) ∧
          ∃ ch, whileLoop llm jd i fuel v st
            = (some ⟨m, ch, false⟩,
               { st with llmCalls := st.llmCalls ++ attemptCallsFrom 7 i v.attempts m }))) := by
  intro fuel
  induction fuel with
  | zero =>
    intro v st hu hf
    obtain ⟨a, ch0, u⟩ := v
    simp only at hu hf
    subst hu
    simp only [Nat.add_zero] at hf
    subst hf
    refine ⟨3, le_refl _, le_refl _,
      fun k h1 h2 => absurd h2 (Nat.not_lt.mpr (Nat.le_of_lt h1)), ?_⟩
    right; right
    refine ⟨rfl, fun h => absurd h (lt_irrefl _), ch0, ?_⟩
    simp [whileLoop, attemptCallsFrom_self]
  | succ fuel ih =>
    intro v st hu hf
    have ha : v.attempts < 3 := by omega
    by_cases hr : llm i (v.attempts + 1) = .rejected
    · refine ⟨v.attempts + 1, by omega, by omega, fun k h1 h2 => by omega, ?_⟩
      right; left
      refine ⟨by omega, hr, ?_⟩
      rw [whileLoop_rejected_job llm jd i fuel v st hu ha hr,
        attemptCallsFrom_succ _ _ _ _ (Nat.lt_succ_self _), attemptCallsFrom_self]
    · cases hacc : acceptable generateContentHash st.existingChallengeHashes
          (llm i (v.attempts + 1)) with
      | true =>
        obtain ⟨c, h, hresp, hh, hn⟩ := (acceptable_eq_true_iff _ _ _).mp hacc
        refine ⟨v.attempts + 1, by omega, by omega, fun k h1 h2 => by omega, ?_⟩
        left
        refine ⟨by omega, c, h, hresp, hh, hn, ?_⟩
        rw [whileLoop_accept_job llm jd i fuel v st c h hu ha hresp hh hn,
          attemptCallsFrom_succ _ _ _ _ (Nat.lt_succ_self _), attemptCallsFrom_self]
      | false =>
        obtain ⟨ch, hstep⟩ := whileLoop_retry_job llm jd i v st hu ha hr hacc
        obtain ⟨m, h1, h2, h3, h4⟩ := ih ⟨v.attempts + 1, ch, false⟩
          { st with llmCalls := st.llmCalls ++ [⟨i, v.attempts + 1, temperatureAt 7 (v.attempts + 1)⟩] }
          rfl (by simp only; omega)
        simp only at h1 h2 h3 h4
        have hcalls : st.llmCalls ++ [(⟨i, v.attempts + 1, temperatureAt 7 (v.attempts + 1)⟩ : LLMCall)]
            ++ attemptCallsFrom 7 i (v.attempts + 1) m
            = st.llmCalls ++ attemptCallsFrom 7 i v.attempts m := by
          rw [attemptCallsFrom_succ 7 i v.attempts m (by omega)]
          simp
        have hlt : ∀ k, v.attempts < k → k < m → llm i k ≠ .rejected ∧
            acceptable generateContentHash st.existingChallengeHashes (llm i k) = false := by
          intro k hk1 hk2
          by_cases hk : k = v.attempts + 1
          · subst hk; exact ⟨hr, hacc⟩
          · exact h3 k (by omega) hk2
        refine ⟨m, by omega, h2, hlt, ?_⟩
        rw [hstep fuel]
        rcases h4 with ⟨h5, c, h, hresp, hh, hn, heq⟩ | ⟨h5, hrej, heq⟩ | ⟨h5, h6, ch', heq⟩
        · left
          refine ⟨by omega, c, h, hresp, hh, hn, ?_⟩
          rw [heq, hcalls]
        · right; left
          refine ⟨by omega, hrej, ?_⟩
          rw [heq, hcalls]
        · right; right
          refine ⟨h5, fun _ => ?_, ch', ?_⟩
          · by_cases hk : m = v.attempts + 1
            · rw [hk]; exact ⟨hr, hacc⟩
            · exact h6 (by omega)
          · rw [heq, hcalls]

/-- The three ways slot `i` ends: attempt `m` is accepted and pushed, attempt
`m` throws, or all three attempts are consumed. -/
theorem slot_spec_job (llm : Nat → Nat → Response) (jd : JobDetails) (i : Nat) (st : State) :
    ∃ m, 1 ≤ m ∧ m ≤ 3 ∧
      (∀ k, 1 ≤ k → k < m → llm i k ≠ .rejected ∧
        acceptable generateContentHash st.existingChallengeHashes (llm i k) = false) ∧
      ((∃ c h, llm i m = .text (some (.object c)) ∧
          generateContentHash c.title c.description c.correct_answer = some h ∧
          h ∉ st.existingChallengeHashes ∧
          slot llm jd i st =
            { llmCalls := st.llmCalls ++ attemptCalls 7 i m,
              existingChallengeHashes := st.existingChallengeHashes ++ [h],
              newChallenges := st.newChallenges ++
                [.object { c with content_hash := .string h, job_specific := .boolean true,
                                  generated_for_job := .string jd.title }] })
       ∨ (llm i m = .rejected ∧
          slot llm jd i st = { st with llmCalls := st.llmCalls ++ attemptCalls 7 i m })
       ∨ (m = 3 ∧ (llm i 3 ≠ .rejected ∧
            acceptable generateContentHash st.existingChallengeHashes (llm i 3) = false) ∧
          slot llm jd i st = { st with llmCalls := st.llmCalls ++ attemptCalls 7 i m })) := by
  obtain ⟨m, _, h2, h3, h4⟩ := whileLoop_spec_job llm jd i 3 ⟨0, .null, false⟩ st rfl (by simp)
  simp only [attemptCallsFrom_zero] at h3 h4
  rcases h4 with ⟨h5, c, h, hresp, hh, hn, heq⟩ | ⟨h5, hrej, heq⟩ | ⟨h5, h6, ch, heq⟩
  · refine ⟨m, h5, h2, fun k hk1 hk2 => h3 k hk1 hk2, Or.inl ⟨c, h, hresp, hh, hn, ?_⟩⟩
    simp [slot, heq, Json.truthy]
  · refine ⟨m, h5, h2, fun k hk1 hk2 => h3 k hk1 hk2, Or.inr (Or.inl ⟨hrej, ?_⟩)⟩
    simp [slot, heq]
  · subst h5
    refine ⟨3, by omega, le_refl _, fun k hk1 hk2 => h3 k hk1 hk2,
      Or.inr (Or.inr ⟨rfl, h6 (by omega), ?_⟩)⟩
    simp [slot, heq]

theorem forLoop_succ_job (llm : Nat → Nat → Response) (jd : JobDetails) (n : Nat) (st : State) :
    forLoop llm jd (n + 1) st = slot llm jd n (forLoop llm jd n st) := by
  simp [forLoop, List.range_succ]

theorem forLoop_induction_job (llm : Nat → Nat → Response) (jd : JobDetails)
    (P : Nat → State → Prop) (st : State) (h0 : P 0 st)
    (hs : ∀ i s, P i s → P (i + 1) (slot llm jd i s)) : ∀ n, P n (forLoop llm jd n st) := by
  intro n
  induction n with
  | zero => simpa [forLoop] using h0
  | succ n ih => rw [forLoop_succ_job]; exact hs n _ ih

end PostJobWithAI

/-! ## Runs in which no attempt is accepted -/

theorem generateContentHash_eq :
    AIChallengeManager.generateContentHash = PostJobWithAI.generateContentHash := rfl

theorem generateContentHash_isString (t d c : Value) (h : JSString)
    (hh : AIChallengeManager.generateContentHash t d c = some h) :
    t.isString = true ∧ d.isString = true ∧ c.isString = true := by
  cases t <;> cases d <;> cases c <;>
    simp [AIChallengeManager.generateContentHash, Value.lowerTrim, Value.isString] at hh ⊢

theorem malformed_not_acceptable (seen : List JSString) (r : Response)
    (hm : r.malformed = true) :
    r ≠ .rejected ∧ acceptable AIChallengeManager.generateContentHash seen r = false := by
  refine ⟨fun h => by simp [h, Response.malformed] at hm, ?_⟩
  cases hacc : acceptable AIChallengeManager.generateContentHash seen r with
  | false => rfl
  | true =>
    obtain ⟨c, h, rfl, hh, _⟩ := (acceptable_eq_true_iff _ _ _).mp hacc
    obtain ⟨h1, h2, h3⟩ := generateContentHash_isString _ _ _ _ hh
    simp [Response.malformed, h1, h2, h3] at hm

theorem length_flatMap_attemptCalls (base n : Nat) :
    ((List.range n).flatMap (fun i => attemptCalls base i 3)).length = 3 * n := by
  induction n with
  | zero => rfl
  | succ n ih =>
    rw [List.range_succ, List.flatMap_append, List.length_append, ih]
    simp [attemptCalls]
    omega

namespace AIChallengeManager

theorem generateChallenges_eq (env : Env) (selectedSkills : List JSString) (n : Nat)
    (seen : List JSString) (dup : Nat) (h : selectedSkills ≠ []) :
    generateChallenges env selectedSkills n seen dup
      = forLoop env n ⟨seen, 0, [], [], [], [], [], []⟩ := by
  cases selectedSkills with
  | nil => exact absurd rfl h
  | cons a l => simp [generateChallenges]

/-- When every response of every slot is a consumed attempt against the set
the run starts with, each slot makes its three calls and nothing else changes
but the duplicate counter. -/
theorem forLoop_no_accept (env : Env) (st0 : State)
    (hall : ∀ i k, env.InvokeLLM i k ≠ .rejected ∧
      acceptable generateContentHash st0.existingChallengeHashes (env.InvokeLLM i k) = false)
    (n : Nat) :
    (forLoop env n st0).llmCalls
        = st0.llmCalls ++ (List.range n).flatMap (fun i => attemptCalls 8 i 3)
    ∧ (forLoop env n st0).existingChallengeHashes = st0.existingChallengeHashes
    ∧ (forLoop env n st0).createCalls = st0.createCalls
    ∧ (forLoop env n st0).createdChallenges = st0.createdChallenges
    ∧ (forLoop env n st0).generatedChallenges = st0.generatedChallenges := by
  refine forLoop_induction env (fun i s =>
    s.llmCalls = st0.llmCalls ++ (List.range i).flatMap (fun i => attemptCalls 8 i 3)
    ∧ s.existingChallengeHashes = st0.existingChallengeHashes
    ∧ s.createCalls = st0.createCalls
    ∧ s.createdChallenges = st0.createdChallenges
    ∧ s.generatedChallenges = st0.generatedChallenges) st0 (by simp) ?_ n
  rintro i s ⟨h1, h2, h3, h4, h5⟩
  obtain ⟨m, d, _, _, _, hc⟩ := slot_spec env i s
  rw [h2] at hc
  rcases hc with ⟨c, h, hresp, hh, hn, _⟩ | ⟨hrej, _⟩ | ⟨rfl, _, heq⟩
  · have := (hall i m).2
    rw [(acceptable_eq_true_iff _ _ _).mpr ⟨c, h, hresp, hh, hn⟩] at this
    exact absurd this (by simp)
  · exact absurd hrej (hall i m).1
  · rw [heq]
    simp [h1, h2, h3, h4, h5, List.range_succ]

end AIChallengeManager

namespace PostJobWithAI

theorem generateChallengesForJob_eq (llm : Nat → Nat → Response) (jd : JobDetails) (n : Nat)
    (seen : List JSString) (generated : List Json)
    (h : jd.title ≠ [] ∧ jd.description ≠ [] ∧ jd.required_skills ≠ []) :
    generateChallengesForJob llm jd n seen generated = forLoop llm jd n ⟨seen, [], []⟩ := by
  obtain ⟨h1, h2, h3⟩ := h
  obtain ⟨t, d, sk⟩ := jd
  cases t with
  | nil => exact absurd rfl h1
  | cons a l =>
    cases d with
    | nil => exact absurd rfl h2
    | cons b l' =>
      cases sk with
      | nil => exact absurd rfl h3
      | cons e l3 => simp [generateChallengesForJob]

/-- When every response of every slot is a consumed attempt against the set
the run starts with, each slot makes its three calls and nothing else changes. -/
theorem forLoop_no_accept_job (llm : Nat → Nat → Response) (jd : JobDetails) (st0 : State)
    (hall : ∀ i k, llm i k ≠ .rejected ∧
      acceptable generateContentHash st0.existingChallengeHashes (llm i k) = false)
    (n : Nat) :
    (forLoop llm jd n st0).llmCalls
        = st0.llmCalls ++ (List.range n).flatMap (fun i => attemptCalls 7 i 3)
    ∧ (forLoop llm jd n st0).existingChallengeHashes = st0.existingChallengeHashes
    ∧ (forLoop llm jd n st0).newChallenges = st0.newChallenges := by
  refine forLoop_induction_job llm jd (fun i s =>
    s.llmCalls = st0.llmCalls ++ (List.range i).flatMap (fun i => attemptCalls 7 i 3)
    ∧ s.existingChallengeHashes = st0.existingChallengeHashes
    ∧ s.newChallenges = st0.newChallenges) st0 (by simp) ?_ n
  rintro i s ⟨h1, h2, h3⟩
  obtain ⟨m, _, _, _, hc⟩ := slot_spec_job llm jd i s
  rw [h2] at hc
  rcases hc with ⟨c, h, hresp, hh, hn, _⟩ | ⟨hrej, _⟩ | ⟨rfl, _, heq⟩
  · have := (hall i m).2
    rw [(acceptable_eq_true_iff _ _ _).mpr ⟨c, h, hresp, hh, hn⟩] at this
    exact absurd this (by simp)
  · exact absurd hrej (hall i m).1
  · rw [heq]
    simp [h1, h2, h3, List.range_succ]

end PostJobWithAI

/-! ## The claims about the retry protocol -/

/-- Claim C1. Duplicate rejection: when the seen set already holds the
fingerprint of a candidate `X` (which therefore has string title, description
and correct answer) and every generation call returns `X`, a run of
`generateChallenges` and a run of `generateChallengesForJob` make exactly the
three calls of attempts 1, 2, 3 in every slot, accept nothing (nothing is
pushed, `Challenge.create` is never called) and leave the seen set as it was. -/
theorem C1_duplicate_rejection (env : AIChallengeManager.Env) (llm : Nat → Nat → Response)
    (selectedSkills : List JSString) (jobDetails : PostJobWithAI.JobDetails)
    (generated : List Json) (n : Nat) (seen : List JSString) (dup : Nat)
    (X : Candidate) (h : JSString)
    (hskills : selectedSkills ≠ [])
    (hjob : jobDetails.title ≠ [] ∧ jobDetails.description ≠ [] ∧
      jobDetails.required_skills ≠ [])
    (henv : ∀ i k, env.InvokeLLM i k = .text (some (.object X)))
    (hllm : ∀ i k, llm i k = .text (some (.object X)))
    (hX : AIChallengeManager.generateContentHash X.title X.description X.correct_answer = some h)
    (hseen : h ∈ seen) :
    ((AIChallengeManager.generateChallenges env selectedSkills n seen dup).llmCalls
        = (List.range n).flatMap (fun i => attemptCalls 8 i 3)
      ∧ (AIChallengeManager.generateChallenges env selectedSkills n seen dup).llmCalls.length
        = 3 * n
      ∧ (AIChallengeManager.generateChallenges env selectedSkills n seen dup).generatedChallenges
        = []
      ∧ (AIChallengeManager.generateChallenges env selectedSkills n seen dup).createCalls = []
      ∧ (AIChallengeManager.generateChallenges env selectedSkills n seen dup).existingChallengeHashes
        = seen)
    ∧ ((PostJobWithAI.generateChallengesForJob llm jobDetails n seen generated).llmCalls
        = (List.range n).flatMap (fun i => attemptCalls 7 i 3)
      ∧ (PostJobWithAI.generateChallengesForJob llm jobDetails n seen generated).llmCalls.length
        = 3 * n
      ∧ (PostJobWithAI.generateChallengesForJob llm jobDetails n seen generated).newChallenges = []
      ∧ (PostJobWithAI.generateChallengesForJob llm jobDetails n seen generated).existingChallengeHashes
        = seen) := by
  have hacc : acceptable AIChallengeManager.generateContentHash seen
      (.text (some (.object X))) = false := by
    simp [acceptable, hX, setHas, hseen]
  constructor
  · rw [AIChallengeManager.generateChallenges_eq env selectedSkills n seen dup hskills]
    obtain ⟨h1, h2, h3, _, h5⟩ := AIChallengeManager.forLoop_no_accept env
      ⟨seen, 0, [], [], [], [], [], []⟩
      (fun i k => by rw [henv i k]; exact ⟨by simp, hacc⟩) n
    simp only [List.nil_append] at h1
    exact ⟨h1, by rw [h1, length_flatMap_attemptCalls], h5, h3, h2⟩
  · rw [PostJobWithAI.generateChallengesForJob_eq llm jobDetails n seen generated hjob]
    obtain ⟨h1, h2, h3⟩ := PostJobWithAI.forLoop_no_accept_job llm jobDetails ⟨seen, [], []⟩
      (fun i k => by rw [hllm i k]; exact ⟨by simp, hacc⟩) n
    simp only [List.nil_append] at h1
    exact ⟨h1, by rw [h1, length_flatMap_attemptCalls], h3, h2⟩

/-- Witness of C1: the seen set holds `"dGRh"`, the fingerprint of
`{title: "T", description: "D", correct_answer: "A"}`, and every call returns
that candidate; two slots make six calls and accept nothing. -/
theorem C1_duplicate_rejection_witness :
    (AIChallengeManager.generateChallenges (envAlways (.text (some (.object candidateTDA))))
        [lit "Fraud Detection"] 2 [lit "dGRh"] 0).llmCalls.length = 3 * 2
    ∧ (AIChallengeManager.generateChallenges (envAlways (.text (some (.object candidateTDA))))
        [lit "Fraud Detection"] 2 [lit "dGRh"] 0).createCalls = []
    ∧ (PostJobWithAI.generateChallengesForJob (fun _ _ => .text (some (.object candidateTDA)))
        jobAuditor 2 [lit "dGRh"] []).llmCalls.length = 3 * 2
    ∧ (PostJobWithAI.generateChallengesForJob (fun _ _ => .text (some (.object candidateTDA)))
        jobAuditor 2 [lit "dGRh"] []).newChallenges = [] :=
  have w := C1_duplicate_rejection (envAlways (.text (some (.object candidateTDA))))
    (fun _ _ => .text (some (.object candidateTDA))) [lit "Fraud Detection"] jobAuditor [] 2
    [lit "dGRh"] 0 candidateTDA (lit "dGRh") (by decide) (by decide) (fun _ _ => rfl)
    (fun _ _ => rfl) (by decide) (by decide)
  ⟨w.1.2.1, w.1.2.2.2.1, w.2.2.1, w.2.2.2.1⟩

namespace AIChallengeManager

/-- The seen set grows by exactly the fingerprints handed to `Challenge.create`,
which are new and pairwise distinct; the saved and the pushed challenges are
among those handed to `Challenge.create`. -/
theorem forLoop_seen (env : Env) (seen : List JSString) (n : Nat) :
    (forLoop env n ⟨seen, 0, [], [], [], [], [], []⟩).existingChallengeHashes.map Value.string
        = seen.map Value.string
          ++ (forLoop env n ⟨seen, 0, [], [], [], [], [], []⟩).createCalls.map (·.content_hash)
    ∧ ((forLoop env n ⟨seen, 0, [], [], [], [], [], []⟩).createCalls.map (·.content_hash)).Nodup
    ∧ (∀ h ∈ seen, Value.string h ∉
        (forLoop env n ⟨seen, 0, [], [], [], [], [], []⟩).createCalls.map (·.content_hash))
    ∧ ((forLoop env n ⟨seen, 0, [], [], [], [], [], []⟩).createdChallenges.map (·.record)).Sublist
        (forLoop env n ⟨seen, 0, [], [], [], [], [], []⟩).createCalls
    ∧ (forLoop env n ⟨seen, 0, [], [], [], [], [], []⟩).generatedChallenges.Sublist
        (forLoop env n ⟨seen, 0, [], [], [], [], [], []⟩).createdChallenges := by
  refine forLoop_induction env (fun _ s =>
    s.existingChallengeHashes.map Value.string
        = seen.map Value.string ++ s.createCalls.map (·.content_hash)
    ∧ (s.createCalls.map (·.content_hash)).Nodup
    ∧ (∀ h ∈ seen, Value.string h ∉ s.createCalls.map (·.content_hash))
    ∧ (s.createdChallenges.map (·.record)).Sublist s.createCalls
    ∧ s.generatedChallenges.Sublist s.createdChallenges) ⟨seen, 0, [], [], [], [], [], []⟩
    (by simp) ?_ n
  rintro i s ⟨h1, h2, h3, h4, h5⟩
  obtain ⟨m, d, _, _, _, hc⟩ := slot_spec env i s
  rcases hc with ⟨c, h, _, _, hn, heq⟩ | ⟨_, heq⟩ | ⟨_, _, heq⟩
  · obtain ⟨f1, _, _, f4⟩ := saveAccepted_frame env i { c with content_hash := .string h }
      { s with llmCalls := s.llmCalls ++ attemptCalls 8 i m,
               duplicateAttempts := s.duplicateAttempts + d,
               existingChallengeHashes := s.existingChallengeHashes ++ [h] }
    have hsv := saveAccepted_saved env i { c with content_hash := .string h }
      { s with llmCalls := s.llmCalls ++ attemptCalls 8 i m,
               duplicateAttempts := s.duplicateAttempts + d,
               existingChallengeHashes := s.existingChallengeHashes ++ [h] }
    rw [← heq] at f1 f4 hsv
    simp only at f1 f4 hsv
    have hnew : Value.string h ∉ s.existingChallengeHashes.map Value.string := by
      simpa using hn
    rw [h1] at hnew
    simp only [List.mem_append, not_or] at hnew
    refine ⟨?_, ?_, ?_, ?_, ?_⟩
    · rw [f1, f4]; simp [h1]
    · rw [f4, List.map_append, List.nodup_append]
      refine ⟨h2, by simp, ?_⟩
      intro a ha hb
      simp only [List.map_cons, List.map_nil, List.mem_singleton] at hb
      subst hb
      exact hnew.2 ha
    · intro h0 hh0
      rw [f4, List.map_append, List.mem_append, not_or]
      refine ⟨h3 h0 hh0, ?_⟩
      simp only [List.map_cons, List.map_nil, List.mem_singleton, Value.string.injEq]
      rintro rfl
      exact hnew.1 (List.mem_map_of_mem _ hh0)
    · rcases hsv with ⟨g1, _⟩ | ⟨id, g1, _⟩ | ⟨id, g1, _⟩
      · rw [g1, f4]; exact h4.trans (List.sublist_append_left _ _)
      · rw [g1, f4, List.map_append]; exact h4.append (List.Sublist.refl _)
      · rw [g1, f4, List.map_append]; exact h4.append (List.Sublist.refl _)
    · rcases hsv with ⟨g1, g2⟩ | ⟨id, g1, g2⟩ | ⟨id, g1, g2⟩
      · rw [g1, g2]; exact h5
      · rw [g1, g2]; exact h5.trans (List.sublist_append_left _ _)
      · rw [g1, g2]; exact h5.append (List.Sublist.refl _)
  · rw [heq]; exact ⟨h1, h2, h3, h4, h5⟩
  · rw [heq]; exact ⟨h1, h2, h3, h4, h5⟩

end AIChallengeManager

namespace PostJobWithAI

/-- The seen set grows by exactly the fingerprints of the pushed challenges,
which are new and pairwise distinct. -/
theorem forLoop_seen_job (llm : Nat → Nat → Response) (jd : JobDetails) (seen : List JSString)
    (n : Nat) :
    (forLoop llm jd n ⟨seen, [], []⟩).existingChallengeHashes.map Value.string
        = seen.map Value.string
          ++ (forLoop llm jd n ⟨seen, [], []⟩).newChallenges.map (·.fields.content_hash)
    ∧ ((forLoop llm jd n ⟨seen, [], []⟩).newChallenges.map (·.fields.content_hash)).Nodup
    ∧ (∀ h ∈ seen, Value.string h ∉
        (forLoop llm jd n ⟨seen, [], []⟩).newChallenges.map (·.fields.content_hash)) := by
  refine forLoop_induction_job llm jd (fun _ s =>
    s.existingChallengeHashes.map Value.string
        = seen.map Value.string ++ s.newChallenges.map (·.fields.content_hash)
    ∧ (s.newChallenges.map (·.fields.content_hash)).Nodup
    ∧ (∀ h ∈ seen, Value.string h ∉ s.newChallenges.map (·.fields.content_hash)))
    ⟨seen, [], []⟩ (by simp) ?_ n
  rintro i s ⟨h1, h2, h3⟩
  obtain ⟨m, _, _, _, hc⟩ := slot_spec_job llm jd i s
  rcases hc with ⟨c, h, _, _, hn, heq⟩ | ⟨_, heq⟩ | ⟨_, _, heq⟩
  · have hnew : Value.string h ∉ s.existingChallengeHashes.map Value.string := by
      simpa using hn
    rw [h1] at hnew
    simp only [List.mem_append, not_or] at hnew
    rw [heq]
    refine ⟨?_, ?_, ?_⟩
    · simp [h1, Json.fields]
    · simp only [List.map_append, List.nodup_append]
      refine ⟨h2, by simp, ?_⟩
      intro a ha hb
      simp only [List.map_cons, List.map_nil, List.mem_singleton, Json.fields] at hb
      subst hb
      exact hnew.2 ha
    · intro h0 hh0
      simp only [List.map_append, List.mem_append, not_or]
      refine ⟨h3 h0 hh0, ?_⟩
      simp only [List.map_cons, List.map_nil, List.mem_singleton, Json.fields,
        Value.string.injEq]
      rintro rfl
      exact hnew.1 (List.mem_map_of_mem _ hh0)
  · rw [heq]; exact ⟨h1, h2, h3⟩
  · rw [heq]; exact ⟨h1, h2, h3⟩

end PostJobWithAI

/-- Claim C2. Uniqueness and append-only seen set: at the end of a run of
`generateChallenges` the seen set is the initial set followed by exactly the
fingerprints that passed the uniqueness check (those handed to
`Challenge.create`), these are pairwise distinct and none of them was in the
initial set, and the fingerprints of the accepted items pushed onto
`generatedChallenges` are among them, so they are pairwise distinct and new as
well; the same holds for `generateChallengesForJob` and the items pushed onto
`newChallenges`. Nothing else is ever added to or removed from the set. -/
theorem C2_seen_set_append_only (env : AIChallengeManager.Env) (llm : Nat → Nat → Response)
    (selectedSkills : List JSString) (jobDetails : PostJobWithAI.JobDetails)
    (generated : List Json) (n : Nat) (seen : List JSString) (dup : Nat)
    (hjob : jobDetails.title ≠ [] ∧ jobDetails.description ≠ [] ∧
      jobDetails.required_skills ≠ []) :
    ((AIChallengeManager.generateChallenges env selectedSkills n seen dup).existingChallengeHashes.map
          Value.string
        = seen.map Value.string
          ++ (AIChallengeManager.generateChallenges env selectedSkills n seen dup).createCalls.map
              (·.content_hash)
      ∧ ((AIChallengeManager.generateChallenges env selectedSkills n seen dup).createCalls.map
          (·.content_hash)).Nodup
      ∧ (∀ h ∈ seen, Value.string h ∉
          (AIChallengeManager.generateChallenges env selectedSkills n seen dup).createCalls.map
            (·.content_hash))
      ∧ ((AIChallengeManager.generateChallenges env selectedSkills n seen dup).generatedChallenges.map
          (·.record.content_hash)).Sublist
          ((AIChallengeManager.generateChallenges env selectedSkills n seen dup).createCalls.map
            (·.content_hash))
      ∧ ((AIChallengeManager.generateChallenges env selectedSkills n seen dup).generatedChallenges.map
          (·.record.content_hash)).Nodup
      ∧ (∀ h ∈ seen, Value.string h ∉
          (AIChallengeManager.generateChallenges env selectedSkills n seen dup).generatedChallenges.map
            (·.record.content_hash)))
    ∧ ((PostJobWithAI.generateChallengesForJob llm jobDetails n seen generated).existingChallengeHashes.map
          Value.string
        = seen.map Value.string
          ++ (PostJobWithAI.generateChallengesForJob llm jobDetails n seen generated).newChallenges.map
              (·.fields.content_hash)
      ∧ ((PostJobWithAI.generateChallengesForJob llm jobDetails n seen generated).newChallenges.map
          (·.fields.content_hash)).Nodup
      ∧ (∀ h ∈ seen, Value.string h ∉
          (PostJobWithAI.generateChallengesForJob llm jobDetails n seen generated).newChallenges.map
            (·.fields.content_hash))) := by
  constructor
  · by_cases hs : selectedSkills = []
    · subst hs
      simp [AIChallengeManager.generateChallenges]
    · rw [AIChallengeManager.generateChallenges_eq env selectedSkills n seen dup hs]
      obtain ⟨h1, h2, h3, h4, h5⟩ := AIChallengeManager.forLoop_seen env seen n
      have hsub : ((AIChallengeManager.forLoop env n ⟨seen, 0, [], [], [], [], [], []⟩).generatedChallenges.map
          (·.record.content_hash)).Sublist
          ((AIChallengeManager.forLoop env n ⟨seen, 0, [], [], [], [], [], []⟩).createCalls.map
            (·.content_hash)) := by
        have := ((h5.map (·.record)).trans h4).map (·.content_hash)
        simpa [List.map_map] using this
      exact ⟨h1, h2, h3, hsub, hsub.nodup h2, fun h hh hmem => h3 h hh (hsub.subset hmem)⟩
  · rw [PostJobWithAI.generateChallengesForJob_eq llm jobDetails n seen generated hjob]
    exact PostJobWithAI.forLoop_seen_job llm jobDetails seen n

/-- Witness of C2: with an empty seen set and a client always returning
`{title: "T", description: "D", correct_answer: "A"}`, the run of two slots
ends with the seen set holding the fingerprints handed on, and only them. -/
theorem C2_seen_set_append_only_witness :
    (jobAuditor.title ≠ [] ∧ jobAuditor.description ≠ [] ∧ jobAuditor.required_skills ≠ [])
    ∧ (AIChallengeManager.generateChallenges (envAlways (.text (some (.object candidateTDA))))
          [lit "Fraud Detection"] 2 [] 0).existingChallengeHashes.map Value.string
        = ([] : List JSString).map Value.string
          ++ (AIChallengeManager.generateChallenges (envAlways (.text (some (.object candidateTDA))))
              [lit "Fraud Detection"] 2 [] 0).createCalls.map (·.content_hash)
    ∧ (PostJobWithAI.generateChallengesForJob (fun _ _ => .text (some (.object candidateTDA)))
          jobAuditor 2 [] []).existingChallengeHashes.map Value.string
        = ([] : List JSString).map Value.string
          ++ (PostJobWithAI.generateChallengesForJob (fun _ _ => .text (some (.object candidateTDA)))
              jobAuditor 2 [] []).newChallenges.map (·.fields.content_hash) :=
  have w := C2_seen_set_append_only (envAlways (.text (some (.object candidateTDA))))
    (fun _ _ => .text (some (.object candidateTDA))) [lit "Fraud Detection"] jobAuditor [] 2 [] 0
    (by decide)
  ⟨by decide, w.1.1, w.2.1⟩

namespace AIChallengeManager

theorem whileLoop_fuel (env : Env) (i : Nat) : ∀ (fuel : Nat) (v : LoopVars) (st : State),
    maxDuplicateAttempts ≤ v.attempts + fuel →
    whileLoop env i (fuel + 1) v st = whileLoop env i fuel v st := by
  intro fuel
  induction fuel with
  | zero =>
    intro v st h
    rw [whileLoop_exit env i _ v st (Or.inr h), whileLoop_exit env i _ v st (Or.inr h)]
  | succ fuel ih =>
    intro v st h
    cases hu : v.isUnique with
    | true => rw [whileLoop_exit env i _ v st (Or.inl hu), whileLoop_exit env i _ v st (Or.inl hu)]
    | false =>
      by_cases ha : maxDuplicateAttempts ≤ v.attempts
      · rw [whileLoop_exit env i _ v st (Or.inr ha), whileLoop_exit env i _ v st (Or.inr ha)]
      · have ha' : v.attempts < maxDuplicateAttempts := Nat.lt_of_not_le ha
        by_cases hr : env.InvokeLLM i (v.attempts + 1) = .rejected
        · rw [whileLoop_rejected env i _ v st hu ha' hr, whileLoop_rejected env i _ v st hu ha' hr]
        · cases hacc : acceptable generateContentHash st.existingChallengeHashes
              (env.InvokeLLM i (v.attempts + 1)) with
          | true =>
            obtain ⟨c, h', hresp, hh, hn⟩ := (acceptable_eq_true_iff _ _ _).mp hacc
            rw [whileLoop_accept env i _ v st c h' hu ha' hresp hh hn,
              whileLoop_accept env i _ v st c h' hu ha' hresp hh hn]
          | false =>
            obtain ⟨ch, d, hstep⟩ := whileLoop_retry env i v st hu ha' hr hacc
            rw [hstep (fuel + 1), hstep fuel]
            exact ih _ _ (by simp only; omega)

theorem whileLoop_fuel_add (env : Env) (i : Nat) (v : LoopVars) (st : State) (extra : Nat) :
    whileLoop env i (maxDuplicateAttempts + extra) v st
      = whileLoop env i maxDuplicateAttempts v st := by
  induction extra with
  | zero => rfl
  | succ e ih =>
    rw [← Nat.add_assoc, whileLoop_fuel env i _ v st (by omega), ih]

theorem length_attemptCalls (base i m : Nat) : (attemptCalls base i m).length = m := by
  simp [attemptCalls]

theorem slot_bounds (env : Env) (i : Nat) (s : State) :
    (slot env i s).llmCalls.length ≤ s.llmCalls.length + 3
    ∧ (slot env i s).createCalls.length ≤ s.createCalls.length + 1
    ∧ (slot env i s).generatedChallenges.length ≤ s.generatedChallenges.length + 1 := by
  obtain ⟨m, d, _, hm, _, hc⟩ := slot_spec env i s
  rcases hc with ⟨c, h, _, _, _, heq⟩ | ⟨_, heq⟩ | ⟨_, _, heq⟩
  · obtain ⟨_, f2, _, f4⟩ := saveAccepted_frame env i { c with content_hash := .string h }
      { s with llmCalls := s.llmCalls ++ attemptCalls 8 i m,
               duplicateAttempts := s.duplicateAttempts + d,
               existingChallengeHashes := s.existingChallengeHashes ++ [h] }
    have hsv := saveAccepted_saved env i { c with content_hash := .string h }
      { s with llmCalls := s.llmCalls ++ attemptCalls 8 i m,
               duplicateAttempts := s.duplicateAttempts + d,
               existingChallengeHashes := s.existingChallengeHashes ++ [h] }
    rw [← heq] at f2 f4 hsv
    simp only at f2 f4 hsv
    refine ⟨?_, ?_, ?_⟩
    · rw [f2, List.length_append, length_attemptCalls]; omega
    · rw [f4]; simp
    · rcases hsv with ⟨_, g2⟩ | ⟨id, _, g2⟩ | ⟨id, _, g2⟩ <;> rw [g2] <;> simp
  · rw [heq]; simp only [List.length_append, length_attemptCalls]; omega
  · rw [heq]; simp only [List.length_append, length_attemptCalls]; omega

theorem forLoop_bounds (env : Env) (st0 : State) (n : Nat) :
    (forLoop env n st0).llmCalls.length ≤ st0.llmCalls.length + 3 * n
    ∧ (forLoop env n st0).createCalls.length ≤ st0.createCalls.length + n
    ∧ (forLoop env n st0).generatedChallenges.length ≤ st0.generatedChallenges.length + n := by
  refine forLoop_induction env (fun i s =>
    s.llmCalls.length ≤ st0.llmCalls.length + 3 * i
    ∧ s.createCalls.length ≤ st0.createCalls.length + i
    ∧ s.generatedChallenges.length ≤ st0.generatedChallenges.length + i) st0 (by simp) ?_ n
  rintro i s ⟨h1, h2, h3⟩
  obtain ⟨b1, b2, b3⟩ := slot_bounds env i s
  exact ⟨by omega, by omega, by omega⟩

end AIChallengeManager

namespace PostJobWithAI

theorem whileLoop_fuel_job (llm : Nat → Nat → Response) (jd : JobDetails) (i : Nat) :
    ∀ (fuel : Nat) (v : LoopVars) (st : State), 3 ≤ v.attempts + fuel →
    whileLoop llm jd i (fuel + 1) v st = whileLoop llm jd i fuel v st := by
  intro fuel
  induction fuel with
  | zero =>
    intro v st h
    rw [whileLoop_exit_job llm jd i _ v st (Or.inr h), whileLoop_exit_job llm jd i _ v st (Or.inr h)]
  | succ fuel ih =>
    intro v st h
    cases hu : v.isUnique with
    | true =>
      rw [whileLoop_exit_job llm jd i _ v st (Or.inl hu), whileLoop_exit_job llm jd i _ v st (Or.inl hu)]
    | false =>
      by_cases ha : 3 ≤ v.attempts
      · rw [whileLoop_exit_job llm jd i _ v st (Or.inr ha), whileLoop_exit_job llm jd i _ v st (Or.inr ha)]
      · have ha' : v.attempts < 3 := Nat.lt_of_not_le ha
        by_cases hr : llm i (v.attempts + 1) = .rejected
        · rw [whileLoop_rejected_job llm jd i _ v st hu ha' hr,
            whileLoop_rejected_job llm jd i _ v st hu ha' hr]
        · cases hacc : acceptable generateContentHash st.existingChallengeHashes
              (llm i (v.attempts + 1)) with
          | true =>
            obtain ⟨c, h', hresp, hh, hn⟩ := (acceptable_eq_true_iff _ _ _).mp hacc
            rw [whileLoop_accept_job llm jd i _ v st c h' hu ha' hresp hh hn,
              whileLoop_accept_job llm jd i _ v st c h' hu ha' hresp hh hn]
          | false =>
            obtain ⟨ch, hstep⟩ := whileLoop_retry_job llm jd i v st hu ha' hr hacc
            rw [hstep (fuel + 1), hstep fuel]
            exact ih _ _ (by simp only; omega)

theorem whileLoop_fuel_add_job (llm : Nat → Nat → Response) (jd : JobDetails) (i : Nat)
    (v : LoopVars) (st : State) (extra : Nat) :
    whileLoop llm jd i (3 + extra) v st = whileLoop llm jd i 3 v st := by
  induction extra with
  | zero => rfl
  | succ e ih =>
    rw [← Nat.add_assoc, whileLoop_fuel_job llm jd i _ v st (by omega), ih]

theorem slot_bounds_job (llm : Nat → Nat → Response) (jd : JobDetails) (i : Nat) (s : State) :
    (slot llm jd i s).llmCalls.length ≤ s.llmCalls.length + 3
    ∧ (slot llm jd i s).newChallenges.length ≤ s.newChallenges.length + 1 := by
  obtain ⟨m, _, hm, _, hc⟩ := slot_spec_job llm jd i s
  rcases hc with ⟨c, h, _, _, _, heq⟩ | ⟨_, heq⟩ | ⟨_, _, heq⟩ <;> rw [heq] <;>
    simp only [List.length_append, AIChallengeManager.length_attemptCalls, List.length_singleton] <;>
    omega

theorem forLoop_bounds_job (llm : Nat → Nat → Response) (jd : JobDetails) (st0 : State) (n : Nat) :
    (forLoop llm jd n st0).llmCalls.length ≤ st0.llmCalls.length + 3 * n
    ∧ (forLoop llm jd n st0).newChallenges.length ≤ st0.newChallenges.length + n := by
  refine forLoop_induction_job llm jd (fun i s =>
    s.llmCalls.length ≤ st0.llmCalls.length + 3 * i
    ∧ s.newChallenges.length ≤ st0.newChallenges.length + i) st0 (by simp) ?_ n
  rintro i s ⟨h1, h2⟩
  obtain ⟨b1, b2⟩ := slot_bounds_job llm jd i s
  exact ⟨by omega, by omega⟩

end PostJobWithAI

/-- Claim C3. Bounded attempts and termination: the retry loop of a slot stops
by itself within `maxDuplicateAttempts = 3` iterations (any further iterations
allowed to it change nothing), a slot makes at most 3 generation calls, and a
whole run over `n` slots makes at most `3 * n` generation calls and accepts at
most `n` items, whatever the generation client and the saves do. -/
theorem C3_bounded_attempts (env : AIChallengeManager.Env) (llm : Nat → Nat → Response)
    (selectedSkills : List JSString) (jobDetails : PostJobWithAI.JobDetails)
    (generated : List Json) (n : Nat) (seen : List JSString) (dup : Nat)
    (i extra : Nat) (st : AIChallengeManager.State) (st' : PostJobWithAI.State)
    (hjob : jobDetails.title ≠ [] ∧ jobDetails.description ≠ [] ∧
      jobDetails.required_skills ≠ []) :
    (AIChallengeManager.whileLoop env i (AIChallengeManager.maxDuplicateAttempts + extra)
          ⟨0, .null, false⟩ st
        = AIChallengeManager.whileLoop env i AIChallengeManager.maxDuplicateAttempts
          ⟨0, .null, false⟩ st
      ∧ (AIChallengeManager.slot env i st).llmCalls.length ≤ st.llmCalls.length + 3
      ∧ (AIChallengeManager.generateChallenges env selectedSkills n seen dup).llmCalls.length
          ≤ 3 * n
      ∧ (AIChallengeManager.generateChallenges env selectedSkills n seen dup).createCalls.length
          ≤ n
      ∧ (AIChallengeManager.generateChallenges env selectedSkills n seen
          dup).generatedChallenges.length ≤ n)
    ∧ (PostJobWithAI.whileLoop llm jobDetails i (3 + extra) ⟨0, .null, false⟩ st'
        = PostJobWithAI.whileLoop llm jobDetails i 3 ⟨0, .null, false⟩ st'
      ∧ (PostJobWithAI.slot llm jobDetails i st').llmCalls.length ≤ st'.llmCalls.length + 3
      ∧ (PostJobWithAI.generateChallengesForJob llm jobDetails n seen generated).llmCalls.length
          ≤ 3 * n
      ∧ (PostJobWithAI.generateChallengesForJob llm jobDetails n seen
          generated).newChallenges.length ≤ n) := by
  constructor
  · refine ⟨AIChallengeManager.whileLoop_fuel_add env i _ st extra,
      (AIChallengeManager.slot_bounds env i st).1, ?_⟩
    by_cases hs : selectedSkills = []
    · subst hs
      simp [AIChallengeManager.generateChallenges]
    · rw [AIChallengeManager.generateChallenges_eq env selectedSkills n seen dup hs]
      simpa using AIChallengeManager.forLoop_bounds env ⟨seen, 0, [], [], [], [], [], []⟩ n
  · refine ⟨PostJobWithAI.whileLoop_fuel_add_job llm jobDetails i _ st' extra,
      (PostJobWithAI.slot_bounds_job llm jobDetails i st').1, ?_⟩
    rw [PostJobWithAI.generateChallengesForJob_eq llm jobDetails n seen generated hjob]
    simpa using PostJobWithAI.forLoop_bounds_job llm jobDetails ⟨seen, [], []⟩ n

/-- Witness of C3: a run of five slots against a client that always returns
the same candidate. -/
theorem C3_bounded_attempts_witness :
    (jobAuditor.title ≠ [] ∧ jobAuditor.description ≠ [] ∧ jobAuditor.required_skills ≠ [])
    ∧ (AIChallengeManager.generateChallenges (envAlways (.text (some (.object candidateTDA))))
        [lit "Fraud Detection"] 5 [] 0).llmCalls.length ≤ 3 * 5
    ∧ (PostJobWithAI.generateChallengesForJob (fun _ _ => .text (some (.object candidateTDA)))
        jobAuditor 5 [] []).llmCalls.length ≤ 3 * 5
    ∧ (PostJobWithAI.generateChallengesForJob (fun _ _ => .text (some (.object candidateTDA)))
        jobAuditor 5 [] []).newChallenges.length ≤ 5 :=
  have w := C3_bounded_attempts (envAlways (.text (some (.object candidateTDA))))
    (fun _ _ => .text (some (.object candidateTDA))) [lit "Fraud Detection"] jobAuditor [] 5 [] 0
    0 0 ⟨[], 0, [], [], [], [], [], []⟩ ⟨[], [], []⟩ (by decide)
  ⟨by decide, w.1.2.2.1, w.2.2.2.1, w.2.2.2.2⟩

/-- Claim C4, counterexample. With a generation call that always throws, a run
of one slot makes one generation call, not three: the throw leaves the retry
loop and is caught by the `catch` of the slot. -/
theorem C4_generation_failure_counterexample :
    (AIChallengeManager.generateChallenges (envAlways .rejected)
        [lit "Fraud Detection"] 1 [] 0).llmCalls = [⟨0, 1, temperatureAt 8 1⟩]
    ∧ (AIChallengeManager.generateChallenges (envAlways .rejected)
        [lit "Fraud Detection"] 1 [] 0).llmCalls.length ≠ 3 * 1
    ∧ (PostJobWithAI.generateChallengesForJob (fun _ _ => .rejected)
        jobAuditor 1 [] []).llmCalls = [⟨0, 1, temperatureAt 7 1⟩]
    ∧ (PostJobWithAI.generateChallengesForJob (fun _ _ => .rejected)
        jobAuditor 1 [] []).llmCalls.length ≠ 3 * 1 := by
  decide

namespace AIChallengeManager

theorem forLoop_all_rejected (env : Env) (st0 : State)
    (hall : ∀ i k, env.InvokeLLM i k = .rejected) (n : Nat) :
    (forLoop env n st0).llmCalls
        = st0.llmCalls ++ (List.range n).flatMap (fun i => attemptCalls 8 i 1)
    ∧ (forLoop env n st0).existingChallengeHashes = st0.existingChallengeHashes
    ∧ (forLoop env n st0).createCalls = st0.createCalls
    ∧ (forLoop env n st0).generatedChallenges = st0.generatedChallenges := by
  refine forLoop_induction env (fun i s =>
    s.llmCalls = st0.llmCalls ++ (List.range i).flatMap (fun i => attemptCalls 8 i 1)
    ∧ s.existingChallengeHashes = st0.existingChallengeHashes
    ∧ s.createCalls = st0.createCalls
    ∧ s.generatedChallenges = st0.generatedChallenges) st0 (by simp) ?_ n
  rintro i s ⟨h1, h2, h3, h4⟩
  obtain ⟨m, d, hm1, _, hprev, hc⟩ := slot_spec env i s
  rcases hc with ⟨c, h, hresp, _⟩ | ⟨_, heq⟩ | ⟨_, ⟨hne, _⟩, _⟩
  · rw [hall i m] at hresp
    exact absurd hresp (by simp)
  · have hm : m = 1 := by
      by_contra hne
      exact (hprev 1 (le_refl _) (by omega)).1 (hall i 1)
    subst hm
    rw [heq]
    simp [h1, h2, h3, h4, List.range_succ]
  · exact absurd (hall i 3) hne

end AIChallengeManager

namespace PostJobWithAI

theorem forLoop_all_rejected_job (llm : Nat → Nat → Response) (jd : JobDetails) (st0 : State)
    (hall : ∀ i k, llm i k = .rejected) (n : Nat) :
    (forLoop llm jd n st0).llmCalls
        = st0.llmCalls ++ (List.range n).flatMap (fun i => attemptCalls 7 i 1)
    ∧ (forLoop llm jd n st0).existingChallengeHashes = st0.existingChallengeHashes
    ∧ (forLoop llm jd n st0).newChallenges = st0.newChallenges := by
  refine forLoop_induction_job llm jd (fun i s =>
    s.llmCalls = st0.llmCalls ++ (List.range i).flatMap (fun i => attemptCalls 7 i 1)
    ∧ s.existingChallengeHashes = st0.existingChallengeHashes
    ∧ s.newChallenges = st0.newChallenges) st0 (by simp) ?_ n
  rintro i s ⟨h1, h2, h3⟩
  obtain ⟨m, hm1, _, hprev, hc⟩ := slot_spec_job llm jd i s
  rcases hc with ⟨c, h, hresp, _⟩ | ⟨_, heq⟩ | ⟨_, ⟨hne, _⟩, _⟩
  · rw [hall i m] at hresp
    exact absurd hresp (by simp)
  · have hm : m = 1 := by
      by_contra hne
      exact (hprev 1 (le_refl _) (by omega)).1 (hall i 1)
    subst hm
    rw [heq]
    simp [h1, h2, h3, List.range_succ]
  · exact absurd (hall i 3) hne

end PostJobWithAI

theorem length_flatMap_attemptCalls_one (base n : Nat) :
    ((List.range n).flatMap (fun i => attemptCalls base i 1)).length = n := by
  induction n with
  | zero => rfl
  | succ n ih =>
    rw [List.range_succ, List.flatMap_append, List.length_append, ih]
    simp [attemptCalls]

/-- Claim C4, amended. When the generation call throws on every call, a run of
`generateChallenges` and a run of `generateChallengesForJob` make exactly one
generation call in every slot (attempt 1; the throw ends the slot), produce no
item, leave the seen set as it was, and go on to the next slot. -/
theorem C4_generation_failure_ends_slot (env : AIChallengeManager.Env)
    (llm : Nat → Nat → Response) (selectedSkills : List JSString)
    (jobDetails : PostJobWithAI.JobDetails) (generated : List Json) (n : Nat)
    (seen : List JSString) (dup : Nat)
    (hskills : selectedSkills ≠ [])
    (hjob : jobDetails.title ≠ [] ∧ jobDetails.description ≠ [] ∧
      jobDetails.required_skills ≠ [])
    (henv : ∀ i k, env.InvokeLLM i k = .rejected)
    (hllm : ∀ i k, llm i k = .rejected) :
    ((AIChallengeManager.generateChallenges env selectedSkills n seen dup).llmCalls
        = (List.range n).flatMap (fun i => attemptCalls 8 i 1)
      ∧ (AIChallengeManager.generateChallenges env selectedSkills n seen dup).llmCalls.length = n
      ∧ (AIChallengeManager.generateChallenges env selectedSkills n seen dup).generatedChallenges
        = []
      ∧ (AIChallengeManager.generateChallenges env selectedSkills n seen dup).createCalls = []
      ∧ (AIChallengeManager.generateChallenges env selectedSkills n seen dup).existingChallengeHashes
        = seen)
    ∧ ((PostJobWithAI.generateChallengesForJob llm jobDetails n seen generated).llmCalls
        = (List.range n).flatMap (fun i => attemptCalls 7 i 1)
      ∧ (PostJobWithAI.generateChallengesForJob llm jobDetails n seen generated).llmCalls.length
        = n
      ∧ (PostJobWithAI.generateChallengesForJob llm jobDetails n seen generated).newChallenges = []
      ∧ (PostJobWithAI.generateChallengesForJob llm jobDetails n seen generated).existingChallengeHashes
        = seen) := by
  constructor
  · rw [AIChallengeManager.generateChallenges_eq env selectedSkills n seen dup hskills]
    obtain ⟨h1, h2, h3, h4⟩ := AIChallengeManager.forLoop_all_rejected env
      ⟨seen, 0, [], [], [], [], [], []⟩ henv n
    simp only [List.nil_append] at h1
    exact ⟨h1, by rw [h1, length_flatMap_attemptCalls_one], h4, h3, h2⟩
  · rw [PostJobWithAI.generateChallengesForJob_eq llm jobDetails n seen generated hjob]
    obtain ⟨h1, h2, h3⟩ := PostJobWithAI.forLoop_all_rejected_job llm jobDetails ⟨seen, [], []⟩
      hllm n
    simp only [List.nil_append] at h1
    exact ⟨h1, by rw [h1, length_flatMap_attemptCalls_one], h3, h2⟩

/-- Witness of C4 (amended): four slots against a generation call that always
throws make four calls. -/
theorem C4_generation_failure_ends_slot_witness :
    (AIChallengeManager.generateChallenges (envAlways .rejected)
        [lit "Fraud Detection"] 4 [] 0).llmCalls.length = 4
    ∧ (PostJobWithAI.generateChallengesForJob (fun _ _ => .rejected)
        jobAuditor 4 [] []).llmCalls.length = 4 :=
  have w := C4_generation_failure_ends_slot (envAlways .rejected) (fun _ _ => .rejected)
    [lit "Fraud Detection"] jobAuditor [] 4 [] 0 (by decide) (by decide) (fun _ _ => rfl)
    (fun _ _ => rfl)
  ⟨w.1.2.1, w.2.2.1⟩

/-- Claim C5. Malformed or incomplete output is a consumed attempt: when every
generation response is unparseable or parses to a value lacking a string
title, description or correct answer, every slot makes exactly the three calls
of attempts 1, 2, 3, the seen set is left as it was, and no item is accepted,
handed to `Challenge.create` or saved. -/
theorem C5_malformed_consumes_attempt (env : AIChallengeManager.Env)
    (llm : Nat → Nat → Response) (selectedSkills : List JSString)
    (jobDetails : PostJobWithAI.JobDetails) (generated : List Json) (n : Nat)
    (seen : List JSString) (dup : Nat)
    (hskills : selectedSkills ≠ [])
    (hjob : jobDetails.title ≠ [] ∧ jobDetails.description ≠ [] ∧
      jobDetails.required_skills ≠ [])
    (henv : ∀ i k, (env.InvokeLLM i k).malformed = true)
    (hllm : ∀ i k, (llm i k).malformed = true) :
    ((AIChallengeManager.generateChallenges env selectedSkills n seen dup).llmCalls
        = (List.range n).flatMap (fun i => attemptCalls 8 i 3)
      ∧ (AIChallengeManager.generateChallenges env selectedSkills n seen dup).llmCalls.length
        = 3 * n
      ∧ (AIChallengeManager.generateChallenges env selectedSkills n seen dup).existingChallengeHashes
        = seen
      ∧ (AIChallengeManager.generateChallenges env selectedSkills n seen dup).generatedChallenges
        = []
      ∧ (AIChallengeManager.generateChallenges env selectedSkills n seen dup).createCalls = []
      ∧ (AIChallengeManager.generateChallenges env selectedSkills n seen dup).createdChallenges
        = [])
    ∧ ((PostJobWithAI.generateChallengesForJob llm jobDetails n seen generated).llmCalls
        = (List.range n).flatMap (fun i => attemptCalls 7 i 3)
      ∧ (PostJobWithAI.generateChallengesForJob llm jobDetails n seen generated).llmCalls.length
        = 3 * n
      ∧ (PostJobWithAI.generateChallengesForJob llm jobDetails n seen generated).existingChallengeHashes
        = seen
      ∧ (PostJobWithAI.generateChallengesForJob llm jobDetails n seen generated).newChallenges
        = []) := by
  constructor
  · rw [AIChallengeManager.generateChallenges_eq env selectedSkills n seen dup hskills]
    obtain ⟨h1, h2, h3, h4, h5⟩ := AIChallengeManager.forLoop_no_accept env
      ⟨seen, 0, [], [], [], [], [], []⟩
      (fun i k => malformed_not_acceptable seen _ (henv i k)) n
    simp only [List.nil_append] at h1
    exact ⟨h1, by rw [h1, length_flatMap_attemptCalls], h2, h5, h3, h4⟩
  · rw [PostJobWithAI.generateChallengesForJob_eq llm jobDetails n seen generated hjob]
    obtain ⟨h1, h2, h3⟩ := PostJobWithAI.forLoop_no_accept_job llm jobDetails ⟨seen, [], []⟩
      (fun i k => malformed_not_acceptable seen _ (hllm i k)) n
    simp only [List.nil_append] at h1
    exact ⟨h1, by rw [h1, length_flatMap_attemptCalls], h2, h3⟩

/-- Witness of C5: a client whose every response is an object without a
`correct_answer`; two slots make six calls and accept nothing. -/
theorem C5_malformed_consumes_attempt_witness :
    (AIChallengeManager.generateChallenges
        (envAlways (.text (some (.object { candidateTDA with correct_answer := .undefined }))))
        [lit "Fraud Detection"] 2 [] 0).llmCalls.length = 3 * 2
    ∧ (AIChallengeManager.generateChallenges
        (envAlways (.text (some (.object { candidateTDA with correct_answer := .undefined }))))
        [lit "Fraud Detection"] 2 [] 0).createCalls = []
    ∧ (PostJobWithAI.generateChallengesForJob
        (fun _ _ => .text (some (.object { candidateTDA with correct_answer := .undefined })))
        jobAuditor 2 [] []).newChallenges = [] :=
  have w := C5_malformed_consumes_attempt
    (envAlways (.text (some (.object { candidateTDA with correct_answer := .undefined }))))
    (fun _ _ => .text (some (.object { candidateTDA with correct_answer := .undefined })))
    [lit "Fraud Detection"] jobAuditor [] 2 [] 0 (by decide) (by decide)
    (fun _ _ => rfl) (fun _ _ => rfl)
  ⟨w.1.2.1, w.1.2.2.2.2.1, w.2.2.2.2⟩

/-! ## Partial success of a batch -/

theorem hasAcceptableAttempt_iff (hash : Value → Value → Value → Option JSString)
    (seen : List JSString) (r : Nat → Response) :
    hasAcceptableAttempt hash seen r ↔
      ∃ k, 1 ≤ k ∧ k ≤ 3 ∧ acceptable hash seen (r k) = true ∧
        ∀ j, 1 ≤ j → j < k → r j ≠ Response.rejected := by
  unfold hasAcceptableAttempt
  constructor
  · rintro ⟨k, hk, hacc, hno⟩
    have hk' : 1 ≤ k ∧ k ≤ 3 := by
      simp only [List.mem_cons, List.mem_singleton, List.not_mem_nil, or_false] at hk
      omega
    exact ⟨k, hk'.1, hk'.2, hacc, fun j h1 h2 => hno j (List.mem_range'_1.mpr ⟨h1, by omega⟩)⟩
  · rintro ⟨k, h1, h2, hacc, hno⟩
    refine ⟨k, ?_, hacc, fun j hj => ?_⟩
    · simp only [List.mem_cons, List.mem_singleton, List.not_mem_nil, or_false]
      omega
    · obtain ⟨a, b⟩ := List.mem_range'_1.mp hj
      exact hno j a (by omega)

theorem acceptable_rejected (hash : Value → Value → Value → Option JSString)
    (seen : List JSString) : acceptable hash seen .rejected = false := rfl

namespace AIChallengeManager

theorem slot_accept_first (env : Env) (i id : Nat) (s : State) (c : Candidate) (h : JSString)
    (hr : env.InvokeLLM i 1 = .text (some (.object c)))
    (hh : generateContentHash c.title c.description c.correct_answer = some h)
    (hn : h ∉ s.existingChallengeHashes)
    (h1 : env.challengeCreate i = some id) (h2 : env.answerKeyCreate i = true) :
    (slot env i s).existingChallengeHashes = s.existingChallengeHashes ++ [h]
    ∧ (slot env i s).generatedChallenges = s.generatedChallenges
        ++ [⟨id, ⟨c.title, c.description, .string h, c.rest, true, true⟩⟩] := by
  have hw := whileLoop_accept env i 2 ⟨0, .null, false⟩ s c h rfl (by decide) hr hh hn
  simp only [Nat.zero_add] at hw
  simp [slot, maxDuplicateAttempts, hw, Json.truthy, Json.fields, saveAccepted_ok _ _ _ _ _ h1 h2]

theorem slot_no_accept (env : Env) (i : Nat) (s : State)
    (hall : ∀ k, env.InvokeLLM i k ≠ .rejected ∧
      acceptable generateContentHash s.existingChallengeHashes (env.InvokeLLM i k) = false) :
    (slot env i s).existingChallengeHashes = s.existingChallengeHashes
    ∧ (slot env i s).generatedChallenges = s.generatedChallenges := by
  obtain ⟨m, d, _, _, _, hc⟩ := slot_spec env i s
  rcases hc with ⟨c, h, hresp, hh, hn, _⟩ | ⟨hrej, _⟩ | ⟨_, _, heq⟩
  · have := (hall m).2
    rw [(acceptable_eq_true_iff _ _ _).mpr ⟨c, h, hresp, hh, hn⟩] at this
    exact absurd this (by simp)
  · exact absurd hrej (hall m).1
  · rw [heq]; exact ⟨rfl, rfl⟩

/-- With saves that succeed, a slot pushes one challenge exactly when it has
an acceptable attempt among its first three. -/
theorem slot_generated_length (env : Env) (i id : Nat) (s : State)
    (h1 : env.challengeCreate i = some id) (h2 : env.answerKeyCreate i = true) :
    (slot env i s).generatedChallenges.length = s.generatedChallenges.length +
      if hasAcceptableAttempt generateContentHash s.existingChallengeHashes (env.InvokeLLM i)
      then 1 else 0 := by
  obtain ⟨m, d, hm1, hm3, hprev, hc⟩ := slot_spec env i s
  rcases hc with ⟨c, h, hresp, hh, hn, heq⟩ | ⟨hrej, heq⟩ | ⟨hm, hlast, heq⟩
  · have hacc : hasAcceptableAttempt generateContentHash s.existingChallengeHashes
        (env.InvokeLLM i) :=
      (hasAcceptableAttempt_iff _ _ _).mpr ⟨m, hm1, hm3,
        (acceptable_eq_true_iff _ _ _).mpr ⟨c, h, hresp, hh, hn⟩,
        fun j a b => (hprev j a b).1⟩
    rw [if_pos hacc, heq, saveAccepted_ok _ _ _ _ _ h1 h2]
    simp
  · have hacc : ¬ hasAcceptableAttempt generateContentHash s.existingChallengeHashes
        (env.InvokeLLM i) := by
      rw [hasAcceptableAttempt_iff]
      rintro ⟨k, a, b, hk, hno⟩
      rcases Nat.lt_trichotomy k m with hlt | heq' | hgt
      · rw [(hprev k a hlt).2] at hk; exact absurd hk (by simp)
      · subst heq'; rw [hrej, acceptable_rejected] at hk; exact absurd hk (by simp)
      · exact hno m hm1 hgt hrej
    rw [if_neg hacc, heq]
    rfl
  · have hacc : ¬ hasAcceptableAttempt generateContentHash s.existingChallengeHashes
        (env.InvokeLLM i) := by
      rw [hasAcceptableAttempt_iff]
      rintro ⟨k, a, b, hk, _⟩
      subst hm
      rcases Nat.lt_or_ge k 3 with hlt | hge
      · rw [(hprev k a hlt).2] at hk; exact absurd hk (by simp)
      · have : k = 3 := by omega
        subst this
        rw [hlast.2] at hk; exact absurd hk (by simp)
    rw [if_neg hacc, heq]
    rfl

theorem forLoop_generated_length (env : Env) (ids : Nat → Nat) (st0 : State)
    (h1 : ∀ i, env.challengeCreate i = some (ids i)) (h2 : ∀ i, env.answerKeyCreate i = true)
    (n : Nat) :
    (forLoop env n st0).generatedChallenges.length = st0.generatedChallenges.length +
      (List.range n).countP (fun i => decide (hasAcceptableAttempt generateContentHash
        (forLoop env i st0).existingChallengeHashes (env.InvokeLLM i))) := by
  induction n with
  | zero => simp [forLoop]
  | succ n ih =>
    rw [forLoop_succ, slot_generated_length env n (ids n) _ (h1 n) (h2 n), ih, List.range_succ,
      List.countP_append, List.countP_singleton]
    simp only [decide_eq_true_eq]
    omega

end AIChallengeManager

namespace PostJobWithAI

theorem slot_accept_first_job (llm : Nat → Nat → Response) (jd : JobDetails) (i : Nat) (s : State)
    (c : Candidate) (h : JSString)
    (hr : llm i 1 = .text (some (.object c)))
    (hh : generateContentHash c.title c.description c.correct_answer = some h)
    (hn : h ∉ s.existingChallengeHashes) :
    (slot llm jd i s).existingChallengeHashes = s.existingChallengeHashes ++ [h]
    ∧ (slot llm jd i s).newChallenges = s.newChallenges
        ++ [.object { c with content_hash := .string h, job_specific := .boolean true,
                             generated_for_job := .string jd.title }] := by
  have hw := whileLoop_accept_job llm jd i 2 ⟨0, .null, false⟩ s c h rfl (by decide) hr hh hn
  simp only [Nat.zero_add] at hw
  simp [slot, hw, Json.truthy]

theorem slot_no_accept_job (llm : Nat → Nat → Response) (jd : JobDetails) (i : Nat) (s : State)
    (hall : ∀ k, llm i k ≠ .rejected ∧
      acceptable generateContentHash s.existingChallengeHashes (llm i k) = false) :
    (slot llm jd i s).existingChallengeHashes = s.existingChallengeHashes
    ∧ (slot llm jd i s).newChallenges = s.newChallenges := by
  obtain ⟨m, _, _, _, hc⟩ := slot_spec_job llm jd i s
  rcases hc with ⟨c, h, hresp, hh, hn, _⟩ | ⟨hrej, _⟩ | ⟨_, _, heq⟩
  · have := (hall m).2
    rw [(acceptable_eq_true_iff _ _ _).mpr ⟨c, h, hresp, hh, hn⟩] at this
    exact absurd this (by simp)
  · exact absurd hrej (hall m).1
  · rw [heq]; exact ⟨rfl, rfl⟩

/-- A slot pushes one challenge exactly when it has an acceptable attempt
among its first three. -/
theorem slot_newChallenges_length (llm : Nat → Nat → Response) (jd : JobDetails) (i : Nat)
    (s : State) :
    (slot llm jd i s).newChallenges.length = s.newChallenges.length +
      if hasAcceptableAttempt generateContentHash s.existingChallengeHashes (llm i)
      then 1 else 0 := by
  obtain ⟨m, hm1, hm3, hprev, hc⟩ := slot_spec_job llm jd i s
  rcases hc with ⟨c, h, hresp, hh, hn, heq⟩ | ⟨hrej, heq⟩ | ⟨hm, hlast, heq⟩
  · have hacc : hasAcceptableAttempt generateContentHash s.existingChallengeHashes (llm i) :=
      (hasAcceptableAttempt_iff _ _ _).mpr ⟨m, hm1, hm3,
        (acceptable_eq_true_iff _ _ _).mpr ⟨c, h, hresp, hh, hn⟩,
        fun j a b => (hprev j a b).1⟩
    rw [if_pos hacc, heq]
    simp
  · have hacc : ¬ hasAcceptableAttempt generateContentHash s.existingChallengeHashes (llm i) := by
      rw [hasAcceptableAttempt_iff]
      rintro ⟨k, a, b, hk, hno⟩
      rcases Nat.lt_trichotomy k m with hlt | heq' | hgt
      · rw [(hprev k a hlt).2] at hk; exact absurd hk (by simp)
      · subst heq'; rw [hrej, acceptable_rejected] at hk; exact absurd hk (by simp)
      · exact hno m hm1 hgt hrej
    rw [if_neg hacc, heq]
    rfl
  · have hacc : ¬ hasAcceptableAttempt generateContentHash s.existingChallengeHashes (llm i) := by
      rw [hasAcceptableAttempt_iff]
      rintro ⟨k, a, b, hk, _⟩
      subst hm
      rcases Nat.lt_or_ge k 3 with hlt | hge
      · rw [(hprev k a hlt).2] at hk; exact absurd hk (by simp)
      · have : k = 3 := by omega
        subst this
        rw [hlast.2] at hk; exact absurd hk (by simp)
    rw [if_neg hacc, heq]
    rfl

theorem forLoop_newChallenges_length (llm : Nat → Nat → Response) (jd : JobDetails)
    (st0 : State) (n : Nat) :
    (forLoop llm jd n st0).newChallenges.length = st0.newChallenges.length +
      (List.range n).countP (fun i => decide (hasAcceptableAttempt generateContentHash
        (forLoop llm jd i st0).existingChallengeHashes (llm i))) := by
  induction n with
  | zero => simp [forLoop]
  | succ n ih =>
    rw [forLoop_succ_job, slot_newChallenges_length llm jd n _, ih, List.range_succ,
      List.countP_append, List.countP_singleton]
    simp only [decide_eq_true_eq]
    omega

end PostJobWithAI

/-- Claim C10. Batch partial success: with 5 slots, saves that succeed, first
responses of slots 1, 3, 5 that are valid items `X1`, `X3`, `X5` with
fingerprints not yet in the seen set, and responses of slots 2 and 4 that are
always items with fingerprints already in the seen set, the run yields exactly
the three items of slots 1, 3, 5 (the model has no error outcome: every throw
is caught inside the slot). In general, for every client and every number
`n` of slots, the number of accepted items equals the number of slots `i`
having an acceptable attempt among their first three, judged against the seen
set at the start of slot `i` (the seen set after a run of `i` slots). -/
theorem C10_batch_partial_success (llm : Nat → Nat → Response) (ids : Nat → Nat)
    (selectedSkills : List JSString) (jobDetails : PostJobWithAI.JobDetails)
    (generated : List Json) (seen : List JSString) (dup : Nat)
    (X1 X3 X5 : Candidate) (h1 h3 h5 : JSString) (Y2 Y4 : Nat → Candidate)
    (g2 g4 : Nat → JSString)
    (hskills : selectedSkills ≠ [])
    (hjob : jobDetails.title ≠ [] ∧ jobDetails.description ≠ [] ∧
      jobDetails.required_skills ≠ [])
    (hr1 : llm 0 1 = .text (some (.object X1)))
    (hr3 : llm 2 1 = .text (some (.object X3)))
    (hr5 : llm 4 1 = .text (some (.object X5)))
    (hX1 : AIChallengeManager.generateContentHash X1.title X1.description X1.correct_answer
      = some h1)
    (hX3 : AIChallengeManager.generateContentHash X3.title X3.description X3.correct_answer
      = some h3)
    (hX5 : AIChallengeManager.generateContentHash X5.title X5.description X5.correct_answer
      = some h5)
    (hn1 : h1 ∉ seen) (hn3 : h3 ∉ seen ++ [h1]) (hn5 : h5 ∉ seen ++ [h1, h3])
    (hr2 : ∀ k, llm 1 k = .text (some (.object (Y2 k))))
    (hr4 : ∀ k, llm 3 k = .text (some (.object (Y4 k))))
    (hY2 : ∀ k, AIChallengeManager.generateContentHash (Y2 k).title (Y2 k).description
      (Y2 k).correct_answer = some (g2 k))
    (hY4 : ∀ k, AIChallengeManager.generateContentHash (Y4 k).title (Y4 k).description
      (Y4 k).correct_answer = some (g4 k))
    (hg2 : ∀ k, g2 k ∈ seen ++ [h1]) (hg4 : ∀ k, g4 k ∈ seen ++ [h1, h3]) :
    ((AIChallengeManager.generateChallenges ⟨llm, fun i => some (ids i), fun _ => true⟩
          selectedSkills 5 seen dup).generatedChallenges
        = [⟨ids 0, ⟨X1.title, X1.description, .string h1, X1.rest, true, true⟩⟩,
           ⟨ids 2, ⟨X3.title, X3.description, .string h3, X3.rest, true, true⟩⟩,
           ⟨ids 4, ⟨X5.title, X5.description, .string h5, X5.rest, true, true⟩⟩]
      ∧ (PostJobWithAI.generateChallengesForJob llm jobDetails 5 seen generated).newChallenges
        = [.object { X1 with content_hash := .string h1, job_specific := .boolean true,
                             generated_for_job := .string jobDetails.title },
           .object { X3 with content_hash := .string h3, job_specific := .boolean true,
                             generated_for_job := .string jobDetails.title },
           .object { X5 with content_hash := .string h5, job_specific := .boolean true,
                             generated_for_job := .string jobDetails.title }])
    ∧ (∀ n,
        (AIChallengeManager.generateChallenges ⟨llm, fun i => some (ids i), fun _ => true⟩
          selectedSkills n seen dup).generatedChallenges.length
        = (List.range n).countP (fun i => decide (hasAcceptableAttempt
            AIChallengeManager.generateContentHash
            (AIChallengeManager.generateChallenges ⟨llm, fun i => some (ids i), fun _ => true⟩
              selectedSkills i seen dup).existingChallengeHashes (llm i)))
      ∧ (PostJobWithAI.generateChallengesForJob llm jobDetails n seen generated).newChallenges.length
        = (List.range n).countP (fun i => decide (hasAcceptableAttempt
            PostJobWithAI.generateContentHash
            (PostJobWithAI.generateChallengesForJob llm jobDetails i seen
              generated).existingChallengeHashes (llm i)))) := by
  have hdup2 : ∀ k, llm 1 k ≠ .rejected ∧
      acceptable AIChallengeManager.generateContentHash (seen ++ [h1]) (llm 1 k) = false := by
    intro k
    rw [hr2 k]
    exact ⟨by simp, by simp [acceptable, hY2 k, setHas, hg2 k]⟩
  have hdup4 : ∀ k, llm 3 k ≠ .rejected ∧
      acceptable AIChallengeManager.generateContentHash (seen ++ [h1, h3]) (llm 3 k) = false := by
    intro k
    rw [hr4 k]
    exact ⟨by simp, by simp [acceptable, hY4 k, setHas, hg4 k]⟩
  refine ⟨⟨?_, ?_⟩, fun n => ⟨?_, ?_⟩⟩
  · rw [AIChallengeManager.generateChallenges_eq _ selectedSkills 5 seen dup hskills]
    simp only [AIChallengeManager.forLoop_succ, show (5 : Nat) = 0 + 1 + 1 + 1 + 1 + 1 from rfl]
    have e0 : AIChallengeManager.forLoop ⟨llm, fun i => some (ids i), fun _ => true⟩ 0
        ⟨seen, 0, [], [], [], [], [], []⟩ = ⟨seen, 0, [], [], [], [], [], []⟩ := rfl
    rw [e0]
    have a1 := AIChallengeManager.slot_accept_first ⟨llm, fun i => some (ids i), fun _ => true⟩
      0 (ids 0) ⟨seen, 0, [], [], [], [], [], []⟩ X1 h1 hr1 hX1 hn1 rfl rfl
    have a2 := AIChallengeManager.slot_no_accept ⟨llm, fun i => some (ids i), fun _ => true⟩
      (0 + 1) _ (fun k => by rw [a1.1]; exact hdup2 k)
    have a3 := AIChallengeManager.slot_accept_first ⟨llm, fun i => some (ids i), fun _ => true⟩
      (0 + 1 + 1) (ids 2) _ X3 h3 hr3 hX3 (by rw [a2.1, a1.1]; exact hn3) rfl rfl
    have a4 := AIChallengeManager.slot_no_accept ⟨llm, fun i => some (ids i), fun _ => true⟩
      (0 + 1 + 1 + 1) _ (fun k => by
        rw [a3.1, a2.1, a1.1, List.append_assoc]; exact hdup4 k)
    have a5 := AIChallengeManager.slot_accept_first ⟨llm, fun i => some (ids i), fun _ => true⟩
      (0 + 1 + 1 + 1 + 1) (ids 4) _ X5 h5 hr5 hX5
      (by rw [a4.1, a3.1, a2.1, a1.1, List.append_assoc]; exact hn5) rfl rfl
    rw [a5.2, a4.2, a3.2, a2.2, a1.2]
    rfl
  · rw [PostJobWithAI.generateChallengesForJob_eq llm jobDetails 5 seen generated hjob]
    simp only [PostJobWithAI.forLoop_succ_job, show (5 : Nat) = 0 + 1 + 1 + 1 + 1 + 1 from rfl]
    have e0 : PostJobWithAI.forLoop llm jobDetails 0 ⟨seen, [], []⟩ = ⟨seen, [], []⟩ := rfl
    rw [e0]
    have a1 := PostJobWithAI.slot_accept_first_job llm jobDetails 0 ⟨seen, [], []⟩ X1 h1 hr1 hX1 hn1
    have a2 := PostJobWithAI.slot_no_accept_job llm jobDetails (0 + 1) _
      (fun k => by rw [a1.1]; exact hdup2 k)
    have a3 := PostJobWithAI.slot_accept_first_job llm jobDetails (0 + 1 + 1) _ X3 h3 hr3 hX3
      (by rw [a2.1, a1.1]; exact hn3)
    have a4 := PostJobWithAI.slot_no_accept_job llm jobDetails (0 + 1 + 1 + 1) _ (fun k => by
      rw [a3.1, a2.1, a1.1, List.append_assoc]; exact hdup4 k)
    have a5 := PostJobWithAI.slot_accept_first_job llm jobDetails (0 + 1 + 1 + 1 + 1) _ X5 h5 hr5 hX5
      (by rw [a4.1, a3.1, a2.1, a1.1, List.append_assoc]; exact hn5)
    rw [a5.2, a4.2, a3.2, a2.2, a1.2]
    rfl
  · rw [AIChallengeManager.generateChallenges_eq _ selectedSkills n seen dup hskills]
    have := AIChallengeManager.forLoop_generated_length
      ⟨llm, fun i => some (ids i), fun _ => true⟩ ids ⟨seen, 0, [], [], [], [], [], []⟩
      (fun _ => rfl) (fun _ => rfl) n
    simp only [List.length_nil, Nat.zero_add] at this
    rw [this]
    simp only [AIChallengeManager.generateChallenges_eq _ selectedSkills _ seen dup hskills]
  · rw [PostJobWithAI.generateChallengesForJob_eq llm jobDetails n seen generated hjob]
    have := PostJobWithAI.forLoop_newChallenges_length llm jobDetails ⟨seen, [], []⟩ n
    simp only [List.length_nil, Nat.zero_add] at this
    rw [this]
    simp only [PostJobWithAI.generateChallengesForJob_eq llm jobDetails _ seen generated hjob]

/-- Witness of C10: five slots, the seen set holding `"dGRh"`, a client that
answers the even slots with fresh candidates and the odd slots with the
candidate whose fingerprint is `"dGRh"`; the items of slots 0, 2 and 4 are
accepted. -/
theorem C10_batch_partial_success_witness :
    (AIChallengeManager.generateChallenges ⟨partialClient, fun i => some i, fun _ => true⟩
        [lit "Fraud Detection"] 5 [lit "dGRh"] 0).generatedChallenges.map (·.id) = [0, 2, 4]
    ∧ (PostJobWithAI.generateChallengesForJob partialClient jobAuditor 5 [lit "dGRh"]
        []).newChallenges.length = 3 :=
  have e : AIChallengeManager.generateContentHash candidateTDA.title candidateTDA.description
      candidateTDA.correct_answer = some (lit "dGRh") := by decide
  have m2 : lit "dGRh" ∈ [lit "dGRh"] ++ [lit "dDBkYQ"] := by decide
  have m4 : lit "dGRh" ∈ [lit "dGRh"] ++ [lit "dDBkYQ", lit "dDJkYQ"] := by decide
  have w := C10_batch_partial_success partialClient (fun i => i) [lit "Fraud Detection"]
    jobAuditor [] [lit "dGRh"] 0 (candidateSlot 0) (candidateSlot 2) (candidateSlot 4)
    (lit "dDBkYQ") (lit "dDJkYQ") (lit "dDRkYQ") (fun _ => candidateTDA) (fun _ => candidateTDA)
    (fun _ => lit "dGRh") (fun _ => lit "dGRh") (by decide) (by decide) rfl rfl rfl
    (by decide) (by decide) (by decide) (by decide) (by decide) (by decide)
    (fun _ => rfl) (fun _ => rfl) (fun _ => e) (fun _ => e) (fun _ => m2) (fun _ => m4)
  ⟨by rw [w.1.1]; rfl, by rw [w.1.2]; rfl⟩

/-! ## The attempt that ends a slot -/

theorem firstAcceptable_eq_some (hash : Value → Value → Value → Option JSString)
    (seen : List JSString) (r : Nat → Response) (m : Nat) (h1 : 1 ≤ m) (h3 : m ≤ 3)
    (hacc : acceptable hash seen (r m) = true)
    (hprev : ∀ k, 1 ≤ k → k < m → acceptable hash seen (r k) = false) :
    firstAcceptable hash seen r = some m := by
  have hm : m = 1 ∨ m = 2 ∨ m = 3 := by omega
  rcases hm with rfl | rfl | rfl
  · simp [firstAcceptable, List.find?, hacc]
  · simp [firstAcceptable, List.find?, hacc, hprev 1 (by omega) (by omega)]
  · simp [firstAcceptable, List.find?, hacc, hprev 1 (by omega) (by omega),
      hprev 2 (by omega) (by omega)]

theorem firstAcceptable_eq_none (hash : Value → Value → Value → Option JSString)
    (seen : List JSString) (r : Nat → Response)
    (hall : ∀ k, 1 ≤ k → k ≤ 3 → acceptable hash seen (r k) = false) :
    firstAcceptable hash seen r = none := by
  simp [firstAcceptable, List.find?, hall 1 (by omega) (by omega), hall 2 (by omega) (by omega),
    hall 3 (by omega) (by omega)]

namespace AIChallengeManager

/-- When no call of slot `i` throws, the slot makes the calls up to the first
acceptable attempt (all three when there is none) and hands exactly that
response to `Challenge.create`. -/
theorem slot_first_acceptable (env : Env) (i : Nat) (s : State)
    (hno : ∀ k, env.InvokeLLM i k ≠ .rejected) :
    (slot env i s).llmCalls = s.llmCalls ++ attemptCalls 8 i
        ((firstAcceptable generateContentHash s.existingChallengeHashes (env.InvokeLLM i)).getD 3)
    ∧ (∀ k, firstAcceptable generateContentHash s.existingChallengeHashes (env.InvokeLLM i)
          = some k →
        ∃ c h, env.InvokeLLM i k = .text (some (.object c)) ∧
          generateContentHash c.title c.description c.correct_answer = some h ∧
          (slot env i s).createCalls
            = s.createCalls ++ [⟨c.title, c.description, .string h, c.rest, true, true⟩] ∧
          (slot env i s).existingChallengeHashes = s.existingChallengeHashes ++ [h])
    ∧ (firstAcceptable generateContentHash s.existingChallengeHashes (env.InvokeLLM i) = none →
        (slot env i s).createCalls = s.createCalls ∧
        (slot env i s).existingChallengeHashes = s.existingChallengeHashes) := by
  obtain ⟨m, d, hm1, hm3, hprev, hc⟩ := slot_spec env i s
  rcases hc with ⟨c, h, hresp, hh, hn, heq⟩ | ⟨hrej, _⟩ | ⟨hm, hlast, heq⟩
  · have hfirst := firstAcceptable_eq_some generateContentHash s.existingChallengeHashes
      (env.InvokeLLM i) m hm1 hm3 ((acceptable_eq_true_iff _ _ _).mpr ⟨c, h, hresp, hh, hn⟩)
      (fun k a b => (hprev k a b).2)
    obtain ⟨f1, f2, _, f4⟩ := saveAccepted_frame env i { c with content_hash := .string h }
      { s with llmCalls := s.llmCalls ++ attemptCalls 8 i m,
               duplicateAttempts := s.duplicateAttempts + d,
               existingChallengeHashes := s.existingChallengeHashes ++ [h] }
    rw [← heq] at f1 f2 f4
    simp only at f1 f2 f4
    rw [hfirst]
    refine ⟨by simpa using f2, fun k hk => ?_, fun hnone => by simp at hnone⟩
    have hk' : m = k := by simpa using hk
    subst hk'
    exact ⟨c, h, hresp, hh, f4, f1⟩
  · exact absurd hrej (hno m)
  · subst hm
    have hfirst := firstAcceptable_eq_none generateContentHash s.existingChallengeHashes
      (env.InvokeLLM i) (fun k a b => by
        rcases Nat.lt_or_ge k 3 with hlt | hge
        · exact (hprev k a hlt).2
        · have : k = 3 := by omega
          subst this
          exact hlast.2)
    rw [hfirst, heq]
    exact ⟨rfl, fun k hk => by simp at hk, fun _ => ⟨rfl, rfl⟩⟩

end AIChallengeManager

namespace PostJobWithAI

/-- When no call of slot `i` throws, the slot makes the calls up to the first
acceptable attempt (all three when there is none) and pushes exactly that
response, with its fingerprint and the two job fields set. -/
theorem slot_first_acceptable_job (llm : Nat → Nat → Response) (jd : JobDetails) (i : Nat)
    (s : State) (hno : ∀ k, llm i k ≠ .rejected) :
    (slot llm jd i s).llmCalls = s.llmCalls ++ attemptCalls 7 i
        ((firstAcceptable generateContentHash s.existingChallengeHashes (llm i)).getD 3)
    ∧ (∀ k, firstAcceptable generateContentHash s.existingChallengeHashes (llm i) = some k →
        ∃ c h, llm i k = .text (some (.object c)) ∧
          generateContentHash c.title c.description c.correct_answer = some h ∧
          (slot llm jd i s).newChallenges = s.newChallenges ++
            [.object { c with content_hash := .string h, job_specific := .boolean true,
                              generated_for_job := .string jd.title }] ∧
          (slot llm jd i s).existingChallengeHashes = s.existingChallengeHashes ++ [h])
    ∧ (firstAcceptable generateContentHash s.existingChallengeHashes (llm i) = none →
        (slot llm jd i s).newChallenges = s.newChallenges ∧
        (slot llm jd i s).existingChallengeHashes = s.existingChallengeHashes) := by
  obtain ⟨m, hm1, hm3, hprev, hc⟩ := slot_spec_job llm jd i s
  rcases hc with ⟨c, h, hresp, hh, hn, heq⟩ | ⟨hrej, _⟩ | ⟨hm, hlast, heq⟩
  · have hfirst := firstAcceptable_eq_some generateContentHash s.existingChallengeHashes
      (llm i) m hm1 hm3 ((acceptable_eq_true_iff _ _ _).mpr ⟨c, h, hresp, hh, hn⟩)
      (fun k a b => (hprev k a b).2)
    rw [hfirst, heq]
    refine ⟨rfl, fun k hk => ?_, fun hnone => by simp at hnone⟩
    have hk' : m = k := by simpa using hk
    subst hk'
    exact ⟨c, h, hresp, hh, rfl, rfl⟩
  · exact absurd hrej (hno m)
  · subst hm
    have hfirst := firstAcceptable_eq_none generateContentHash s.existingChallengeHashes
      (llm i) (fun k a b => by
        rcases Nat.lt_or_ge k 3 with hlt | hge
        · exact (hprev k a hlt).2
        · have : k = 3 := by omega
          subst this
          exact hlast.2)
    rw [hfirst, heq]
    exact ⟨rfl, fun k hk => by simp at hk, fun _ => ⟨rfl, rfl⟩⟩

end PostJobWithAI

/-- Claim C11. The loop exits on acceptance: in a slot none of whose generation
calls throws, the calls made are those of attempts `1` to `k`, where `k` is the
first attempt whose response is acceptable against the seen set the slot
starts with (it parses to an object with a string title, description and
correct answer whose fingerprint is not in the set), or `3` when there is
none; the accepted item is that `k`-th response, handed to `Challenge.create`
(pushed onto `newChallenges` in `PostJobWithAI.jsx`) with its fingerprint,
which is added to the seen set; without an acceptable attempt nothing is
accepted. In particular, with an empty seen set, one slot and a client always
returning `{title: "T", description: "D", correct_answer: "A"}`, exactly one
call is made, `Challenge.create` is called once, the item is accepted with
the fingerprint `"dGRh"` of the content `"tda"`, and the seen set holds that
fingerprint afterwards. -/
theorem C11_loop_exits_on_acceptance (env : AIChallengeManager.Env)
    (llm : Nat → Nat → Response) (jobDetails : PostJobWithAI.JobDetails) (i : Nat)
    (s : AIChallengeManager.State) (s' : PostJobWithAI.State)
    (hno : ∀ k, env.InvokeLLM i k ≠ .rejected) (hno' : ∀ k, llm i k ≠ .rejected) :
    ((AIChallengeManager.slot env i s).llmCalls = s.llmCalls ++ attemptCalls 8 i
          ((firstAcceptable AIChallengeManager.generateContentHash s.existingChallengeHashes
            (env.InvokeLLM i)).getD 3)
      ∧ (∀ k, firstAcceptable AIChallengeManager.generateContentHash s.existingChallengeHashes
            (env.InvokeLLM i) = some k →
          ∃ c h, env.InvokeLLM i k = .text (some (.object c)) ∧
            AIChallengeManager.generateContentHash c.title c.description c.correct_answer
              = some h ∧
            (AIChallengeManager.slot env i s).createCalls
              = s.createCalls ++ [⟨c.title, c.description, .string h, c.rest, true, true⟩] ∧
            (AIChallengeManager.slot env i s).existingChallengeHashes
              = s.existingChallengeHashes ++ [h])
      ∧ (firstAcceptable AIChallengeManager.generateContentHash s.existingChallengeHashes
            (env.InvokeLLM i) = none →
          (AIChallengeManager.slot env i s).createCalls = s.createCalls ∧
          (AIChallengeManager.slot env i s).existingChallengeHashes
            = s.existingChallengeHashes))
    ∧ ((PostJobWithAI.slot llm jobDetails i s').llmCalls = s'.llmCalls ++ attemptCalls 7 i
          ((firstAcceptable PostJobWithAI.generateContentHash s'.existingChallengeHashes
            (llm i)).getD 3)
      ∧ (∀ k, firstAcceptable PostJobWithAI.generateContentHash s'.existingChallengeHashes
            (llm i) = some k →
          ∃ c h, llm i k = .text (some (.object c)) ∧
            PostJobWithAI.generateContentHash c.title c.description c.correct_answer = some h ∧
            (PostJobWithAI.slot llm jobDetails i s').newChallenges = s'.newChallenges ++
              [.object { c with content_hash := .string h, job_specific := .boolean true,
                                generated_for_job := .string jobDetails.title }] ∧
            (PostJobWithAI.slot llm jobDetails i s').existingChallengeHashes
              = s'.existingChallengeHashes ++ [h])
      ∧ (firstAcceptable PostJobWithAI.generateContentHash s'.existingChallengeHashes
            (llm i) = none →
          (PostJobWithAI.slot llm jobDetails i s').newChallenges = s'.newChallenges ∧
          (PostJobWithAI.slot llm jobDetails i s').existingChallengeHashes
            = s'.existingChallengeHashes))
    ∧ ((AIChallengeManager.generateChallenges (envAlways (.text (some (.object candidateTDA))))
          [lit "Fraud Detection"] 1 [] 0).llmCalls = [⟨0, 1, temperatureAt 8 1⟩]
      ∧ (AIChallengeManager.generateChallenges (envAlways (.text (some (.object candidateTDA))))
          [lit "Fraud Detection"] 1 [] 0).createCalls
          = [⟨.string (lit "T"), .string (lit "D"), .string (lit "dGRh"), 0, true, true⟩]
      ∧ (AIChallengeManager.generateChallenges (envAlways (.text (some (.object candidateTDA))))
          [lit "Fraud Detection"] 1 [] 0).generatedChallenges
          = [⟨0, ⟨.string (lit "T"), .string (lit "D"), .string (lit "dGRh"), 0, true, true⟩⟩]
      ∧ (AIChallengeManager.generateChallenges (envAlways (.text (some (.object candidateTDA))))
          [lit "Fraud Detection"] 1 [] 0).existingChallengeHashes = [lit "dGRh"]
      ∧ substring0 32 (stripNonAlnum (base64Encode (lit "tda"))) = lit "dGRh"
      ∧ (PostJobWithAI.generateChallengesForJob (fun _ _ => .text (some (.object candidateTDA)))
          jobAuditor 1 [] []).llmCalls = [⟨0, 1, temperatureAt 7 1⟩]
      ∧ (PostJobWithAI.generateChallengesForJob (fun _ _ => .text (some (.object candidateTDA)))
          jobAuditor 1 [] []).newChallenges
          = [.object { candidateTDA with content_hash := .string (lit "dGRh"),
                                         job_specific := .boolean true,
                                         generated_for_job := .string (lit "Auditor") }]
      ∧ (PostJobWithAI.generateChallengesForJob (fun _ _ => .text (some (.object candidateTDA)))
          jobAuditor 1 [] []).existingChallengeHashes = [lit "dGRh"]) :=
  ⟨AIChallengeManager.slot_first_acceptable env i s hno,
    PostJobWithAI.slot_first_acceptable_job llm jobDetails i s' hno', by decide⟩

/-- Witness of C11: slot 1 of the client `partialClient`, which answers every
call with the candidate whose fingerprint `"dGRh"` is in the seen set, makes
three calls; slot 0, answered with a fresh candidate, makes one. -/
theorem C11_loop_exits_on_acceptance_witness :
    (AIChallengeManager.slot ⟨partialClient, fun i => some i, fun _ => true⟩ 1
        ⟨[lit "dGRh"], 0, [], [], [], [], [], []⟩).llmCalls = [] ++ attemptCalls 8 1 3
    ∧ (PostJobWithAI.slot partialClient jobAuditor 0 ⟨[lit "dGRh"], [], []⟩).llmCalls
        = [] ++ attemptCalls 7 0 1 :=
  have w1 := C11_loop_exits_on_acceptance ⟨partialClient, fun i => some i, fun _ => true⟩
    partialClient jobAuditor 1 ⟨[lit "dGRh"], 0, [], [], [], [], [], []⟩
    ⟨[lit "dGRh"], [], []⟩ (fun _ => by simp [partialClient]) (fun _ => by simp [partialClient])
  have w0 := C11_loop_exits_on_acceptance ⟨partialClient, fun i => some i, fun _ => true⟩
    partialClient jobAuditor 0 ⟨[lit "dGRh"], 0, [], [], [], [], [], []⟩
    ⟨[lit "dGRh"], [], []⟩ (fun _ => by simp [partialClient]) (fun _ => by simp [partialClient])
  ⟨w1.1.1, w0.2.1.1⟩

/-! ## Every slot is visited -/

theorem mem_attemptCalls (base i m : Nat) (c : LLMCall) (hc : c ∈ attemptCalls base i m) :
    c.slot = i ∧ 1 ≤ c.attempt ∧ c.attempt ≤ m ∧ c.temperature = temperatureAt base c.attempt := by
  simp only [attemptCalls, List.mem_map, List.mem_range'_1] at hc
  obtain ⟨k, ⟨h1, h2⟩, rfl⟩ := hc
  exact ⟨rfl, h1, by simp only; omega, rfl⟩

theorem flatMap_update (base n : Nat) (m : Nat → Nat) (v : Nat) :
    (List.range n).flatMap (fun i => attemptCalls base i (Function.update m n v i))
      = (List.range n).flatMap (fun i => attemptCalls base i (m i)) := by
  show ((List.range n).map _).flatten = ((List.range n).map _).flatten
  congr 1
  apply List.map_congr_left
  intro a ha
  have : a ≠ n := Nat.ne_of_lt (List.mem_range.mp ha)
  rw [Function.update_noteq this]

namespace AIChallengeManager

theorem slot_eq_tryBlock (env : Env) (i : Nat) (s : State) :
    slot env i s = (tryBlock env i s).2 := by
  unfold slot tryBlock
  rcases whileLoop env i maxDuplicateAttempts ⟨0, .null, false⟩ s with ⟨_ | v, s1⟩
  · rfl
  · by_cases hv : (v.isUnique && v.challenge.truthy) = true
    · simp only [hv, if_true]
      cases h1 : env.challengeCreate i with
      | none => rfl
      | some id => cases h2 : env.answerKeyCreate i <;> simp
    · simp only [hv, if_false]
      rfl

theorem slot_calls (env : Env) (i : Nat) (s : State) :
    ∃ m, 1 ≤ m ∧ m ≤ 3 ∧ (slot env i s).llmCalls = s.llmCalls ++ attemptCalls 8 i m := by
  obtain ⟨m, d, hm1, hm3, _, hc⟩ := slot_spec env i s
  refine ⟨m, hm1, hm3, ?_⟩
  rcases hc with ⟨c, h, _, _, _, heq⟩ | ⟨_, heq⟩ | ⟨_, _, heq⟩
  · rw [heq, (saveAccepted_frame env i _ _).2.1]
  · rw [heq]
  · rw [heq]

/-- The call log of a run is made, slot after slot, of the calls of attempts
`1` to `m i` of every slot `i` below `n`, with `1 ≤ m i ≤ 3`. -/
theorem forLoop_calls (env : Env) (st0 : State) (n : Nat) :
    ∃ m : Nat → Nat, (∀ i, 1 ≤ m i ∧ m i ≤ 3) ∧
      (forLoop env n st0).llmCalls
        = st0.llmCalls ++ (List.range n).flatMap (fun i => attemptCalls 8 i (m i)) := by
  refine forLoop_induction env (fun i s => ∃ m : Nat → Nat, (∀ j, 1 ≤ m j ∧ m j ≤ 3) ∧
      s.llmCalls = st0.llmCalls ++ (List.range i).flatMap (fun j => attemptCalls 8 j (m j)))
    st0 ⟨fun _ => 1, fun _ => ⟨le_refl _, Nat.le_succ_of_le (Nat.le_succ 1)⟩, by simp⟩ ?_ n
  rintro i s ⟨m, hm, hs⟩
  obtain ⟨mi, h1, h3, heq⟩ := slot_calls env i s
  refine ⟨Function.update m i mi, fun j => ?_, ?_⟩
  · by_cases hj : j = i
    · subst hj; rw [Function.update_same]; exact ⟨h1, h3⟩
    · rw [Function.update_noteq hj]; exact hm j
  · rw [heq, hs, List.range_succ, List.flatMap_append, flatMap_update]
    simp

end AIChallengeManager

namespace PostJobWithAI

theorem slot_eq_tryBlock_job (llm : Nat → Nat → Response) (jd : JobDetails) (i : Nat)
    (s : State) : slot llm jd i s = (tryBlock llm jd i s).2 := by
  unfold slot tryBlock
  rcases whileLoop llm jd i 3 ⟨0, .null, false⟩ s with ⟨_ | v, s1⟩
  · rfl
  · by_cases hv : (v.isUnique && v.challenge.truthy) = true
    · simp only [hv, if_true]
    · simp only [hv, if_false]
      rfl

theorem slot_calls_job (llm : Nat → Nat → Response) (jd : JobDetails) (i : Nat) (s : State) :
    ∃ m, 1 ≤ m ∧ m ≤ 3 ∧ (slot llm jd i s).llmCalls = s.llmCalls ++ attemptCalls 7 i m := by
  obtain ⟨m, hm1, hm3, _, hc⟩ := slot_spec_job llm jd i s
  refine ⟨m, hm1, hm3, ?_⟩
  rcases hc with ⟨c, h, _, _, _, heq⟩ | ⟨_, heq⟩ | ⟨_, _, heq⟩ <;> rw [heq]

/-- The call log of a run is made, slot after slot, of the calls of attempts
`1` to `m i` of every slot `i` below `n`, with `1 ≤ m i ≤ 3`. -/
theorem forLoop_calls_job (llm : Nat → Nat → Response) (jd : JobDetails) (st0 : State)
    (n : Nat) :
    ∃ m : Nat → Nat, (∀ i, 1 ≤ m i ∧ m i ≤ 3) ∧
      (forLoop llm jd n st0).llmCalls
        = st0.llmCalls ++ (List.range n).flatMap (fun i => attemptCalls 7 i (m i)) := by
  refine forLoop_induction_job llm jd (fun i s => ∃ m : Nat → Nat, (∀ j, 1 ≤ m j ∧ m j ≤ 3) ∧
      s.llmCalls = st0.llmCalls ++ (List.range i).flatMap (fun j => attemptCalls 7 j (m j)))
    st0 ⟨fun _ => 1, fun _ => ⟨le_refl _, Nat.le_succ_of_le (Nat.le_succ 1)⟩, by simp⟩ ?_ n
  rintro i s ⟨m, hm, hs⟩
  obtain ⟨mi, h1, h3, heq⟩ := slot_calls_job llm jd i s
  refine ⟨Function.update m i mi, fun j => ?_, ?_⟩
  · by_cases hj : j = i
    · subst hj; rw [Function.update_same]; exact ⟨h1, h3⟩
    · rw [Function.update_noteq hj]; exact hm j
  · rw [heq, hs, List.range_succ, List.flatMap_append, flatMap_update]
    simp

end PostJobWithAI

theorem mem_flatMap_attemptCalls (base n : Nat) (m : Nat → Nat) (c : LLMCall)
    (hm : ∀ i, 1 ≤ m i ∧ m i ≤ 3)
    (hc : c ∈ (List.range n).flatMap (fun i => attemptCalls base i (m i))) :
    c.slot < n ∧ 1 ≤ c.attempt ∧ c.attempt ≤ 3 ∧ c.temperature = temperatureAt base c.attempt := by
  obtain ⟨i, hi, hci⟩ := List.mem_flatMap.mp hc
  obtain ⟨h1, h2, h3, h4⟩ := mem_attemptCalls base i (m i) c hci
  exact ⟨by rw [h1]; exact List.mem_range.mp hi, h2, le_trans h3 (hm i).2, h4⟩

theorem first_mem_flatMap_attemptCalls (base n : Nat) (m : Nat → Nat) (i : Nat)
    (hm : ∀ i, 1 ≤ m i ∧ m i ≤ 3) (hi : i < n) :
    (⟨i, 1, temperatureAt base 1⟩ : LLMCall) ∈ (List.range n).flatMap (fun i => attemptCalls base i (m i)) := by
  refine List.mem_flatMap.mpr ⟨i, List.mem_range.mpr hi, ?_⟩
  simp only [attemptCalls, List.mem_map, List.mem_range'_1]
  exact ⟨1, ⟨le_refl _, by have := (hm i).1; omega⟩, rfl⟩

namespace AIChallengeManager

theorem tryBlock_exhausted (env : Env) (i : Nat) (s : State)
    (hall : ∀ k, env.InvokeLLM i k ≠ .rejected ∧
      acceptable generateContentHash s.existingChallengeHashes (env.InvokeLLM i k) = false) :
    (tryBlock env i s).1 = none := by
  obtain ⟨m, d, _, _, _, h4⟩ :=
    whileLoop_spec env i maxDuplicateAttempts ⟨0, .null, false⟩ s rfl (by simp)
  rcases h4 with ⟨_, c, h, hresp, hh, hn, _⟩ | ⟨_, hrej, _⟩ | ⟨_, _, ch, heq⟩
  · have := (hall m).2
    rw [(acceptable_eq_true_iff _ _ _).mpr ⟨c, h, hresp, hh, hn⟩] at this
    exact absurd this (by simp)
  · exact absurd hrej (hall m).1
  · simp [tryBlock, heq]

theorem generateChallenges_calls (env : Env) (selectedSkills : List JSString) (n : Nat)
    (seen : List JSString) (dup : Nat) (c : LLMCall)
    (hc : c ∈ (generateChallenges env selectedSkills n seen dup).llmCalls) :
    c.slot < n ∧ 1 ≤ c.attempt ∧ c.attempt ≤ 3 ∧ c.temperature = temperatureAt 8 c.attempt := by
  by_cases hs : selectedSkills = []
  · subst hs
    simp [generateChallenges] at hc
  · rw [generateChallenges_eq env selectedSkills n seen dup hs] at hc
    obtain ⟨m, hm, heq⟩ := forLoop_calls env ⟨seen, 0, [], [], [], [], [], []⟩ n
    rw [heq] at hc
    exact mem_flatMap_attemptCalls 8 n m c hm (by simpa using hc)

end AIChallengeManager

namespace PostJobWithAI

theorem tryBlock_exhausted_job (llm : Nat → Nat → Response) (jd : JobDetails) (i : Nat)
    (s : State)
    (hall : ∀ k, llm i k ≠ .rejected ∧
      acceptable generateContentHash s.existingChallengeHashes (llm i k) = false) :
    (tryBlock llm jd i s).1 = none := by
  obtain ⟨m, _, _, _, h4⟩ := whileLoop_spec_job llm jd i 3 ⟨0, .null, false⟩ s rfl (by simp)
  rcases h4 with ⟨_, c, h, hresp, hh, hn, _⟩ | ⟨_, hrej, _⟩ | ⟨_, _, ch, heq⟩
  · have := (hall m).2
    rw [(acceptable_eq_true_iff _ _ _).mpr ⟨c, h, hresp, hh, hn⟩] at this
    exact absurd this (by simp)
  · exact absurd hrej (hall m).1
  · simp [tryBlock, heq]

theorem generateChallengesForJob_calls (llm : Nat → Nat → Response) (jd : JobDetails) (n : Nat)
    (seen : List JSString) (generated : List Json) (c : LLMCall)
    (hc : c ∈ (generateChallengesForJob llm jd n seen generated).llmCalls) :
    c.slot < n ∧ 1 ≤ c.attempt ∧ c.attempt ≤ 3 ∧ c.temperature = temperatureAt 7 c.attempt := by
  by_cases hj : jd.title ≠ [] ∧ jd.description ≠ [] ∧ jd.required_skills ≠ []
  · rw [generateChallengesForJob_eq llm jd n seen generated hj] at hc
    obtain ⟨m, hm, heq⟩ := forLoop_calls_job llm jd ⟨seen, [], []⟩ n
    rw [heq] at hc
    exact mem_flatMap_attemptCalls 7 n m c hm (by simpa using hc)
  · have hg : (jd.title.isEmpty || jd.description.isEmpty ||
        jd.required_skills.length == 0) = true := by
      by_contra hne
      apply hj
      simp only [Bool.or_eq_true, List.isEmpty_iff, beq_iff_eq, List.length_eq_zero,
        not_or] at hne
      exact ⟨hne.1.1, hne.1.2, hne.2⟩
    simp [generateChallengesForJob, hg] at hc

end PostJobWithAI

/-- Claim C12. No failure escapes a run: whatever the generation client and the
saves do (throwing, malformed, duplicate or valid responses; saves that
succeed or throw), the state after a slot is the state its `try` block leaves,
whether an exception left that block or not (a run is a total function into
states and has no error outcome), every slot `0 .. n-1` is visited in order
(the call log is the concatenation over all slots of the calls of attempts
`1 .. m i` with `1 ≤ m i ≤ 3`, so attempt 1 of every slot is made), and a slot
whose three attempts are consumed without acceptance ends without any
exception, even a caught one. -/
theorem C12_no_failure_escapes (env : AIChallengeManager.Env) (llm : Nat → Nat → Response)
    (selectedSkills : List JSString) (jobDetails : PostJobWithAI.JobDetails)
    (generated : List Json) (n : Nat) (seen : List JSString) (dup : Nat)
    (hskills : selectedSkills ≠ [])
    (hjob : jobDetails.title ≠ [] ∧ jobDetails.description ≠ [] ∧
      jobDetails.required_skills ≠ []) :
    ((∀ i s, AIChallengeManager.slot env i s = (AIChallengeManager.tryBlock env i s).2)
      ∧ (∃ m : Nat → Nat, (∀ i, 1 ≤ m i ∧ m i ≤ 3) ∧
          (AIChallengeManager.generateChallenges env selectedSkills n seen dup).llmCalls
            = (List.range n).flatMap (fun i => attemptCalls 8 i (m i)))
      ∧ (∀ i, i < n → (⟨i, 1, temperatureAt 8 1⟩ : LLMCall) ∈
          (AIChallengeManager.generateChallenges env selectedSkills n seen dup).llmCalls)
      ∧ (∀ i s,
          (∀ k, env.InvokeLLM i k ≠ .rejected ∧
            acceptable AIChallengeManager.generateContentHash s.existingChallengeHashes
              (env.InvokeLLM i k) = false) →
          (AIChallengeManager.tryBlock env i s).1 = none))
    ∧ ((∀ i s, PostJobWithAI.slot llm jobDetails i s
          = (PostJobWithAI.tryBlock llm jobDetails i s).2)
      ∧ (∃ m : Nat → Nat, (∀ i, 1 ≤ m i ∧ m i ≤ 3) ∧
          (PostJobWithAI.generateChallengesForJob llm jobDetails n seen generated).llmCalls
            = (List.range n).flatMap (fun i => attemptCalls 7 i (m i)))
      ∧ (∀ i, i < n → (⟨i, 1, temperatureAt 7 1⟩ : LLMCall) ∈
          (PostJobWithAI.generateChallengesForJob llm jobDetails n seen generated).llmCalls)
      ∧ (∀ i s,
          (∀ k, llm i k ≠ .rejected ∧
            acceptable PostJobWithAI.generateContentHash s.existingChallengeHashes
              (llm i k) = false) →
          (PostJobWithAI.tryBlock llm jobDetails i s).1 = none)) := by
  constructor
  · obtain ⟨m, hm, heq⟩ := AIChallengeManager.forLoop_calls env
      ⟨seen, 0, [], [], [], [], [], []⟩ n
    simp only [List.nil_append] at heq
    rw [AIChallengeManager.generateChallenges_eq env selectedSkills n seen dup hskills]
    refine ⟨AIChallengeManager.slot_eq_tryBlock env, ⟨m, hm, heq⟩, fun i hi => ?_,
      AIChallengeManager.tryBlock_exhausted env⟩
    rw [heq]
    exact first_mem_flatMap_attemptCalls 8 n m i hm hi
  · obtain ⟨m, hm, heq⟩ := PostJobWithAI.forLoop_calls_job llm jobDetails ⟨seen, [], []⟩ n
    simp only [List.nil_append] at heq
    rw [PostJobWithAI.generateChallengesForJob_eq llm jobDetails n seen generated hjob]
    refine ⟨PostJobWithAI.slot_eq_tryBlock_job llm jobDetails, ⟨m, hm, heq⟩, fun i hi => ?_,
      PostJobWithAI.tryBlock_exhausted_job llm jobDetails⟩
    rw [heq]
    exact first_mem_flatMap_attemptCalls 7 n m i hm hi

/-- Witness of C12: against a generation call that always throws, slot 2 of a
run of three slots is still visited. -/
theorem C12_no_failure_escapes_witness :
    (⟨2, 1, temperatureAt 8 1⟩ : LLMCall) ∈ (AIChallengeManager.generateChallenges (envAlways .rejected)
        [lit "Fraud Detection"] 3 [] 0).llmCalls
    ∧ (⟨2, 1, temperatureAt 7 1⟩ : LLMCall) ∈ (PostJobWithAI.generateChallengesForJob (fun _ _ => .rejected)
        jobAuditor 3 [] []).llmCalls :=
  have w := C12_no_failure_escapes (envAlways .rejected) (fun _ _ => .rejected)
    [lit "Fraud Detection"] jobAuditor [] 3 [] 0 (by decide) (by decide)
  ⟨w.1.2.2.1 2 (by decide), w.2.2.2.1 2 (by decide)⟩

/-- The values of `0.8 + (k * 0.1)` and of `0.7 + (k * 0.1)` grow with `k` over
the attempts 1, 2, 3. -/
theorem temperatureAt_lt (a b : Nat) (h1 : 1 ≤ a) (h2 : a < b) (h3 : b ≤ 3) :
    temperatureAt 8 a < temperatureAt 8 b ∧ temperatureAt 7 a < temperatureAt 7 b := by
  have hb : 2 ≤ b := by omega
  interval_cases b <;> interval_cases a <;> exact ⟨by decide, by decide⟩

/-- Over the attempts 1, 2, 3 the values of `0.8 + (k * 0.1)` and of
`0.7 + (k * 0.1)` computed in doubles are ordered as the exact rationals
`(8 + k) / 10` and `(7 + k) / 10` are. -/
theorem temperatureAt_lt_iff (a b : Nat) (h1 : 1 ≤ a) (h2 : a ≤ 3) (h3 : 1 ≤ b) (h4 : b ≤ 3) :
    (temperatureAt 8 a < temperatureAt 8 b ↔ 8 + a < 8 + b)
    ∧ (temperatureAt 7 a < temperatureAt 7 b ↔ 7 + a < 7 + b) := by
  interval_cases a <;> interval_cases b <;> exact ⟨by decide, by decide⟩

/-- Claim C13. Escalating temperature: in a run of `generateChallenges` and in
a run of `generateChallengesForJob`, of two generation calls of the same slot
the one with the higher attempt number is made with the strictly higher
temperature (attempt `k` uses the value of `0.8 + (k * 0.1)`, respectively of
`0.7 + (k * 0.1)`, as the code computes it in doubles); and over the attempts
1, 2, 3 these doubles are ordered exactly as the rationals in tenths
`(8 + k) / 10`, respectively `(7 + k) / 10`, that the expressions denote. -/
theorem C13_escalating_temperature (env : AIChallengeManager.Env) (llm : Nat → Nat → Response)
    (selectedSkills : List JSString) (jobDetails : PostJobWithAI.JobDetails)
    (generated : List Json) (n : Nat) (seen : List JSString) (dup : Nat) :
    (∀ c1 ∈ (AIChallengeManager.generateChallenges env selectedSkills n seen dup).llmCalls,
      ∀ c2 ∈ (AIChallengeManager.generateChallenges env selectedSkills n seen dup).llmCalls,
        c1.slot = c2.slot → c1.attempt < c2.attempt →
        c1.temperature < c2.temperature)
    ∧ (∀ c1 ∈ (PostJobWithAI.generateChallengesForJob llm jobDetails n seen generated).llmCalls,
      ∀ c2 ∈ (PostJobWithAI.generateChallengesForJob llm jobDetails n seen generated).llmCalls,
        c1.slot = c2.slot → c1.attempt < c2.attempt →
        c1.temperature < c2.temperature)
    ∧ (∀ a b : Nat, 1 ≤ a → a ≤ 3 → 1 ≤ b → b ≤ 3 →
      (temperatureAt 8 a < temperatureAt 8 b ↔ 8 + a < 8 + b)
      ∧ (temperatureAt 7 a < temperatureAt 7 b ↔ 7 + a < 7 + b)) := by
  refine ⟨?_, ?_, temperatureAt_lt_iff⟩
  · intro c1 h1 c2 h2 _ hlt
    obtain ⟨_, a1, _, e1⟩ :=
      AIChallengeManager.generateChallenges_calls env selectedSkills n seen dup c1 h1
    obtain ⟨_, _, b2, e2⟩ :=
      AIChallengeManager.generateChallenges_calls env selectedSkills n seen dup c2 h2
    rw [e1, e2]
    exact (temperatureAt_lt c1.attempt c2.attempt a1 hlt b2).1
  · intro c1 h1 c2 h2 _ hlt
    obtain ⟨_, a1, _, e1⟩ :=
      PostJobWithAI.generateChallengesForJob_calls llm jobDetails n seen generated c1 h1
    obtain ⟨_, _, b2, e2⟩ :=
      PostJobWithAI.generateChallengesForJob_calls llm jobDetails n seen generated c2 h2
    rw [e1, e2]
    exact (temperatureAt_lt c1.attempt c2.attempt a1 hlt b2).2

/-- Witness of C13: against a client that only returns a duplicate, the log of
slot 0 holds attempts 1, 2 and 3 with temperatures 0.9 < 1 < 1.1
(0.7999999999999999 < 0.8999999999999999 < 1 in `PostJobWithAI.jsx`). -/
theorem C13_escalating_temperature_witness :
    (AIChallengeManager.generateChallenges (envAlways (.text (some (.object candidateTDA))))
        [lit "Fraud Detection"] 1 [lit "dGRh"] 0).llmCalls
      = [⟨0, 1, temperatureAt 8 1⟩, ⟨0, 2, temperatureAt 8 2⟩, ⟨0, 3, temperatureAt 8 3⟩]
    ∧ (PostJobWithAI.generateChallengesForJob (fun _ _ => .text (some (.object candidateTDA)))
        jobAuditor 1 [lit "dGRh"] []).llmCalls
      = [⟨0, 1, temperatureAt 7 1⟩, ⟨0, 2, temperatureAt 7 2⟩, ⟨0, 3, temperatureAt 7 3⟩]
    ∧ (⟨0, 1, temperatureAt 8 1⟩ : LLMCall).temperature
        < (⟨0, 2, temperatureAt 8 2⟩ : LLMCall).temperature
    ∧ (⟨0, 2, temperatureAt 7 2⟩ : LLMCall).temperature
        < (⟨0, 3, temperatureAt 7 3⟩ : LLMCall).temperature :=
  have w := C13_escalating_temperature (envAlways (.text (some (.object candidateTDA))))
    (fun _ _ => .text (some (.object candidateTDA))) [lit "Fraud Detection"] jobAuditor [] 1
    [lit "dGRh"] 0
  ⟨by decide, by decide,
    w.1 ⟨0, 1, temperatureAt 8 1⟩ (by decide) ⟨0, 2, temperatureAt 8 2⟩ (by decide) rfl
      (by decide),
    w.2.1 ⟨0, 2, temperatureAt 7 2⟩ (by decide) ⟨0, 3, temperatureAt 7 3⟩ (by decide) rfl
      (by decide)⟩

/-- Claim C14, counterexample. In `PostJobWithAI.generateChallengesForJob` the
first attempt of a slot is made with the temperature
`7205759403792793 * 2 ^ (-53)`, which JavaScript prints as
0.7999999999999999: it is neither the rational 9/10, nor the double 0.9, nor
the value of `0.8 + 1 * 0.1`, because the base temperature there is 0.7. -/
theorem C14_temperature_formula_counterexample :
    (PostJobWithAI.generateChallengesForJob (fun _ _ => .text (some (.object candidateTDA)))
        jobAuditor 1 [] []).llmCalls = [⟨0, 1, ⟨7205759403792793, 1021⟩⟩]
    ∧ Double.isExactly ⟨7205759403792793, 1021⟩ 9 10 = false
    ∧ (⟨7205759403792793, 1021⟩ : Double) ≠ Double.decimal 9 10
    ∧ (⟨7205759403792793, 1021⟩ : Double) ≠ temperatureAt 8 1 := by
  refine ⟨?_, ?_, ?_, ?_⟩ <;> decide

/-- Claim C14, amended. Temperature formula: every generation call of a run is
made at an attempt number `k` in `1, 2, 3` with the value of
`baseTemperature + (k * temperatureStep)` in IEEE 754 double arithmetic, where
`temperatureStep` is the literal `0.1` and `baseTemperature` is the literal
`0.8` in `AIChallengeManager.generateChallenges` and `0.7` in
`PostJobWithAI.generateChallengesForJob`. In `AIChallengeManager` the three
values are the doubles 0.9, 1 and 1.1 (the doubles nearest to 9/10 and 11/10,
and exactly 1); in `PostJobWithAI` they are `7205759403792793 * 2 ^ (-53)`
(printed 0.7999999999999999), `8106479329266892 * 2 ^ (-53)` (printed
0.8999999999999999) and exactly 1, the first two one unit in the last place
below the doubles 0.8 and 0.9. -/
theorem C14_temperature_formula (env : AIChallengeManager.Env) (llm : Nat → Nat → Response)
    (selectedSkills : List JSString) (jobDetails : PostJobWithAI.JobDetails)
    (generated : List Json) (n : Nat) (seen : List JSString) (dup : Nat) :
    (∀ c ∈ (AIChallengeManager.generateChallenges env selectedSkills n seen dup).llmCalls,
      1 ≤ c.attempt ∧ c.attempt ≤ 3
      ∧ c.temperature = Double.add (Double.decimal 8 10)
          (Double.mul (Double.ofNat c.attempt) (Double.decimal 1 10)))
    ∧ (∀ c ∈ (PostJobWithAI.generateChallengesForJob llm jobDetails n seen generated).llmCalls,
      1 ≤ c.attempt ∧ c.attempt ≤ 3
      ∧ c.temperature = Double.add (Double.decimal 7 10)
          (Double.mul (Double.ofNat c.attempt) (Double.decimal 1 10)))
    ∧ (temperatureAt 8 1 = Double.decimal 9 10 ∧ temperatureAt 8 2 = Double.ofNat 1
      ∧ temperatureAt 8 3 = Double.decimal 11 10
      ∧ Double.isExactly (temperatureAt 8 2) 1 1 = true)
    ∧ (temperatureAt 7 1 = ⟨7205759403792793, 1021⟩
      ∧ temperatureAt 7 2 = ⟨2026619832316723, 1023⟩
      ∧ temperatureAt 7 3 = Double.ofNat 1
      ∧ Double.isExactly (temperatureAt 7 1) 7205759403792793 (2 ^ 53) = true
      ∧ Double.isExactly (temperatureAt 7 2) 8106479329266892 (2 ^ 53) = true
      ∧ Double.isExactly (temperatureAt 7 3) 1 1 = true
      ∧ Double.add (temperatureAt 7 1) ⟨1, 1021⟩ = Double.decimal 8 10
      ∧ Double.add (temperatureAt 7 2) ⟨1, 1021⟩ = Double.decimal 9 10) := by
  refine ⟨?_, ?_, ?_, ?_⟩
  · intro c hc
    obtain ⟨_, h1, h2, h3⟩ :=
      AIChallengeManager.generateChallenges_calls env selectedSkills n seen dup c hc
    exact ⟨h1, h2, h3⟩
  · intro c hc
    obtain ⟨_, h1, h2, h3⟩ :=
      PostJobWithAI.generateChallengesForJob_calls llm jobDetails n seen generated c hc
    exact ⟨h1, h2, h3⟩
  · refine ⟨?_, ?_, ?_, ?_⟩ <;> decide
  · refine ⟨?_, ?_, ?_, ?_, ?_, ?_, ?_, ?_⟩ <;> decide

/-- Witness of C14 (amended): the third attempt of slot 0 against a client that
only returns a duplicate is made with the value of `0.8 + (3 * 0.1)`, the
double 1.1, respectively of `0.7 + (3 * 0.1)`, the number 1. -/
theorem C14_temperature_formula_witness :
    (⟨0, 3, temperatureAt 8 3⟩ : LLMCall).temperature
      = Double.add (Double.decimal 8 10) (Double.mul (Double.ofNat 3) (Double.decimal 1 10))
    ∧ (⟨0, 3, temperatureAt 7 3⟩ : LLMCall).temperature
      = Double.add (Double.decimal 7 10) (Double.mul (Double.ofNat 3) (Double.decimal 1 10)) :=
  have w := C14_temperature_formula (envAlways (.text (some (.object candidateTDA))))
    (fun _ _ => .text (some (.object candidateTDA))) [lit "Fraud Detection"] jobAuditor [] 1
    [lit "dGRh"] 0
  ⟨(w.1 ⟨0, 3, temperatureAt 8 3⟩ (by decide)).2.2,
    (w.2.1 ⟨0, 3, temperatureAt 7 3⟩ (by decide)).2.2⟩

/-! ## Saves are independent of each other -/

namespace AIChallengeManager

/-- The retry loop does not look at the saves: against the same generation
client, from states with the same seen set, counter and call log, it ends
with the same loop variables, seen set, counter and call log, and it leaves
the records of the saves untouched. -/
theorem whileLoop_persistence_free (env env' : Env) (h : env'.InvokeLLM = env.InvokeLLM)
    (i : Nat) : ∀ (fuel : Nat) (v : LoopVars) (s s' : State),
    s'.existingChallengeHashes = s.existingChallengeHashes → s'.llmCalls = s.llmCalls →
    s'.duplicateAttempts = s.duplicateAttempts →
    (whileLoop env' i fuel v s').1 = (whileLoop env i fuel v s).1
    ∧ (whileLoop env' i fuel v s').2.existingChallengeHashes
        = (whileLoop env i fuel v s).2.existingChallengeHashes
    ∧ (whileLoop env' i fuel v s').2.llmCalls = (whileLoop env i fuel v s).2.llmCalls
    ∧ (whileLoop env' i fuel v s').2.duplicateAttempts
        = (whileLoop env i fuel v s).2.duplicateAttempts
    ∧ (whileLoop env' i fuel v s').2.createCalls = s'.createCalls
    ∧ (whileLoop env' i fuel v s').2.createdChallenges = s'.createdChallenges
    ∧ (whileLoop env' i fuel v s').2.createdAnswerKeys = s'.createdAnswerKeys
    ∧ (whileLoop env' i fuel v s').2.generatedChallenges = s'.generatedChallenges := by
  intro fuel
  induction fuel with
  | zero =>
    intro v s s' h1 h2 h3
    simp [whileLoop, h1, h2, h3]
  | succ fuel ih =>
    intro v s s' h1 h2 h3
    simp only [whileLoop, h, h1, h2]
    split
    · split
      · simp [h3]
      · exact ih _ _ _ (by simp [h1]) (by simp [h2]) (by simp [h3])
      · exact ih _ _ _ (by simp [h1]) (by simp [h2]) (by simp [h3])
      · exact ih _ _ _ (by simp [h1]) (by simp [h2]) (by simp [h3])
      · split
        · exact ih _ _ _ (by simp [h1]) (by simp [h2]) (by simp [h3])
        · split
          · exact ih _ _ _ (by simp [h1]) (by simp [h2]) (by simp [h3])
          · exact ih _ _ _ (by simp [h1]) (by simp [h2]) (by simp [h3])
    · simp [h1, h2, h3]

end AIChallengeManager

namespace AIChallengeManager

theorem slot_persistence_free (env env' : Env) (h : env'.InvokeLLM = env.InvokeLLM)
    (i : Nat) (s s' : State)
    (h1 : s'.existingChallengeHashes = s.existingChallengeHashes)
    (h2 : s'.llmCalls = s.llmCalls) (h3 : s'.duplicateAttempts = s.duplicateAttempts)
    (h4 : s'.createCalls = s.createCalls) :
    (slot env' i s').existingChallengeHashes = (slot env i s).existingChallengeHashes
    ∧ (slot env' i s').llmCalls = (slot env i s).llmCalls
    ∧ (slot env' i s').duplicateAttempts = (slot env i s).duplicateAttempts
    ∧ (slot env' i s').createCalls = (slot env i s).createCalls := by
  obtain ⟨a1, a2, a3, a4, a5, _⟩ := whileLoop_persistence_free env env' h i
    maxDuplicateAttempts ⟨0, .null, false⟩ s s' h1 h2 h3
  obtain ⟨_, _, _, _, b5, _⟩ := whileLoop_persistence_free env env rfl i
    maxDuplicateAttempts ⟨0, .null, false⟩ s s rfl rfl rfl
  unfold slot
  rcases hr : whileLoop env i maxDuplicateAttempts ⟨0, .null, false⟩ s with ⟨o, r⟩
  rcases hr' : whileLoop env' i maxDuplicateAttempts ⟨0, .null, false⟩ s' with ⟨o', r'⟩
  rw [hr, hr'] at a1 a2 a3 a4
  rw [hr'] at a5
  rw [hr] at b5
  simp only at a1 a2 a3 a4 a5 b5
  subst a1
  cases o' with
  | none => exact ⟨a2, a3, a4, by rw [a5, b5, h4]⟩
  | some v =>
    by_cases hv : (v.isUnique && v.challenge.truthy) = true
    · simp only [hv, if_true]
      obtain ⟨f1, f2, f3, f4⟩ := saveAccepted_frame env i v.challenge.fields r
      obtain ⟨g1, g2, g3, g4⟩ := saveAccepted_frame env' i v.challenge.fields r'
      exact ⟨by rw [f1, g1, a2], by rw [f2, g2, a3], by rw [f3, g3, a4],
        by rw [f4, g4, a5, b5, h4]⟩
    · simp only [hv, Bool.false_eq_true, if_false]
      exact ⟨a2, a3, a4, by rw [a5, b5, h4]⟩

theorem forLoop_persistence_free (env env' : Env) (h : env'.InvokeLLM = env.InvokeLLM)
    (st0 : State) (n : Nat) :
    (forLoop env' n st0).existingChallengeHashes = (forLoop env n st0).existingChallengeHashes
    ∧ (forLoop env' n st0).llmCalls = (forLoop env n st0).llmCalls
    ∧ (forLoop env' n st0).duplicateAttempts = (forLoop env n st0).duplicateAttempts
    ∧ (forLoop env' n st0).createCalls = (forLoop env n st0).createCalls := by
  induction n with
  | zero => exact ⟨rfl, rfl, rfl, rfl⟩
  | succ n ih =>
    obtain ⟨h1, h2, h3, h4⟩ := ih
    rw [forLoop_succ, forLoop_succ]
    exact slot_persistence_free env env' h n _ _ h1 h2 h3 h4

theorem saveAccepted_extends (env : Env) (i : Nat) (c : Candidate) (st : State) :
    st.createdChallenges <+: (saveAccepted env i c st).createdChallenges
    ∧ st.createdAnswerKeys <+: (saveAccepted env i c st).createdAnswerKeys
    ∧ st.generatedChallenges <+: (saveAccepted env i c st).generatedChallenges := by
  unfold saveAccepted
  cases env.challengeCreate i <;> cases env.answerKeyCreate i <;> simp

theorem slot_extends (env : Env) (i : Nat) (s : State) :
    s.createdChallenges <+: (slot env i s).createdChallenges
    ∧ s.createdAnswerKeys <+: (slot env i s).createdAnswerKeys
    ∧ s.generatedChallenges <+: (slot env i s).generatedChallenges := by
  obtain ⟨m, d, _, _, _, hc⟩ := slot_spec env i s
  rcases hc with ⟨c, h, _, _, _, heq⟩ | ⟨_, heq⟩ | ⟨_, _, heq⟩
  · rw [heq]
    exact saveAccepted_extends env i { c with content_hash := .string h }
      { s with llmCalls := s.llmCalls ++ attemptCalls 8 i m,
               duplicateAttempts := s.duplicateAttempts + d,
               existingChallengeHashes := s.existingChallengeHashes ++ [h] }
  · rw [heq]; simp
  · rw [heq]; simp

/-- Nothing saved is ever taken back: what the first `i` slots saved is a
prefix of what `n ≥ i` slots saved. -/
theorem forLoop_extends (env : Env) (st0 : State) (i : Nat) : ∀ n, i ≤ n →
    (forLoop env i st0).createdChallenges <+: (forLoop env n st0).createdChallenges
    ∧ (forLoop env i st0).createdAnswerKeys <+: (forLoop env n st0).createdAnswerKeys
    ∧ (forLoop env i st0).generatedChallenges <+: (forLoop env n st0).generatedChallenges := by
  intro n
  induction n with
  | zero =>
    intro hi
    have : i = 0 := by omega
    subst this
    simp
  | succ n ih =>
    intro hi
    rcases Nat.lt_or_ge i (n + 1) with hlt | hge
    · obtain ⟨h1, h2, h3⟩ := ih (by omega)
      obtain ⟨p1, p2, p3⟩ := slot_extends env n (forLoop env n st0)
      rw [forLoop_succ]
      exact ⟨h1.trans p1, h2.trans p2, h3.trans p3⟩
    · have : i = n + 1 := by omega
      subst this
      simp

theorem slot_saved_count (env : Env) (i : Nat) (s : State) :
    (slot env i s).createCalls.length + s.generatedChallenges.length
      ≤ s.createCalls.length + (slot env i s).generatedChallenges.length
        + (if saveFails env i then 1 else 0) := by
  obtain ⟨m, d, _, _, _, hc⟩ := slot_spec env i s
  rcases hc with ⟨c, h, _, _, _, heq⟩ | ⟨_, heq⟩ | ⟨_, _, heq⟩
  · cases h1 : env.challengeCreate i with
    | none =>
      have hf : saveFails env i = true := by simp [saveFails, h1]
      have f4 := (saveAccepted_frame env i { c with content_hash := .string h }
        { s with llmCalls := s.llmCalls ++ attemptCalls 8 i m,
                 duplicateAttempts := s.duplicateAttempts + d,
                 existingChallengeHashes := s.existingChallengeHashes ++ [h] }).2.2.2
      have f5 := (saveAccepted_extends env i { c with content_hash := .string h }
        { s with llmCalls := s.llmCalls ++ attemptCalls 8 i m,
                 duplicateAttempts := s.duplicateAttempts + d,
                 existingChallengeHashes := s.existingChallengeHashes ++ [h] }).2.2
      rw [← heq] at f4 f5
      have := f5.length_le
      simp only at f4 this
      rw [hf, f4]
      simp only [List.length_append, List.length_singleton, if_true]
      omega
    | some id =>
      cases h2 : env.answerKeyCreate i with
      | false =>
        have hf : saveFails env i = true := by simp [saveFails, h2]
        have f4 := (saveAccepted_frame env i { c with content_hash := .string h }
          { s with llmCalls := s.llmCalls ++ attemptCalls 8 i m,
                   duplicateAttempts := s.duplicateAttempts + d,
                   existingChallengeHashes := s.existingChallengeHashes ++ [h] }).2.2.2
        have f5 := (saveAccepted_extends env i { c with content_hash := .string h }
          { s with llmCalls := s.llmCalls ++ attemptCalls 8 i m,
                   duplicateAttempts := s.duplicateAttempts + d,
                   existingChallengeHashes := s.existingChallengeHashes ++ [h] }).2.2
        rw [← heq] at f4 f5
        have := f5.length_le
        simp only at f4 this
        rw [hf, f4]
        simp only [List.length_append, List.length_singleton, if_true]
        omega
      | true =>
        rw [heq, saveAccepted_ok env i id _ _ h1 h2]
        simp only [List.length_append, List.length_singleton]
        omega
  · rw [heq]; simp only; omega
  · rw [heq]; simp only; omega

/-- Every accepted item is saved and pushed, except for at most one item per
slot whose saves throw. -/
theorem forLoop_saved_count (env : Env) (st0 : State) (n : Nat) :
    (forLoop env n st0).createCalls.length + st0.generatedChallenges.length
      ≤ st0.createCalls.length + (forLoop env n st0).generatedChallenges.length
        + (List.range n).countP (saveFails env) := by
  induction n with
  | zero => simp [forLoop]
  | succ n ih =>
    have hs := slot_saved_count env n (forLoop env n st0)
    rw [forLoop_succ, List.range_succ, List.countP_append, List.countP_singleton]
    omega

end AIChallengeManager

/-- Claim C15. Independent saves in `AIChallengeManager.generateChallenges`:
the generation calls, the seen set and the items handed to `Challenge.create`
are the same whatever the saves do (two runs against the same generation
client agree on them, so a failed save of slot `i` changes nothing for the
later slots); what the first `i` slots saved (challenges, answer keys, pushed
items) is a prefix of what the whole run saved, so nothing is rolled back; and
every accepted item is saved and pushed, except for at most one per slot whose
save throws. -/
theorem C15_independent_saves (env env' : AIChallengeManager.Env)
    (selectedSkills : List JSString) (n i : Nat) (seen : List JSString) (dup : Nat)
    (h : env'.InvokeLLM = env.InvokeLLM) (hi : i ≤ n) :
    ((AIChallengeManager.generateChallenges env' selectedSkills n seen dup).llmCalls
        = (AIChallengeManager.generateChallenges env selectedSkills n seen dup).llmCalls
      ∧ (AIChallengeManager.generateChallenges env' selectedSkills n seen
          dup).existingChallengeHashes
        = (AIChallengeManager.generateChallenges env selectedSkills n seen
          dup).existingChallengeHashes
      ∧ (AIChallengeManager.generateChallenges env' selectedSkills n seen dup).createCalls
        = (AIChallengeManager.generateChallenges env selectedSkills n seen dup).createCalls)
    ∧ ((AIChallengeManager.generateChallenges env selectedSkills i seen dup).createdChallenges
        <+: (AIChallengeManager.generateChallenges env selectedSkills n seen
          dup).createdChallenges
      ∧ (AIChallengeManager.generateChallenges env selectedSkills i seen dup).createdAnswerKeys
        <+: (AIChallengeManager.generateChallenges env selectedSkills n seen
          dup).createdAnswerKeys
      ∧ (AIChallengeManager.generateChallenges env selectedSkills i seen
          dup).generatedChallenges
        <+: (AIChallengeManager.generateChallenges env selectedSkills n seen
          dup).generatedChallenges)
    ∧ (AIChallengeManager.generateChallenges env selectedSkills n seen dup).createCalls.length
      ≤ (AIChallengeManager.generateChallenges env selectedSkills n seen
          dup).generatedChallenges.length
        + (List.range n).countP (AIChallengeManager.saveFails env) := by
  by_cases hs : selectedSkills = []
  · subst hs
    simp [AIChallengeManager.generateChallenges]
  · simp only [AIChallengeManager.generateChallenges_eq _ selectedSkills _ seen dup hs]
    obtain ⟨a1, a2, _, a4⟩ := AIChallengeManager.forLoop_persistence_free env env' h
      ⟨seen, 0, [], [], [], [], [], []⟩ n
    have hc := AIChallengeManager.forLoop_saved_count env ⟨seen, 0, [], [], [], [], [], []⟩ n
    simp only [List.length_nil, Nat.add_zero, Nat.zero_add] at hc
    exact ⟨⟨a2, a1, a4⟩,
      AIChallengeManager.forLoop_extends env ⟨seen, 0, [], [], [], [], [], []⟩ i n hi, hc⟩

/-- Witness of C15: `Challenge.create` throws in slot 0 of five; the items of
slots 2 and 4 are saved all the same, and the calls made are those of the run
in which every save succeeds. -/
theorem C15_independent_saves_witness :
    (AIChallengeManager.generateChallenges envFirstSaveFails [lit "Fraud Detection"] 5
        [lit "dGRh"] 0).generatedChallenges.map (·.id) = [2, 4]
    ∧ (AIChallengeManager.generateChallenges envFirstSaveFails [lit "Fraud Detection"] 5
        [lit "dGRh"] 0).llmCalls
      = (AIChallengeManager.generateChallenges ⟨partialClient, fun i => some i, fun _ => true⟩
        [lit "Fraud Detection"] 5 [lit "dGRh"] 0).llmCalls
    ∧ (AIChallengeManager.generateChallenges ⟨partialClient, fun i => some i, fun _ => true⟩
        [lit "Fraud Detection"] 1 [lit "dGRh"] 0).generatedChallenges
      <+: (AIChallengeManager.generateChallenges
        ⟨partialClient, fun i => some i, fun _ => true⟩
        [lit "Fraud Detection"] 5 [lit "dGRh"] 0).generatedChallenges :=
  have w := C15_independent_saves ⟨partialClient, fun i => some i, fun _ => true⟩
    envFirstSaveFails [lit "Fraud Detection"] 5 1 [lit "dGRh"] 0 rfl (by decide)
  ⟨by decide, w.1.1, w.2.1.2.2⟩

/-! ## Saving the generated challenges of a job -/

namespace PostJobWithAI

/-- When the saves of the challenges before the `k`-th succeed and a save of
the `k`-th throws, the loop stops there: `Challenge.create` has been called
for the challenges `0` to `k` and for no later one. -/
theorem saveChallenges_fail (env : PostEnv) (jobPostId : Nat) :
    ∀ (cs : List Candidate) (k0 : Nat) (st : PostState) (k : Nat), k < cs.length →
    (∀ j, j < k → (env.challengeCreate (k0 + j)).isSome = true ∧
      env.answerKeyCreate (k0 + j) = true) →
    (env.challengeCreate (k0 + k) = none ∨ env.answerKeyCreate (k0 + k) = false) →
    (saveChallenges env jobPostId k0 (cs.map .object) st).1 = true
    ∧ (saveChallenges env jobPostId k0 (cs.map .object) st).2.createCalls
        = st.createCalls ++ (cs.take (k + 1)).map (postedRecord jobPostId)
    ∧ (saveChallenges env jobPostId k0 (cs.map .object) st).2.createdAnswerKeys.length
        = st.createdAnswerKeys.length + k
    ∧ (saveChallenges env jobPostId k0 (cs.map .object) st).2.alerts = st.alerts
    ∧ (saveChallenges env jobPostId k0 (cs.map .object) st).2.navigated = st.navigated := by
  intro cs
  induction cs with
  | nil => intro k0 st k hk; simp at hk
  | cons c cs ih =>
    intro k0 st k hk hprev hfail
    cases k with
    | zero =>
      simp only [Nat.add_zero] at hfail
      rcases hfail with hf | hf
      · simp [saveChallenges, hf, Json.fields]
      · cases hc : env.challengeCreate k0 with
        | none => simp [saveChallenges, hc, Json.fields]
        | some id => simp [saveChallenges, hc, hf, Json.fields]
    | succ k =>
      obtain ⟨h1, h2⟩ := hprev 0 (by omega)
      simp only [Nat.add_zero] at h1 h2
      obtain ⟨id, hid⟩ := Option.isSome_iff_exists.mp h1
      have hk' : k < cs.length := by simpa using hk
      obtain ⟨i1, i2, i3, i4, i5⟩ := ih (k0 + 1)
        { createCalls := st.createCalls ++ [postedRecord jobPostId c],
          createdChallenges := st.createdChallenges ++ [(id, postedRecord jobPostId c)],
          answerKeyCalls := st.answerKeyCalls ++ [⟨id, c.correct_answer, c.correct_answer⟩],
          createdAnswerKeys := st.createdAnswerKeys ++ [⟨id, c.correct_answer, c.correct_answer⟩],
          alerts := st.alerts, navigated := st.navigated } k hk'
        (fun j hj => by
          have := hprev (j + 1) (by omega)
          rwa [show k0 + (j + 1) = k0 + 1 + j by omega] at this)
        (by rwa [show k0 + (k + 1) = k0 + 1 + k by omega] at hfail)
      have hstep : saveChallenges env jobPostId k0 (List.map Json.object (c :: cs)) st
          = saveChallenges env jobPostId (k0 + 1) (List.map Json.object cs)
            { createCalls := st.createCalls ++ [postedRecord jobPostId c],
              createdChallenges := st.createdChallenges ++ [(id, postedRecord jobPostId c)],
              answerKeyCalls := st.answerKeyCalls ++ [⟨id, c.correct_answer, c.correct_answer⟩],
              createdAnswerKeys := st.createdAnswerKeys ++
                [⟨id, c.correct_answer, c.correct_answer⟩],
              alerts := st.alerts, navigated := st.navigated } := by
        simp [saveChallenges, hid, h2, Json.fields]
      rw [hstep]
      refine ⟨i1, ?_, ?_, i4, i5⟩
      · rw [i2]; simp
      · rw [i3]; simp; omega

/-- Every record handed to `Challenge.create` by the loop is the record of one
of the generated challenges. -/
theorem saveChallenges_createCalls (env : PostEnv) (jobPostId : Nat) :
    ∀ (gen : List Json) (k0 : Nat) (st : PostState),
    ∀ r ∈ (saveChallenges env jobPostId k0 gen st).2.createCalls,
      r ∈ st.createCalls ∨ ∃ j ∈ gen, r = postedRecord jobPostId j.fields := by
  intro gen
  induction gen with
  | nil => intro k0 st r hr; exact Or.inl (by simpa [saveChallenges] using hr)
  | cons j gen ih =>
    intro k0 st r hr
    cases j with
    | null => exact Or.inl (by simpa [saveChallenges] using hr)
    | atom t =>
      simp only [saveChallenges] at hr
      cases hc : env.challengeCreate k0 with
      | none =>
        simp [hc] at hr
        rcases hr with h | h
        · exact Or.inl h
        · exact Or.inr ⟨_, by simp, h⟩
      | some id =>
        cases hk : env.answerKeyCreate k0 with
        | false =>
          simp [hc, hk] at hr
          rcases hr with h | h
          · exact Or.inl h
          · exact Or.inr ⟨_, by simp, h⟩
        | true =>
          simp only [hc, hk, if_true] at hr
          rcases ih _ _ r hr with h | ⟨j', hj', h⟩
          · simp only [List.mem_append, List.mem_singleton] at h
            rcases h with h | h
            · exact Or.inl h
            · exact Or.inr ⟨_, by simp, h⟩
          · exact Or.inr ⟨j', by simp [hj'], h⟩
    | object c =>
      simp only [saveChallenges] at hr
      cases hc : env.challengeCreate k0 with
      | none =>
        simp [hc] at hr
        rcases hr with h | h
        · exact Or.inl h
        · exact Or.inr ⟨_, by simp, h⟩
      | some id =>
        cases hk : env.answerKeyCreate k0 with
        | false =>
          simp [hc, hk] at hr
          rcases hr with h | h
          · exact Or.inl h
          · exact Or.inr ⟨_, by simp, h⟩
        | true =>
          simp only [hc, hk, if_true] at hr
          rcases ih _ _ r hr with h | ⟨j', hj', h⟩
          · simp only [List.mem_append, List.mem_singleton] at h
            rcases h with h | h
            · exact Or.inl h
            · exact Or.inr ⟨_, by simp, h⟩
          · exact Or.inr ⟨j', by simp [hj'], h⟩

theorem handlePostJob_createCalls (env : PostEnv) (user : Option Nat) (jd : JobDetails)
    (gen : List Json) :
    ∀ r ∈ (handlePostJob env user jd gen).createCalls,
      ∃ jobPostId, ∃ j ∈ gen, r = postedRecord jobPostId j.fields := by
  intro r hr
  unfold handlePostJob at hr
  cases user with
  | none => simp at hr
  | some uid =>
    simp only at hr
    split at hr
    · simp at hr
    · cases hj : env.jobPostCreate with
      | none => simp [hj] at hr
      | some jobPostId =>
        simp only [hj] at hr
        by_cases hlen : gen.length > 0
        · simp only [hlen, if_true] at hr
          have key := saveChallenges_createCalls env jobPostId gen 0 ⟨[], [], [], [], [], false⟩ r
          rcases hs : saveChallenges env jobPostId 0 gen ⟨[], [], [], [], [], false⟩ with ⟨b, st⟩
          rw [hs] at hr key
          have hr' : r ∈ st.createCalls := by
            cases b <;> simpa using hr
          rcases key hr' with h | h
          · simp at h
          · exact ⟨jobPostId, h⟩
        · simp [hlen] at hr

end PostJobWithAI

/-- Claim C16, counterexample. With two generated challenges and a
`Challenge.create` that throws for the first, `handlePostJob` calls
`Challenge.create` once: the save of the second challenge is not attempted,
and the error alert is shown. -/
theorem C16_independent_saves_counterexample :
    (PostJobWithAI.handlePostJob postEnvFirstFails (some 1) jobAuditor
        [.object candidateTDA, .object (candidateSlot 2)]).createCalls
      = [PostJobWithAI.postedRecord 7 candidateTDA]
    ∧ (PostJobWithAI.handlePostJob postEnvFirstFails (some 1) jobAuditor
        [.object candidateTDA, .object (candidateSlot 2)]).createCalls.length ≠ 2
    ∧ (PostJobWithAI.handlePostJob postEnvFirstFails (some 1) jobAuditor
        [.object candidateTDA, .object (candidateSlot 2)]).alerts = [.error] := by
  decide

/-- Claim C16, amended. In `PostJobWithAI.handlePostJob` the saves share one
`try` block: when the saves of the generated challenges before the `k`-th
succeed and `Challenge.create` or `AIChallengeAnswerKey.create` throws for the
`k`-th, `Challenge.create` has been called for the challenges `0` to `k` and
is called for no later challenge, the `k` answer keys saved before stay
saved, the error alert is shown and the page does not navigate. -/
theorem C16_first_failure_aborts (env : PostJobWithAI.PostEnv) (uid jobPostId : Nat)
    (jobDetails : PostJobWithAI.JobDetails) (cs : List Candidate) (k : Nat)
    (hj : jobDetails.title ≠ [] ∧ jobDetails.description ≠ [])
    (hjob : env.jobPostCreate = some jobPostId) (hk : k < cs.length)
    (hprev : ∀ j, j < k → (env.challengeCreate j).isSome = true ∧ env.answerKeyCreate j = true)
    (hfail : env.challengeCreate k = none ∨ env.answerKeyCreate k = false) :
    (PostJobWithAI.handlePostJob env (some uid) jobDetails (cs.map .object)).createCalls
        = (cs.take (k + 1)).map (PostJobWithAI.postedRecord jobPostId)
    ∧ (PostJobWithAI.handlePostJob env (some uid) jobDetails
        (cs.map .object)).createdAnswerKeys.length = k
    ∧ (PostJobWithAI.handlePostJob env (some uid) jobDetails (cs.map .object)).alerts = [.error]
    ∧ (PostJobWithAI.handlePostJob env (some uid) jobDetails (cs.map .object)).navigated
        = false := by
  obtain ⟨f1, f2, f3, f4, f5⟩ := PostJobWithAI.saveChallenges_fail env jobPostId cs 0
    ⟨[], [], [], [], [], false⟩ k hk (fun j hj' => by simpa using hprev j hj')
    (by simpa using hfail)
  have hg : (jobDetails.title.isEmpty || jobDetails.description.isEmpty) = false := by
    simp [List.isEmpty_iff, hj.1, hj.2]
  have hlen : (cs.map Json.object).length > 0 := by
    rw [List.length_map]; omega
  unfold PostJobWithAI.handlePostJob
  simp only [hg, hjob, hlen, if_true, Bool.false_eq_true, if_false]
  rcases hs : PostJobWithAI.saveChallenges env jobPostId 0 (cs.map Json.object)
      ⟨[], [], [], [], [], false⟩ with ⟨b, st⟩
  rw [hs] at f1 f2 f3 f4 f5
  simp only at f1 f2 f3 f4 f5
  subst f1
  simp only [f2, f3, f4, f5]
  simp

/-- Witness of C16 (amended): three generated challenges, `Challenge.create`
throwing for the first one. -/
theorem C16_first_failure_aborts_witness :
    (PostJobWithAI.handlePostJob postEnvFirstFails (some 1) jobAuditor
        ([candidateTDA, candidateSlot 2, candidateSlot 4].map .object)).createCalls
      = ([candidateTDA, candidateSlot 2, candidateSlot 4].take (0 + 1)).map
          (PostJobWithAI.postedRecord 7)
    ∧ (PostJobWithAI.handlePostJob postEnvFirstFails (some 1) jobAuditor
        ([candidateTDA, candidateSlot 2, candidateSlot 4].map .object)).alerts = [.error] :=
  have w := C16_first_failure_aborts postEnvFirstFails 1 7 jobAuditor
    [candidateTDA, candidateSlot 2, candidateSlot 4] 0 (by decide) rfl (by decide)
    (fun j hj => absurd hj (Nat.not_lt_zero j)) (Or.inl rfl)
  ⟨w.1, w.2.2.1⟩

/-! ## The fingerprint travels with the challenge -/

namespace AIChallengeManager

/-- Every record handed to `Challenge.create` carries the title and the
description of a response of the generation client together with the
fingerprint of that response, which is in the seen set and was not in it at
the start of the run. -/
theorem forLoop_createCalls_origin (env : Env) (seen : List JSString) (n : Nat) :
    (∀ h ∈ seen, h ∈ (forLoop env n ⟨seen, 0, [], [], [], [], [], []⟩).existingChallengeHashes)
    ∧ ∀ r ∈ (forLoop env n ⟨seen, 0, [], [], [], [], [], []⟩).createCalls,
      ∃ i k c h, env.InvokeLLM i k = .text (some (.object c)) ∧
        generateContentHash c.title c.description c.correct_answer = some h ∧
        r = ⟨c.title, c.description, .string h, c.rest, true, true⟩ ∧
        h ∈ (forLoop env n ⟨seen, 0, [], [], [], [], [], []⟩).existingChallengeHashes ∧
        h ∉ seen := by
  refine forLoop_induction env (fun _ s =>
    (∀ h ∈ seen, h ∈ s.existingChallengeHashes)
    ∧ ∀ r ∈ s.createCalls,
      ∃ i k c h, env.InvokeLLM i k = .text (some (.object c)) ∧
        generateContentHash c.title c.description c.correct_answer = some h ∧
        r = ⟨c.title, c.description, .string h, c.rest, true, true⟩ ∧
        h ∈ s.existingChallengeHashes ∧ h ∉ seen) ⟨seen, 0, [], [], [], [], [], []⟩
    ⟨fun h hh => hh, fun r hr => by simp at hr⟩ ?_ n
  rintro i s ⟨hsub, hall⟩
  obtain ⟨m, d, _, _, _, hc⟩ := slot_spec env i s
  rcases hc with ⟨c, h, hresp, hh, hn, heq⟩ | ⟨_, heq⟩ | ⟨_, _, heq⟩
  · obtain ⟨f1, _, _, f4⟩ := saveAccepted_frame env i { c with content_hash := .string h }
      { s with llmCalls := s.llmCalls ++ attemptCalls 8 i m,
               duplicateAttempts := s.duplicateAttempts + d,
               existingChallengeHashes := s.existingChallengeHashes ++ [h] }
    rw [← heq] at f1 f4
    simp only at f1 f4
    rw [f1, f4]
    refine ⟨fun h0 hh0 => List.mem_append_left _ (hsub h0 hh0), fun r hr => ?_⟩
    rcases List.mem_append.mp hr with hr | hr
    · obtain ⟨i0, k0, c0, h0, e1, e2, e3, e4, e5⟩ := hall r hr
      exact ⟨i0, k0, c0, h0, e1, e2, e3, List.mem_append_left _ e4, e5⟩
    · rw [List.mem_singleton] at hr
      exact ⟨i, m, c, h, hresp, hh, hr, List.mem_append_right _ (by simp),
        fun hmem => hn (hsub h hmem)⟩
  · rw [heq]; exact ⟨hsub, hall⟩
  · rw [heq]; exact ⟨hsub, hall⟩

end AIChallengeManager

namespace PostJobWithAI

/-- Every challenge pushed onto `newChallenges` is a response of the generation
client with its fingerprint stored in `content_hash`; that fingerprint is in
the seen set and was not in it at the start of the run. -/
theorem forLoop_newChallenges_origin (llm : Nat → Nat → Response) (jd : JobDetails)
    (seen : List JSString) (n : Nat) :
    (∀ h ∈ seen, h ∈ (forLoop llm jd n ⟨seen, [], []⟩).existingChallengeHashes)
    ∧ ∀ j ∈ (forLoop llm jd n ⟨seen, [], []⟩).newChallenges,
      ∃ i k c h, llm i k = .text (some (.object c)) ∧
        generateContentHash c.title c.description c.correct_answer = some h ∧
        j = .object { c with content_hash := .string h, job_specific := .boolean true,
                             generated_for_job := .string jd.title } ∧
        h ∈ (forLoop llm jd n ⟨seen, [], []⟩).existingChallengeHashes ∧ h ∉ seen := by
  refine forLoop_induction_job llm jd (fun _ s =>
    (∀ h ∈ seen, h ∈ s.existingChallengeHashes)
    ∧ ∀ j ∈ s.newChallenges,
      ∃ i k c h, llm i k = .text (some (.object c)) ∧
        generateContentHash c.title c.description c.correct_answer = some h ∧
        j = .object { c with content_hash := .string h, job_specific := .boolean true,
                             generated_for_job := .string jd.title } ∧
        h ∈ s.existingChallengeHashes ∧ h ∉ seen) ⟨seen, [], []⟩
    ⟨fun h hh => hh, fun r hr => by simp at hr⟩ ?_ n
  rintro i s ⟨hsub, hall⟩
  obtain ⟨m, _, _, _, hc⟩ := slot_spec_job llm jd i s
  rcases hc with ⟨c, h, hresp, hh, hn, heq⟩ | ⟨_, heq⟩ | ⟨_, _, heq⟩
  · rw [heq]
    refine ⟨fun h0 hh0 => List.mem_append_left _ (hsub h0 hh0), fun r hr => ?_⟩
    rcases List.mem_append.mp hr with hr | hr
    · obtain ⟨i0, k0, c0, h0, e1, e2, e3, e4, e5⟩ := hall r hr
      exact ⟨i0, k0, c0, h0, e1, e2, e3, List.mem_append_left _ e4, e5⟩
    · rw [List.mem_singleton] at hr
      exact ⟨i, m, c, h, hresp, hh, hr, List.mem_append_right _ (by simp),
        fun hmem => hn (hsub h hmem)⟩
  · rw [heq]; exact ⟨hsub, hall⟩
  · rw [heq]; exact ⟨hsub, hall⟩

end PostJobWithAI

/-- Claim C17. The fingerprint is stored with the challenge: every record
passed to `Challenge.create` by `AIChallengeManager.generateChallenges`, every
challenge pushed by `generateChallengesForJob`, and every record passed to
`Challenge.create` by `PostJobWithAI.handlePostJob` for the challenges of such
a run, carries the title and the description of a response `c` of the
generation client, and its `content_hash` is the string
`generateContentHash(title, description, c.correct_answer)`; that same value
is in the seen set at the end of the run and was added by it (it was not in
the initial set). -/
theorem C17_fingerprint_stored (env : AIChallengeManager.Env) (llm : Nat → Nat → Response)
    (penv : PostJobWithAI.PostEnv) (user : Option Nat) (selectedSkills : List JSString)
    (jobDetails postDetails : PostJobWithAI.JobDetails) (generated : List Json) (n : Nat)
    (seen : List JSString) (dup : Nat)
    (hjob : jobDetails.title ≠ [] ∧ jobDetails.description ≠ [] ∧
      jobDetails.required_skills ≠ []) :
    (∀ r ∈ (AIChallengeManager.generateChallenges env selectedSkills n seen dup).createCalls,
      ∃ i k c h, env.InvokeLLM i k = .text (some (.object c)) ∧
        r.title = c.title ∧ r.description = c.description ∧
        AIChallengeManager.generateContentHash r.title r.description c.correct_answer
          = some h ∧
        r.content_hash = .string h ∧
        h ∈ (AIChallengeManager.generateChallenges env selectedSkills n seen
          dup).existingChallengeHashes ∧
        h ∉ seen)
    ∧ (∀ j ∈ (PostJobWithAI.generateChallengesForJob llm jobDetails n seen
          generated).newChallenges,
      ∃ i k c h, llm i k = .text (some (.object c)) ∧
        j.fields.title = c.title ∧ j.fields.description = c.description ∧
        j.fields.correct_answer = c.correct_answer ∧
        PostJobWithAI.generateContentHash j.fields.title j.fields.description
          j.fields.correct_answer = some h ∧
        j.fields.content_hash = .string h ∧
        h ∈ (PostJobWithAI.generateChallengesForJob llm jobDetails n seen
          generated).existingChallengeHashes ∧
        h ∉ seen)
    ∧ (∀ r ∈ (PostJobWithAI.handlePostJob penv user postDetails
          (PostJobWithAI.generateChallengesForJob llm jobDetails n seen
            generated).newChallenges).createCalls,
      ∃ i k c h, llm i k = .text (some (.object c)) ∧
        r.title = c.title ∧ r.description = c.description ∧
        PostJobWithAI.generateContentHash r.title r.description c.correct_answer = some h ∧
        r.content_hash = .string h ∧
        h ∈ (PostJobWithAI.generateChallengesForJob llm jobDetails n seen
          generated).existingChallengeHashes ∧
        h ∉ seen) := by
  have hnew : ∀ j ∈ (PostJobWithAI.generateChallengesForJob llm jobDetails n seen
        generated).newChallenges,
      ∃ i k c h, llm i k = .text (some (.object c)) ∧
        PostJobWithAI.generateContentHash c.title c.description c.correct_answer = some h ∧
        j = .object { c with content_hash := .string h, job_specific := .boolean true,
                             generated_for_job := .string jobDetails.title } ∧
        h ∈ (PostJobWithAI.generateChallengesForJob llm jobDetails n seen
          generated).existingChallengeHashes ∧ h ∉ seen := by
    rw [PostJobWithAI.generateChallengesForJob_eq llm jobDetails n seen generated hjob]
    exact (PostJobWithAI.forLoop_newChallenges_origin llm jobDetails seen n).2
  refine ⟨?_, ?_, ?_⟩
  · by_cases hs : selectedSkills = []
    · subst hs
      simp [AIChallengeManager.generateChallenges]
    · rw [AIChallengeManager.generateChallenges_eq env selectedSkills n seen dup hs]
      intro r hr
      obtain ⟨i, k, c, h, e1, e2, e3, e4, e5⟩ :=
        (AIChallengeManager.forLoop_createCalls_origin env seen n).2 r hr
      subst e3
      exact ⟨i, k, c, h, e1, rfl, rfl, e2, rfl, e4, e5⟩
  · intro j hj
    obtain ⟨i, k, c, h, e1, e2, e3, e4, e5⟩ := hnew j hj
    subst e3
    exact ⟨i, k, c, h, e1, rfl, rfl, rfl, e2, rfl, e4, e5⟩
  · intro r hr
    obtain ⟨jobPostId, j, hj, hrj⟩ := PostJobWithAI.handlePostJob_createCalls penv user
      postDetails _ r hr
    obtain ⟨i, k, c, h, e1, e2, e3, e4, e5⟩ := hnew j hj
    subst e3
    subst hrj
    exact ⟨i, k, c, h, e1, rfl, rfl, e2, rfl, e4, e5⟩

/-- Witness of C17: the challenge accepted in a run of one slot against a client
returning `{title: "T", description: "D", correct_answer: "A"}` is handed to
`Challenge.create` with the content hash `"dGRh"`, by both pages. -/
theorem C17_fingerprint_stored_witness :
    (jobAuditor.title ≠ [] ∧ jobAuditor.description ≠ [] ∧ jobAuditor.required_skills ≠ [])
    ∧ (∃ i k c h, (envAlways (.text (some (.object candidateTDA)))).InvokeLLM i k
          = Response.text (some (.object c)) ∧
        (⟨.string (lit "T"), .string (lit "D"), .string (lit "dGRh"), 0, true, true⟩ :
          AIChallengeManager.ChallengeRecord).title = c.title ∧
        (⟨.string (lit "T"), .string (lit "D"), .string (lit "dGRh"), 0, true, true⟩ :
          AIChallengeManager.ChallengeRecord).description = c.description ∧
        AIChallengeManager.generateContentHash
          (⟨.string (lit "T"), .string (lit "D"), .string (lit "dGRh"), 0, true, true⟩ :
            AIChallengeManager.ChallengeRecord).title
          (⟨.string (lit "T"), .string (lit "D"), .string (lit "dGRh"), 0, true, true⟩ :
            AIChallengeManager.ChallengeRecord).description c.correct_answer = some h ∧
        (⟨.string (lit "T"), .string (lit "D"), .string (lit "dGRh"), 0, true, true⟩ :
          AIChallengeManager.ChallengeRecord).content_hash = .string h ∧
        h ∈ (AIChallengeManager.generateChallenges
          (envAlways (.text (some (.object candidateTDA)))) [lit "Fraud Detection"] 1 []
          0).existingChallengeHashes ∧
        h ∉ ([] : List JSString))
    ∧ (PostJobWithAI.handlePostJob ⟨some 7, fun k => some k, fun _ => true⟩ (some 1) jobAuditor
        (PostJobWithAI.generateChallengesForJob (fun _ _ => .text (some (.object candidateTDA)))
          jobAuditor 1 [] []).newChallenges).createCalls.map (·.content_hash)
      = [.string (lit "dGRh")] :=
  have w := C17_fingerprint_stored (envAlways (.text (some (.object candidateTDA))))
    (fun _ _ => .text (some (.object candidateTDA))) ⟨some 7, fun k => some k, fun _ => true⟩
    (some 1) [lit "Fraud Detection"] jobAuditor jobAuditor [] 1 [] 0 (by decide)
  ⟨by decide,
    w.1 ⟨.string (lit "T"), .string (lit "D"), .string (lit "dGRh"), 0, true, true⟩ (by decide),
    by decide⟩

/-! ## The server routes -/

/-- Claim C18, counterexample. With a digest without collisions (the identity)
the server hash of title `" Title "` and description `"D"` differs from that
of title `"title"` and the same description, because only the concatenation
is trimmed; and `POST /` stores the same content hash for two requests that
differ only in the correct answer, which is not hashed. -/
theorem C18_server_hash_counterexample :
    Function.Injective plainRuntime.sha256hex
    ∧ Server.generateContentHash plainRuntime (lit " Title " ++ lit "D") = lit "title d"
    ∧ Server.generateContentHash plainRuntime (lit "title" ++ lit "D") = lit "titled"
    ∧ Server.generateContentHash plainRuntime (lit " Title " ++ lit "D")
        ≠ Server.generateContentHash plainRuntime (lit "title" ++ lit "D")
    ∧ norm (lit "A1") ≠ norm (lit "A2")
    ∧ (Server.postChallenge plainRuntime noFaults (.user 1 true)
          (aiBody (.string (lit "T")) (.string (lit "D")) (.string (lit "A1"))) ⟨[], []⟩).1
        = (Server.postChallenge plainRuntime noFaults (.user 1 true)
          (aiBody (.string (lit "T")) (.string (lit "D")) (.string (lit "A2"))) ⟨[], []⟩).1 := by
  refine ⟨fun a b h => h, ?_, ?_, ?_, ?_, ?_⟩ <;> decide

namespace Server

theorem createHandler_ai (rt : Runtime) (faults : Faults) (body : CreateBody) (db : Db)
    (userId : Nat) (content : JSString)
    (h1 : body.challenge_type = .string (lit "ai_generated"))
    (h2 : plus body.title body.description = some content) :
    createHandler rt faults body db userId =
      if faults.findFirst 0 then (⟨500, .error (lit "Failed to create challenge")⟩, db)
      else if db.hasHash (generateContentHash rt content) then
        (⟨400, .error (lit
          "A similar challenge already exists. Please regenerate or modify the content.")⟩, db)
      else if faults.create then (⟨500, .error (lit "Failed to create challenge")⟩, db)
      else if body.correct_answer.truthy then
        if faults.answerKeyCreate then
          (⟨500, .error (lit "Failed to create challenge")⟩,
            { db with challenges := db.challenges ++
              [⟨faults.newId, body.title, body.description, body.challenge_type,
                .string (generateContentHash rt content), userId, body.rest⟩] })
        else
          (⟨201, .challenge ⟨faults.newId, body.title, body.description, body.challenge_type,
              .string (generateContentHash rt content), userId, body.rest⟩⟩,
            { challenges := db.challenges ++
                [⟨faults.newId, body.title, body.description, body.challenge_type,
                  .string (generateContentHash rt content), userId, body.rest⟩],
              answerKeys := db.answerKeys ++
                [⟨faults.newId, body.correct_answer, body.answer_explanation⟩] })
      else
        (⟨201, .challenge ⟨faults.newId, body.title, body.description, body.challenge_type,
            .string (generateContentHash rt content), userId, body.rest⟩⟩,
          { db with challenges := db.challenges ++
            [⟨faults.newId, body.title, body.description, body.challenge_type,
              .string (generateContentHash rt content), userId, body.rest⟩] }) := by
  simp only [createHandler, h1, h2, if_true]

theorem plus_string (t d : JSString) : plus (.string t) (.string d) = some (t ++ d) := rfl

end Server

/-- Claim C18, amended. Server-side fingerprint: whenever `POST /` answers 201
to an authenticated request of type `ai_generated` with string title and
description, the content hash of the challenge it returns is the SHA-256
digest of the concatenation `title + description`, lower-cased and then
trimmed as a whole; the correct answer is not part of it, so two such
requests that differ only in the correct answer and the explanation get the
same content hash; and with a digest without collisions two contents have
the same hash exactly when their lower-cased and trimmed texts are equal. -/
theorem C18_server_hash (rt : Server.Runtime) (faults faults2 : Server.Faults) (uid : Nat)
    (body : Server.CreateBody) (db : Server.Db) (t d : JSString)
    (answer explanation : Server.BodyValue)
    (h1 : body.challenge_type = .string (lit "ai_generated"))
    (h2 : body.title = .string t) (h3 : body.description = .string d)
    (h4 : (Server.postChallenge rt faults (.user uid true) body db).1.status = 201)
    (h5 : (Server.postChallenge rt faults2 (.user uid true)
      { body with correct_answer := answer, answer_explanation := explanation } db).1.status
        = 201) :
    (Server.postChallenge rt faults (.user uid true) body db).1.payload
      = .challenge ⟨faults.newId, .string t, .string d, .string (lit "ai_generated"),
          .string (rt.sha256hex (trim (rt.toLowerCase (t ++ d)))), uid, body.rest⟩
    ∧ (Server.postChallenge rt faults2 (.user uid true)
        { body with correct_answer := answer, answer_explanation := explanation } db).1.payload
      = .challenge ⟨faults2.newId, .string t, .string d, .string (lit "ai_generated"),
          .string (rt.sha256hex (trim (rt.toLowerCase (t ++ d)))), uid, body.rest⟩
    ∧ (Function.Injective rt.sha256hex → ∀ a b : JSString,
      (Server.generateContentHash rt a = Server.generateContentHash rt b
        ↔ trim (rt.toLowerCase a) = trim (rt.toLowerCase b))) := by
  have hp : Server.plus body.title body.description = some (t ++ d) := by
    rw [h2, h3]; rfl
  have key : ∀ (f : Server.Faults) (b : Server.CreateBody),
      b.challenge_type = .string (lit "ai_generated") → b.title = .string t →
      b.description = .string d → b.rest = body.rest →
      (Server.postChallenge rt f (.user uid true) b db).1.status = 201 →
      (Server.postChallenge rt f (.user uid true) b db).1.payload
        = .challenge ⟨f.newId, .string t, .string d, .string (lit "ai_generated"),
            .string (rt.sha256hex (trim (rt.toLowerCase (t ++ d)))), uid, body.rest⟩ := by
    intro f b e1 e2 e3 e4 hs
    have hpb : Server.plus b.title b.description = some (t ++ d) := by rw [e2, e3]; rfl
    simp only [Server.postChallenge, Server.guarded, if_true,
      Server.createHandler_ai rt f b db uid (t ++ d) e1 hpb] at hs ⊢
    split_ifs at hs ⊢ <;> simp_all [Server.generateContentHash]
  exact ⟨key faults body h1 h2 h3 rfl h4, key faults2 _ h1 h2 h3 rfl h5,
    fun hinj a b => ⟨fun h => hinj h, fun h => by unfold Server.generateContentHash; rw [h]⟩⟩

/-- Claim C18, an instance: with the identity as digest, `POST /` stores the
hash `"td"` for title `"T"` and description `"D"`, whatever the answer, and
the contents `" Title D"` and `"titleD"` have different hashes, their
lower-cased and trimmed texts `"title d"` and `"titled"` being different. -/
theorem C18_server_hash_witness :
    (Server.postChallenge plainRuntime noFaults (.user 1 true)
        (aiBody (.string (lit "T")) (.string (lit "D")) (.string (lit "A1"))) ⟨[], []⟩).1.payload
      = .challenge ⟨1, .string (lit "T"), .string (lit "D"), .string (lit "ai_generated"),
          .string (lit "td"), 1, 0⟩
    ∧ (Server.postChallenge plainRuntime noFaults (.user 1 true)
        (aiBody (.string (lit "T")) (.string (lit "D")) (.string (lit "A2"))) ⟨[], []⟩).1.payload
      = .challenge ⟨1, .string (lit "T"), .string (lit "D"), .string (lit "ai_generated"),
          .string (lit "td"), 1, 0⟩
    ∧ (Server.generateContentHash plainRuntime (lit " Title D")
        = Server.generateContentHash plainRuntime (lit "titleD")
      ↔ trim (plainRuntime.toLowerCase (lit " Title D"))
        = trim (plainRuntime.toLowerCase (lit "titleD"))) :=
  have w := C18_server_hash plainRuntime noFaults noFaults 1
    (aiBody (.string (lit "T")) (.string (lit "D")) (.string (lit "A1"))) ⟨[], []⟩
    (lit "T") (lit "D") (.string (lit "A2")) .undefined rfl rfl rfl (by decide) (by decide)
  ⟨w.1, w.2.1, w.2.2 (fun _ _ h => h) (lit " Title D") (lit "titleD")⟩

/-- Claim C19, counterexample. A request of type `ai_generated` without title
and description, from an authenticated company user, on an empty database
with no failing database call: no persisted challenge has any content hash,
yet the response is 500 and no challenge is created, because
`undefined + undefined` is not a string. So is a request whose title is an
object with an own `toString` property, for which `title + description`
throws. The same request without a token is answered 401. -/
theorem C19_create_counterexample :
    Server.postChallenge plainRuntime noFaults (.user 1 true)
        (aiBody .undefined .undefined .undefined) ⟨[], []⟩
      = (⟨500, .error (lit "Failed to create challenge")⟩, ⟨[], []⟩)
    ∧ Server.postChallenge plainRuntime noFaults (.user 1 true)
        (aiBody (.compound none) (.string (lit "D")) .undefined) ⟨[], []⟩
      = (⟨500, .error (lit "Failed to create challenge")⟩, ⟨[], []⟩)
    ∧ Server.postChallenge plainRuntime noFaults .noToken
        (aiBody (.string (lit "T")) (.string (lit "D")) .undefined) ⟨[], []⟩
      = (⟨401, .error (lit "Access token required")⟩, ⟨[], []⟩) := by
  refine ⟨?_, ?_, ?_⟩ <;> decide

/-- Claim C19, amended. For every `POST /` request of an authenticated admin or
company user whose `challenge_type` is `ai_generated` and whose
`title + description` is a string `content`, when the duplicate lookup does
not throw: if a persisted challenge has the content hash
`generateContentHash(content)`, the response is 400 with the error "A similar
challenge already exists..." and the database is unchanged (no challenge and
no answer key is created); if none has it and neither `challenge.create` nor
a due answer-key creation throws, the response is 201 with the created
challenge, which carries that content hash and is appended to the table.
When `title + description` is not a string (it is a number, or the
conversion of an object or array throws) or the lookup throws, the response
is 500 and the database is unchanged. -/
theorem C19_create_rejects_duplicates (rt : Server.Runtime) (faults : Server.Faults)
    (uid : Nat) (body : Server.CreateBody) (db : Server.Db)
    (h1 : body.challenge_type = .string (lit "ai_generated")) :
    (∀ content, Server.plus body.title body.description = some content →
      faults.findFirst 0 = false →
      db.hasHash (Server.generateContentHash rt content) = true →
      Server.postChallenge rt faults (.user uid true) body db
        = (⟨400, .error (lit
            "A similar challenge already exists. Please regenerate or modify the content.")⟩,
           db))
    ∧ (∀ content, Server.plus body.title body.description = some content →
      faults.findFirst 0 = false →
      db.hasHash (Server.generateContentHash rt content) = false →
      faults.create = false →
      (body.correct_answer.truthy = true → faults.answerKeyCreate = false) →
      (Server.postChallenge rt faults (.user uid true) body db).1
        = ⟨201, .challenge ⟨faults.newId, body.title, body.description, body.challenge_type,
            .string (Server.generateContentHash rt content), uid, body.rest⟩⟩
      ∧ (Server.postChallenge rt faults (.user uid true) body db).2.challenges
        = db.challenges ++ [⟨faults.newId, body.title, body.description, body.challenge_type,
            .string (Server.generateContentHash rt content), uid, body.rest⟩])
    ∧ ((Server.plus body.title body.description = none
        ∨ faults.findFirst 0 = true) →
      Server.postChallenge rt faults (.user uid true) body db
        = (⟨500, .error (lit "Failed to create challenge")⟩, db)) := by
  refine ⟨?_, ?_, ?_⟩
  · intro content hp hf hh
    simp only [Server.postChallenge, Server.guarded, if_true,
      Server.createHandler_ai rt faults body db uid content h1 hp, hf, hh, if_false,
      Bool.false_eq_true]
  · intro content hp hf hh hc hk
    simp only [Server.postChallenge, Server.guarded, if_true,
      Server.createHandler_ai rt faults body db uid content h1 hp, hf, hh, hc, if_false,
      Bool.false_eq_true]
    by_cases ht : body.correct_answer.truthy = true
    · simp only [ht, hk ht, if_true, if_false, Bool.false_eq_true, and_self]
    · simp only [ht, if_false, Bool.false_eq_true, and_self]
  · intro h
    rcases h with h | h
    · simp only [Server.postChallenge, Server.guarded, if_true, Server.createHandler, h1, h]
    · cases hp : Server.plus body.title body.description with
      | none =>
        simp only [Server.postChallenge, Server.guarded, if_true, Server.createHandler, h1, hp]
      | some content =>
        simp only [Server.postChallenge, Server.guarded, if_true,
          Server.createHandler_ai rt faults body db uid content h1 hp, h]

/-- Claim C19, an instance: with the identity as digest, the request with
title `"T"` and description `"D"` is answered 400 on a database that holds a
challenge with content hash `"td"`, which stays as it is, and 201 on the
empty database, which then holds the challenge with content hash `"td"`. -/
theorem C19_create_rejects_duplicates_witness :
    Server.postChallenge plainRuntime noFaults (.user 1 true)
        (aiBody (.string (lit "T")) (.string (lit "D")) (.string (lit "A")))
        dbWithTD
      = (⟨400, .error (lit
            "A similar challenge already exists. Please regenerate or modify the content.")⟩,
         dbWithTD)
    ∧ (Server.postChallenge plainRuntime noFaults (.user 1 true)
        (aiBody (.string (lit "T")) (.string (lit "D")) (.string (lit "A"))) ⟨[], []⟩).1
      = ⟨201, .challenge ⟨1, .string (lit "T"), .string (lit "D"), .string (lit "ai_generated"),
          .string (lit "td"), 1, 0⟩⟩
    ∧ (Server.postChallenge plainRuntime noFaults (.user 1 true)
        (aiBody (.string (lit "T")) (.string (lit "D")) (.string (lit "A"))) ⟨[], []⟩).2.challenges
      = [⟨1, .string (lit "T"), .string (lit "D"), .string (lit "ai_generated"),
          .string (lit "td"), 1, 0⟩] :=
  ⟨(C19_create_rejects_duplicates plainRuntime noFaults 1
      (aiBody (.string (lit "T")) (.string (lit "D")) (.string (lit "A"))) dbWithTD rfl).1
      (lit "T" ++ lit "D") rfl rfl (by decide),
   ((C19_create_rejects_duplicates plainRuntime noFaults 1
      (aiBody (.string (lit "T")) (.string (lit "D")) (.string (lit "A"))) ⟨[], []⟩ rfl).2.1
      (lit "T" ++ lit "D") rfl rfl (by decide) rfl (fun _ => rfl)).1,
   ((C19_create_rejects_duplicates plainRuntime noFaults 1
      (aiBody (.string (lit "T")) (.string (lit "D")) (.string (lit "A"))) ⟨[], []⟩ rfl).2.1
      (lit "T" ++ lit "D") rfl rfl (by decide) rfl (fun _ => rfl)).2⟩

namespace Server

theorem mem_setAdd (s : List JSString) (x h : JSString) (hm : h ∈ s ∨ h = x) :
    h ∈ setAdd s x := by
  unfold setAdd
  split_ifs with hx
  · rcases hm with hm | hm
    · exact hm
    · exact hm ▸ hx
  · rcases hm with hm | hm
    · exact List.mem_append_left _ hm
    · exact List.mem_append_right _ (by simp [hm])

/-- The invariant of the loop of `POST /generate-ai`: the pushed challenges
have pairwise distinct content hashes, all of them in `usedHashes`, each the
hash of title plus description, none found in the database. -/
theorem generateLoop_invariant (rt : Runtime) (faults : Faults) (db : Db) (jobTitle : JSString)
    (difficulty : BodyValue) :
    ∀ (remaining i : Nat) (st st' : GenState),
      (st.challenges.map (fun c => c.content_hash)).Nodup →
      (∀ c ∈ st.challenges, c.content_hash ∈ st.usedHashes
        ∧ c.content_hash = generateContentHash rt (c.title ++ c.description)
        ∧ db.hasHash c.content_hash = false) →
      generateLoop rt faults db jobTitle difficulty remaining i st = some st' →
      (st'.challenges.map (fun c => c.content_hash)).Nodup
      ∧ ∀ c ∈ st'.challenges, c.content_hash ∈ st'.usedHashes
        ∧ c.content_hash = generateContentHash rt (c.title ++ c.description)
        ∧ db.hasHash c.content_hash = false := by
  intro remaining
  induction remaining with
  | zero =>
    intro i st st' hn hi h
    simp only [generateLoop, Option.some.injEq] at h
    subst h
    exact ⟨hn, hi⟩
  | succ n ih =>
    intro i st st' hn hi h
    simp only [generateLoop] at h
    by_cases hu : setHas st.usedHashes
        (generateContentHash rt ((templateAt jobTitle i).title ++
          (templateAt jobTitle i).description)) = true
    · simp only [hu, Bool.not_true, Bool.false_eq_true, if_false] at h
      exact ih _ _ _ hn hi h
    · have hu' : setHas st.usedHashes
          (generateContentHash rt ((templateAt jobTitle i).title ++
            (templateAt jobTitle i).description)) = false := by
        simpa using hu
      simp only [hu', Bool.not_false, if_true] at h
      by_cases hf : faults.findFirst i = true
      · simp only [hf, if_true] at h
        exact absurd h (by simp)
      · simp only [hf, if_false, Bool.false_eq_true] at h
        by_cases hd : db.hasHash
            (generateContentHash rt ((templateAt jobTitle i).title ++
              (templateAt jobTitle i).description)) = true
        · simp only [hd, Bool.not_true, Bool.false_eq_true, if_false] at h
          exact ih _ _ _ hn hi h
        · have hd' : db.hasHash
              (generateContentHash rt ((templateAt jobTitle i).title ++
                (templateAt jobTitle i).description)) = false := by
            simpa using hd
          simp only [hd', Bool.not_false, if_true] at h
          have hnot : generateContentHash rt ((templateAt jobTitle i).title ++
              (templateAt jobTitle i).description) ∉ st.usedHashes := by
            intro hm
            have : setHas st.usedHashes
                (generateContentHash rt ((templateAt jobTitle i).title ++
                  (templateAt jobTitle i).description)) = true := by
              simp [setHas, hm]
            rw [hu'] at this
            exact absurd this (by simp)
          refine ih _ _ _ ?_ ?_ h
          · simp only [List.map_append, List.map_cons, List.map_nil]
            rw [List.nodup_append]
            refine ⟨hn, by simp, ?_⟩
            intro a ha hb
            simp only [List.mem_singleton] at hb
            subst hb
            obtain ⟨c, hc, hce⟩ := List.mem_map.mp ha
            exact hnot (hce ▸ (hi c hc).1)
          · intro c hc
            simp only [List.mem_append, List.mem_singleton] at hc
            rcases hc with hc | hc
            · exact ⟨mem_setAdd _ _ _ (Or.inl (hi c hc).1), (hi c hc).2⟩
            · subst hc
              exact ⟨mem_setAdd _ _ _ (Or.inr rfl), rfl, hd'⟩

end Server

namespace Server

theorem le_increment (i : Nat) : i ≤ increment i ∧ increment i ≤ i + 1 := by
  unfold increment
  split_ifs <;> omega

/-- The loop of `POST /generate-ai` pushes at most one challenge per iteration. -/
theorem generateLoop_length (rt : Runtime) (faults : Faults) (db : Db) (jobTitle : JSString)
    (difficulty : BodyValue) :
    ∀ (remaining i : Nat) (st st' : GenState),
      generateLoop rt faults db jobTitle difficulty remaining i st = some st' →
      st'.challenges.length ≤ st.challenges.length + remaining := by
  intro remaining
  induction remaining with
  | zero =>
    intro i st st' h
    simp only [generateLoop, Option.some.injEq] at h
    subst h
    exact Nat.le_refl _
  | succ n ih =>
    intro i st st' h
    simp only [generateLoop] at h
    split_ifs at h <;> have hi := ih _ _ _ h <;> first
      | omega
      | (simp at hi; omega)

/-- The loop of `POST /generate-ai` completes when none of its lookups throws. -/
theorem generateLoop_completes (rt : Runtime) (faults : Faults) (db : Db) (jobTitle : JSString)
    (difficulty : BodyValue) :
    ∀ (remaining i : Nat) (st : GenState),
      (∀ j, i ≤ j → j < i + remaining → faults.findFirst j = false) →
      ∃ st', generateLoop rt faults db jobTitle difficulty remaining i st = some st' := by
  intro remaining
  induction remaining with
  | zero =>
    intro i st _
    exact ⟨st, rfl⟩
  | succ n ih =>
    intro i st hf
    have h0 : faults.findFirst i = false := hf i (Nat.le_refl _) (by omega)
    have hinc := le_increment i
    have hrec : ∀ s, ∃ st',
        generateLoop rt faults db jobTitle difficulty n (increment i) s = some st' :=
      fun s => ih (increment i) s (fun j h1 h2 => hf j (by omega) (by omega))
    simp only [generateLoop, h0, Bool.false_eq_true, if_false]
    split_ifs <;> exact hrec _

/-- A run that does not throw is a run of the loop on the text of the job
title. -/
theorem generateRun_eq_some (rt : Runtime) (faults : Faults) (db : Db)
    (jobTitle difficulty : BodyValue) (n : Nat) (st : GenState)
    (h : generateRun rt faults db jobTitle difficulty n = some st) :
    ∃ title, generateLoop rt faults db title difficulty n 0 ⟨[], []⟩ = some st := by
  unfold generateRun at h
  cases n with
  | zero => exact ⟨[], by simpa [generateLoop] using h⟩
  | succ n =>
    cases ht : jobTitle.text with
    | none => simp [ht] at h
    | some title =>
      simp only [ht] at h
      exact ⟨title, h⟩

theorem generateRun_of_text (rt : Runtime) (faults : Faults) (db : Db)
    (jobTitle difficulty : BodyValue) (n : Nat) (title : JSString)
    (ht : jobTitle.text = some title) :
    generateRun rt faults db jobTitle difficulty n
      = generateLoop rt faults db title difficulty n 0 ⟨[], []⟩ := by
  cases n with
  | zero => simp [generateRun, generateLoop]
  | succ n => simp [generateRun, ht]

/-- The response of the handler of `POST /generate-ai` when `count` bounds the
loop, in terms of the outcome of the run. -/
theorem generateHandler_iterations (rt : Runtime) (faults : Faults) (db : Db)
    (jobTitle difficulty : BodyValue) (count : Count) (n : Nat)
    (hb : count.bound = .iterations n) :
    (generateRun rt faults db jobTitle difficulty n = none →
      generateHandler rt faults db jobTitle difficulty count
        = some ⟨500, .error (lit "Failed to generate AI challenges")⟩)
    ∧ ∀ st, generateRun rt faults db jobTitle difficulty n = some st →
      (st.challenges = [] →
        generateHandler rt faults db jobTitle difficulty count
          = some ⟨400, .error (lit
            "All generated challenges already exist. Please try again for unique content.")⟩)
      ∧ (st.challenges ≠ [] →
        generateHandler rt faults db jobTitle difficulty count
          = some ⟨200, .challenges st.challenges⟩) := by
  refine ⟨fun h => by simp only [generateHandler, hb, h], fun st h => ⟨fun h0 => ?_, fun h0 => ?_⟩⟩
  · simp [generateHandler, hb, h, h0]
  · have : st.challenges.length ≠ 0 := fun hl => h0 (List.length_eq_zero.mp hl)
    simp [generateHandler, hb, h, this]

/-- A response of the handler that carries challenges comes from a run that
`count` bounds and that did not throw; its status is 200 and the list is not
empty. -/
theorem generateHandler_challenges (rt : Runtime) (faults : Faults) (db : Db)
    (jobTitle difficulty : BodyValue) (count : Count) (resp : HttpResponse)
    (cs : List GeneratedChallenge)
    (h : generateHandler rt faults db jobTitle difficulty count = some resp)
    (hp : resp.payload = .challenges cs) :
    ∃ n st, count.bound = .iterations n
      ∧ generateRun rt faults db jobTitle difficulty n = some st
      ∧ st.challenges = cs ∧ cs ≠ [] ∧ resp.status = 200 := by
  cases hb : count.bound with
  | throws =>
    simp only [generateHandler, hb, Option.some.injEq] at h
    subst h
    simp at hp
  | unbounded =>
    simp only [generateHandler, hb] at h
    split at h
    · simp only [Option.some.injEq] at h
      subst h
      simp at hp
    · simp at h
  | iterations n =>
    obtain ⟨h500, hsome⟩ := generateHandler_iterations rt faults db jobTitle difficulty count n hb
    cases hr : generateRun rt faults db jobTitle difficulty n with
    | none =>
      rw [h500 hr, Option.some.injEq] at h
      subst h
      simp at hp
    | some st =>
      by_cases h0 : st.challenges = []
      · rw [(hsome st hr).1 h0, Option.some.injEq] at h
        subst h
        simp at hp
      · rw [(hsome st hr).2 h0, Option.some.injEq] at h
        subst h
        simp only [Payload.challenges.injEq] at hp
        exact ⟨n, st, rfl, hr, hp, by rw [← hp]; exact h0, rfl⟩

/-- A response of `POST /generate-ai` that carries challenges is a response of
the handler. -/
theorem postGenerateAI_challenges (rt : Runtime) (faults : Faults) (auth : Auth) (db : Db)
    (jobTitle difficulty : BodyValue) (count : Count) (resp : HttpResponse)
    (cs : List GeneratedChallenge)
    (h : postGenerateAI rt faults auth db jobTitle difficulty count = some resp)
    (hp : resp.payload = .challenges cs) :
    generateHandler rt faults db jobTitle difficulty count = some resp := by
  unfold postGenerateAI guarded at h
  cases auth with
  | noToken =>
    simp only [Option.some.injEq] at h
    subst h
    simp at hp
  | invalid =>
    simp only [Option.some.injEq] at h
    subst h
    simp at hp
  | unknownUser =>
    simp only [Option.some.injEq] at h
    subst h
    simp at hp
  | user id ok =>
    cases ok with
    | false =>
      simp only [Bool.false_eq_true, if_false, Option.some.injEq] at h
      subst h
      simp at hp
    | true => simpa using h

theorem postGenerateAI_user (rt : Runtime) (faults : Faults) (uid : Nat) (db : Db)
    (jobTitle difficulty : BodyValue) (count : Count) :
    postGenerateAI rt faults (.user uid true) db jobTitle difficulty count
      = generateHandler rt faults db jobTitle difficulty count := by
  simp [postGenerateAI, guarded]

end Server

/-- Claim C20. `POST /generate-ai` never returns a duplicate: for every
request, every database state and every outcome of the database calls, the
challenges in the response have pairwise distinct content hashes, each
content hash is `generateContentHash(title + description)` of its challenge,
and none of them is the content hash of a stored challenge. -/
theorem C20_generate_never_duplicates (rt : Server.Runtime) (faults : Server.Faults)
    (auth : Server.Auth) (db : Server.Db) (jobTitle difficulty : Server.BodyValue)
    (count : Server.Count) (resp : Server.HttpResponse) (cs : List Server.GeneratedChallenge)
    (h : Server.postGenerateAI rt faults auth db jobTitle difficulty count = some resp)
    (hp : resp.payload = .challenges cs) :
    (cs.map (fun c => c.content_hash)).Nodup
    ∧ ∀ c ∈ cs, c.content_hash = Server.generateContentHash rt (c.title ++ c.description)
        ∧ db.hasHash c.content_hash = false := by
  obtain ⟨n, st, _, hr, hcs, _, _⟩ := Server.generateHandler_challenges rt faults db jobTitle
    difficulty count resp cs
    (Server.postGenerateAI_challenges rt faults auth db jobTitle difficulty count resp cs h hp) hp
  obtain ⟨title, hl⟩ := Server.generateRun_eq_some rt faults db jobTitle difficulty n st hr
  have key := Server.generateLoop_invariant rt faults db title difficulty n 0 ⟨[], []⟩ st
    (by simp) (by simp) hl
  rw [← hcs]
  exact ⟨key.1, fun c hc => (key.2 c hc).2⟩

set_option maxRecDepth 100000

/-- Claim C20, an instance: with the identity as digest, a request for four
challenges for the job title `"Auditor"` on the empty database is answered
with four challenges, the fourth from the first template again with the
number 4, and their content hashes are pairwise distinct. -/
theorem C20_generate_never_duplicates_witness :
    Server.postGenerateAI plainRuntime noFaults (.user 1 true) ⟨[], []⟩
        (.string (lit "Auditor")) .undefined (.finite false 4 1)
      = some ⟨200, .challenges generated4⟩
    ∧ (generated4.map (fun c => c.title)) =
        [lit "Forensic Analysis Case Study 1", lit "Financial Investigation Scenario 2",
         lit "Compliance Review Challenge 3", lit "Forensic Analysis Case Study 4"]
    ∧ (generated4.map (fun c => c.content_hash)).Nodup
    ∧ ∀ c ∈ generated4,
        c.content_hash = Server.generateContentHash plainRuntime (c.title ++ c.description)
        ∧ Server.Db.hasHash ⟨[], []⟩ c.content_hash = false :=
  ⟨by decide, by decide,
    C20_generate_never_duplicates plainRuntime noFaults (.user 1 true) ⟨[], []⟩
      (.string (lit "Auditor")) .undefined (.finite false 4 1) ⟨200, .challenges generated4⟩
      generated4 (by decide) rfl⟩

/-- Claim C21, counterexample. With the identity as digest, an authenticated
request with `count: 2.5` on the empty database, none of whose lookups
throws, is answered with three challenges, more than `count`: the loop runs
for `i = 0, 1, 2`. And a request without `count` whose first lookup throws
produces no challenge and is answered 500, not 400. -/
theorem C21_zero_items_counterexample :
    Server.postGenerateAI plainRuntime noFaults (.user 1 true) ⟨[], []⟩
        (.string (lit "Auditor")) .undefined (.finite false 5 2)
      = some ⟨200, .challenges (generated4.take 3)⟩
    ∧ (generated4.take 3).length = 3 ∧ 5 < (generated4.take 3).length * 2
    ∧ Server.postGenerateAI plainRuntime firstLookupFails (.user 1 true) ⟨[], []⟩
        (.string (lit "Auditor")) .undefined .absent
      = some ⟨500, .error (lit "Failed to generate AI challenges")⟩ := by
  refine ⟨?_, ?_, ?_, ?_⟩ <;> decide

/-- Claim C21, amended. Zero items is an explicit failure on the server: for a
request to `POST /generate-ai` that passes the two middlewares, whose `count`
bounds the loop to `n` iterations (`count` read as a number and rounded up,
1 when absent, 0 when it is not a positive number, at most `2 ^ 53`), whose
`job_title` has a text and none of whose duplicate lookups throws, the loop
runs the whole batch, the response is 400 with an error message exactly when
the batch produced no challenge, and otherwise it is 200 with the list of
the challenges produced, which is not empty and has at most `n` elements.
For every request whose `count` bounds the loop to `n` iterations, a response
that carries a challenges list has status 200, and the list is not empty and
has at most `n` elements; when an iteration throws, the response is 500. -/
theorem C21_zero_items_explicit_failure (rt : Server.Runtime) (faults : Server.Faults)
    (auth : Server.Auth) (uid : Nat) (db : Server.Db) (jobTitle difficulty : Server.BodyValue)
    (count : Server.Count) (n : Nat) (hb : count.bound = .iterations n) :
    (∀ title, jobTitle.text = some title → (∀ i, i < n → faults.findFirst i = false) →
      ∃ st, Server.generateLoop rt faults db title difficulty n 0 ⟨[], []⟩ = some st
        ∧ (Server.postGenerateAI rt faults (.user uid true) db jobTitle difficulty count
            = some ⟨400, .error (lit
              "All generated challenges already exist. Please try again for unique content.")⟩
          ↔ st.challenges = [])
        ∧ (st.challenges ≠ [] →
          Server.postGenerateAI rt faults (.user uid true) db jobTitle difficulty count
            = some ⟨200, .challenges st.challenges⟩
          ∧ st.challenges.length ≤ n))
    ∧ (∀ resp cs, Server.postGenerateAI rt faults auth db jobTitle difficulty count = some resp →
      resp.payload = .challenges cs → resp.status = 200 ∧ cs ≠ [] ∧ cs.length ≤ n)
    ∧ (Server.generateRun rt faults db jobTitle difficulty n = none →
      Server.postGenerateAI rt faults (.user uid true) db jobTitle difficulty count
        = some ⟨500, .error (lit "Failed to generate AI challenges")⟩)
    ∧ (count = .absent → n = 1)
    ∧ (∀ num den, count = .finite false num den → 0 < den →
      num ≤ n * den ∧ n * den < num + den ∧ n ≤ 2 ^ 53) := by
  obtain ⟨h500, hsome⟩ := Server.generateHandler_iterations rt faults db jobTitle difficulty
    count n hb
  refine ⟨fun title ht hf => ?_, fun resp cs h hp => ?_, fun hn => ?_, fun hc => ?_,
    fun num den hc hd => ?_⟩
  · obtain ⟨st, hst⟩ := Server.generateLoop_completes rt faults db title difficulty
      n 0 ⟨[], []⟩ (fun j _ h2 => hf j (by omega))
    have hlen := Server.generateLoop_length rt faults db title difficulty n 0 ⟨[], []⟩ st hst
    simp only [List.length_nil, Nat.zero_add] at hlen
    have hrun : Server.generateRun rt faults db jobTitle difficulty n = some st := by
      rw [Server.generateRun_of_text rt faults db jobTitle difficulty n title ht]
      exact hst
    refine ⟨st, hst, ?_, ?_⟩
    · rw [Server.postGenerateAI_user]
      constructor
      · intro h4
        by_contra hne
        rw [((hsome st hrun).2 hne)] at h4
        simp at h4
      · intro h0
        exact (hsome st hrun).1 h0
    · intro hne
      rw [Server.postGenerateAI_user]
      exact ⟨(hsome st hrun).2 hne, hlen⟩
  · obtain ⟨m, st, hm, hr, hcs, hne, hs⟩ := Server.generateHandler_challenges rt faults db
      jobTitle difficulty count resp cs
      (Server.postGenerateAI_challenges rt faults auth db jobTitle difficulty count resp cs h hp)
      hp
    rw [hb] at hm
    cases hm
    obtain ⟨title, hl⟩ := Server.generateRun_eq_some rt faults db jobTitle difficulty n st hr
    have hlen := Server.generateLoop_length rt faults db title difficulty n 0 ⟨[], []⟩ st hl
    simp only [List.length_nil, Nat.zero_add] at hlen
    exact ⟨hs, hne, by rw [← hcs]; exact hlen⟩
  · rw [Server.postGenerateAI_user]
    exact h500 hn
  · subst hc
    simp only [Server.Count.bound, Server.Bound.iterations.injEq] at hb
    exact hb.symm
  · subst hc
    simp only [Server.Count.bound] at hb
    split_ifs at hb with hle
    simp only [Server.Bound.iterations.injEq] at hb
    subst hb
    refine ⟨?_, ?_, hle⟩
    · have h1 := Nat.div_add_mod (num + den - 1) den
      have h2 := Nat.mod_lt (num + den - 1) hd
      rw [Nat.mul_comm] at h1
      omega
    · have h1 := Nat.div_mul_le_self (num + den - 1) den
      omega

/-- Claim C21, an instance: with the identity as digest and no failing lookup,
a request for four challenges on the empty database is answered 200 with the
four challenges of `generated4`, and the same request on a database that
holds these four is answered 400. -/
theorem C21_zero_items_explicit_failure_witness :
    (∃ st, Server.generateLoop plainRuntime noFaults ⟨[], []⟩ (lit "Auditor") .undefined 4 0
          ⟨[], []⟩ = some st
        ∧ (Server.postGenerateAI plainRuntime noFaults (.user 1 true) ⟨[], []⟩
            (.string (lit "Auditor")) .undefined (.finite false 4 1)
            = some ⟨400, .error (lit
              "All generated challenges already exist. Please try again for unique content.")⟩
          ↔ st.challenges = [])
        ∧ (st.challenges ≠ [] →
          Server.postGenerateAI plainRuntime noFaults (.user 1 true) ⟨[], []⟩
            (.string (lit "Auditor")) .undefined (.finite false 4 1)
            = some ⟨200, .challenges st.challenges⟩
          ∧ st.challenges.length ≤ 4))
    ∧ generated4.length = 4
    ∧ Server.postGenerateAI plainRuntime noFaults (.user 1 true) ⟨[], []⟩
        (.string (lit "Auditor")) .undefined (.finite false 4 1)
      = some ⟨200, .challenges generated4⟩
    ∧ Server.postGenerateAI plainRuntime noFaults (.user 1 true) dbWithGenerated4
        (.string (lit "Auditor")) .undefined (.finite false 4 1)
      = some ⟨400, .error (lit
          "All generated challenges already exist. Please try again for unique content.")⟩ :=
  ⟨(C21_zero_items_explicit_failure plainRuntime noFaults (.user 1 true) 1 ⟨[], []⟩
      (.string (lit "Auditor")) .undefined (.finite false 4 1) 4 (by decide)).1
      (lit "Auditor") rfl (fun _ _ => rfl),
    by decide, by decide, by decide⟩

namespace AIChallengeManager

/-- What the saves of an accepted item add to the lists of created challenges,
created answer keys and counted challenges. -/
theorem saveAccepted_counts (env : Env) (i : Nat) (c : Candidate) (st : State) :
    (saveAccepted env i c st).generatedChallenges.length + st.createdAnswerKeys.length
        = st.generatedChallenges.length + (saveAccepted env i c st).createdAnswerKeys.length
    ∧ (saveAccepted env i c st).createdChallenges.length + st.generatedChallenges.length
        ≤ st.createdChallenges.length + (saveAccepted env i c st).generatedChallenges.length
          + (if (env.challengeCreate i).isSome && !env.answerKeyCreate i then 1 else 0) := by
  unfold saveAccepted
  cases env.challengeCreate i <;> cases env.answerKeyCreate i <;> simp <;> omega

theorem slot_counts (env : Env) (i : Nat) (s : State) :
    (slot env i s).generatedChallenges.length + s.createdAnswerKeys.length
        = s.generatedChallenges.length + (slot env i s).createdAnswerKeys.length
    ∧ (slot env i s).createdChallenges.length + s.generatedChallenges.length
        ≤ s.createdChallenges.length + (slot env i s).generatedChallenges.length
          + (if (env.challengeCreate i).isSome && !env.answerKeyCreate i then 1 else 0) := by
  obtain ⟨m, d, _, _, _, hc⟩ := slot_spec env i s
  rcases hc with ⟨c, h, _, _, _, heq⟩ | ⟨_, heq⟩ | ⟨_, _, heq⟩
  · rw [heq]
    exact saveAccepted_counts env i { c with content_hash := .string h }
      { s with llmCalls := s.llmCalls ++ attemptCalls 8 i m,
               duplicateAttempts := s.duplicateAttempts + d,
               existingChallengeHashes := s.existingChallengeHashes ++ [h] }
  · rw [heq]
    simp
  · rw [heq]
    simp

/-- The counted challenges are those whose answer key was created too; every
created challenge is counted, except for one per slot whose answer key
creation throws. -/
theorem forLoop_counts (env : Env) (st0 : State) (n : Nat) :
    (forLoop env n st0).generatedChallenges.length + st0.createdAnswerKeys.length
        = st0.generatedChallenges.length + (forLoop env n st0).createdAnswerKeys.length
    ∧ (forLoop env n st0).createdChallenges.length + st0.generatedChallenges.length
        ≤ st0.createdChallenges.length + (forLoop env n st0).generatedChallenges.length
          + (List.range n).countP
              (fun i => (env.challengeCreate i).isSome && !env.answerKeyCreate i) := by
  induction n with
  | zero => simp [forLoop]
  | succ n ih =>
    have hs := slot_counts env n (forLoop env n st0)
    rw [forLoop_succ, List.range_succ, List.countP_append, List.countP_singleton]
    constructor
    · omega
    · have h2 := hs.2
      have h3 := ih.2
      split_ifs at h2 ⊢ <;> omega

end AIChallengeManager

/-- Claim C22, counterexample. With one slot, a client returning
`{title: "T", description: "D", correct_answer: "A"}`, a `Challenge.create`
that succeeds and an `AIChallengeAnswerKey.create` that throws, the run
creates one challenge record and reports the count 0. -/
theorem C22_honest_count_counterexample :
    (AIChallengeManager.generateChallenges envKeyFails [lit "Fraud Detection"] 1 []
        0).generatedChallenges.length = 0
    ∧ (AIChallengeManager.generateChallenges envKeyFails [lit "Fraud Detection"] 1 []
        0).createdChallenges.length = 1 := by
  decide

/-- Claim C22, amended. The number reported in the final message of
`AIChallengeManager.generateChallenges` (`generatedChallenges.length`) is the
number of accepted items for which both `Challenge.create` and
`AIChallengeAnswerKey.create` succeeded (the number of answer keys created):
the counted challenges are among the created ones, a created challenge is
left uncounted only in a slot whose answer-key creation throws after the
challenge was created, and the count equals the number of created challenge
records when no answer-key creation throws. -/
theorem C22_count_of_complete_saves (env : AIChallengeManager.Env)
    (selectedSkills : List JSString) (n : Nat) (seen : List JSString) (dup : Nat)
    (hskills : selectedSkills ≠ []) :
    (AIChallengeManager.generateChallenges env selectedSkills n seen dup).generatedChallenges.length
      = (AIChallengeManager.generateChallenges env selectedSkills n seen
          dup).createdAnswerKeys.length
    ∧ (AIChallengeManager.generateChallenges env selectedSkills n seen
          dup).generatedChallenges.Sublist
        (AIChallengeManager.generateChallenges env selectedSkills n seen dup).createdChallenges
    ∧ (AIChallengeManager.generateChallenges env selectedSkills n seen
          dup).createdChallenges.length
      ≤ (AIChallengeManager.generateChallenges env selectedSkills n seen
          dup).generatedChallenges.length
        + (List.range n).countP
            (fun i => (env.challengeCreate i).isSome && !env.answerKeyCreate i)
    ∧ ((∀ i, i < n → env.answerKeyCreate i = true) →
      (AIChallengeManager.generateChallenges env selectedSkills n seen dup).generatedChallenges
        = (AIChallengeManager.generateChallenges env selectedSkills n seen
            dup).createdChallenges) := by
  rw [AIChallengeManager.generateChallenges_eq env selectedSkills n seen dup hskills]
  have hc := AIChallengeManager.forLoop_counts env ⟨seen, 0, [], [], [], [], [], []⟩ n
  have hsub := (AIChallengeManager.forLoop_seen env seen n).2.2.2.2
  simp only [List.length_nil, Nat.add_zero, Nat.zero_add] at hc
  refine ⟨hc.1, hsub, hc.2, fun hk => ?_⟩
  have h0 : (List.range n).countP
      (fun i => (env.challengeCreate i).isSome && !env.answerKeyCreate i) = 0 := by
    rw [List.countP_eq_zero]
    intro i hi
    have := hk i (List.mem_range.mp hi)
    simp [this]
  have hle := hc.2
  rw [h0, Nat.add_zero] at hle
  exact hsub.eq_of_length_le hle

/-- Claim C22, an instance: with three slots, a client returning a fresh item
for each, and saves that succeed except for the `Challenge.create` of slot 0,
the reported count is the number of answer keys created; with two slots, a
client always returning the same item and saves that all succeed, the counted
challenges are the created ones, and there is 1 of them. -/
theorem C22_count_of_complete_saves_witness :
    (AIChallengeManager.generateChallenges envFirstSaveFails [lit "Fraud Detection"] 3 []
        0).generatedChallenges.length
      = (AIChallengeManager.generateChallenges envFirstSaveFails [lit "Fraud Detection"] 3 []
        0).createdAnswerKeys.length
    ∧ (AIChallengeManager.generateChallenges (envAlways (.text (some (.object candidateTDA))))
        [lit "Fraud Detection"] 2 [] 0).generatedChallenges
      = (AIChallengeManager.generateChallenges (envAlways (.text (some (.object candidateTDA))))
        [lit "Fraud Detection"] 2 [] 0).createdChallenges
    ∧ (AIChallengeManager.generateChallenges (envAlways (.text (some (.object candidateTDA))))
        [lit "Fraud Detection"] 2 [] 0).generatedChallenges.length = 1 :=
  ⟨(C22_count_of_complete_saves envFirstSaveFails [lit "Fraud Detection"] 3 [] 0
      (by decide)).1,
   (C22_count_of_complete_saves (envAlways (.text (some (.object candidateTDA))))
      [lit "Fraud Detection"] 2 [] 0 (by decide)).2.2.2 (fun _ _ => rfl),
   by decide⟩

namespace AIChallengeManager

/-- The retry loop increments `duplicateAttempts` once for every call it makes
whose response is a duplicate against the seen set the loop starts with. -/
theorem whileLoop_duplicates (env : Env) (i : Nat) : ∀ (fuel : Nat) (v : LoopVars) (st : State),
    ∃ calls, (whileLoop env i fuel v st).2.llmCalls = st.llmCalls ++ calls
      ∧ (∀ c ∈ calls, c.slot = i)
      ∧ (whileLoop env i fuel v st).2.duplicateAttempts
        = st.duplicateAttempts + calls.countP (fun c =>
            isDuplicateAttempt generateContentHash st.existingChallengeHashes
              (env.InvokeLLM c.slot c.attempt)) := by
  intro fuel
  induction fuel with
  | zero =>
    intro v st
    exact ⟨[], by simp [whileLoop], by simp, by simp [whileLoop]⟩
  | succ n ih =>
    intro v st
    by_cases hc : (!v.isUnique && decide (v.attempts < maxDuplicateAttempts)) = true
    · cases hr : env.InvokeLLM i (v.attempts + 1) with
      | rejected =>
        refine ⟨[⟨i, v.attempts + 1, temperatureAt 8 (v.attempts + 1)⟩], ?_, ?_, ?_⟩
        · simp only [whileLoop, hc, if_true, hr]
        · simp
        · simp only [whileLoop, hc, if_true, hr, List.countP_singleton, isDuplicateAttempt]
          simp
      | text p =>
        cases p with
        | none =>
          obtain ⟨calls, h1, h2, h3⟩ := ih { v with attempts := v.attempts + 1 }
            { st with llmCalls := st.llmCalls ++ [⟨i, v.attempts + 1, temperatureAt 8 (v.attempts + 1)⟩] }
          refine ⟨⟨i, v.attempts + 1, temperatureAt 8 (v.attempts + 1)⟩ :: calls, ?_, ?_, ?_⟩
          · simp only [whileLoop, hc, if_true, hr]
            rw [h1]; simp
          · intro c hm
            rcases List.mem_cons.mp hm with hm | hm
            · rw [hm]
            · exact h2 c hm
          · simp only [whileLoop, hc, if_true, hr]
            rw [h3, List.countP_cons]
            simp [hr, isDuplicateAttempt]
        | some j =>
          cases j with
          | null =>
            obtain ⟨calls, h1, h2, h3⟩ := ih
              { v with attempts := v.attempts + 1, challenge := .null }
              { st with llmCalls := st.llmCalls ++ [⟨i, v.attempts + 1, temperatureAt 8 (v.attempts + 1)⟩] }
            refine ⟨⟨i, v.attempts + 1, temperatureAt 8 (v.attempts + 1)⟩ :: calls, ?_, ?_, ?_⟩
            · simp only [whileLoop, hc, if_true, hr]
              rw [h1]; simp
            · intro c hm
              rcases List.mem_cons.mp hm with hm | hm
              · rw [hm]
              · exact h2 c hm
            · simp only [whileLoop, hc, if_true, hr]
              rw [h3, List.countP_cons]
              simp [hr, isDuplicateAttempt]
          | atom t =>
            obtain ⟨calls, h1, h2, h3⟩ := ih
              { v with attempts := v.attempts + 1, challenge := .atom t }
              { st with llmCalls := st.llmCalls ++ [⟨i, v.attempts + 1, temperatureAt 8 (v.attempts + 1)⟩] }
            refine ⟨⟨i, v.attempts + 1, temperatureAt 8 (v.attempts + 1)⟩ :: calls, ?_, ?_, ?_⟩
            · simp only [whileLoop, hc, if_true, hr]
              rw [h1]; simp
            · intro c hm
              rcases List.mem_cons.mp hm with hm | hm
              · rw [hm]
              · exact h2 c hm
            · simp only [whileLoop, hc, if_true, hr]
              rw [h3, List.countP_cons]
              simp [hr, isDuplicateAttempt]
          | object c =>
            cases hh : generateContentHash c.title c.description c.correct_answer with
            | none =>
              obtain ⟨calls, h1, h2, h3⟩ := ih
                { v with attempts := v.attempts + 1, challenge := .object c }
                { st with llmCalls := st.llmCalls ++ [⟨i, v.attempts + 1, temperatureAt 8 (v.attempts + 1)⟩] }
              refine ⟨⟨i, v.attempts + 1, temperatureAt 8 (v.attempts + 1)⟩ :: calls, ?_, ?_, ?_⟩
              · simp only [whileLoop, hc, if_true, hr, hh]
                rw [h1]; simp
              · intro c hm
                rcases List.mem_cons.mp hm with hm | hm
                · rw [hm]
                · exact h2 c hm
              · simp only [whileLoop, hc, if_true, hr, hh]
                rw [h3, List.countP_cons]
                simp [hr, hh, isDuplicateAttempt]
            | some h =>
              by_cases hs : setHas st.existingChallengeHashes h = true
              · obtain ⟨calls, h1, h2, h3⟩ := ih
                  { v with attempts := v.attempts + 1, challenge := .object c }
                  { st with
                    llmCalls := st.llmCalls ++ [⟨i, v.attempts + 1, temperatureAt 8 (v.attempts + 1)⟩],
                    duplicateAttempts := st.duplicateAttempts + 1 }
                refine ⟨⟨i, v.attempts + 1, temperatureAt 8 (v.attempts + 1)⟩ :: calls, ?_, ?_, ?_⟩
                · simp only [whileLoop, hc, if_true, hr, hh, hs, Bool.not_true,
                    Bool.false_eq_true, if_false]
                  rw [h1]; simp
                · intro c hm
                  rcases List.mem_cons.mp hm with hm | hm
                  · rw [hm]
                  · exact h2 c hm
                · simp only [whileLoop, hc, if_true, hr, hh, hs, Bool.not_true,
                    Bool.false_eq_true, if_false]
                  rw [h3, List.countP_cons]
                  simp [hr, hh, hs, isDuplicateAttempt]
                  omega
              · have hs' : setHas st.existingChallengeHashes h = false := by simpa using hs
                refine ⟨[⟨i, v.attempts + 1, temperatureAt 8 (v.attempts + 1)⟩], ?_, ?_, ?_⟩
                · simp only [whileLoop, hc, if_true, hr, hh, hs', Bool.not_false]
                  rw [whileLoop_exit env i n _ _ (Or.inl rfl)]
                · simp
                · simp only [whileLoop, hc, if_true, hr, hh, hs', Bool.not_false]
                  rw [whileLoop_exit env i n _ _ (Or.inl rfl)]
                  simp [hr, hh, hs', isDuplicateAttempt]
    · refine ⟨[], ?_, by simp, ?_⟩
      · simp only [whileLoop, hc, if_false, List.append_nil, Bool.false_eq_true]
      · simp only [whileLoop, hc, if_false, List.countP_nil, Nat.add_zero, Bool.false_eq_true]

theorem slot_duplicates (env : Env) (i : Nat) (s : State) :
    ∃ calls, (slot env i s).llmCalls = s.llmCalls ++ calls
      ∧ (∀ c ∈ calls, c.slot = i)
      ∧ (slot env i s).duplicateAttempts
        = s.duplicateAttempts + calls.countP (fun c =>
            isDuplicateAttempt generateContentHash s.existingChallengeHashes
              (env.InvokeLLM c.slot c.attempt)) := by
  obtain ⟨calls, h1, h2, h3⟩ := whileLoop_duplicates env i maxDuplicateAttempts
    ⟨0, .null, false⟩ s
  refine ⟨calls, ?_, h2, ?_⟩
  · unfold slot
    cases hw : whileLoop env i maxDuplicateAttempts ⟨0, .null, false⟩ s with
    | mk o st' =>
      rw [hw] at h1
      cases o with
      | none => exact h1
      | some v =>
        simp only
        split_ifs
        · rw [(saveAccepted_frame env i _ _).2.1]; exact h1
        · exact h1
  · unfold slot
    cases hw : whileLoop env i maxDuplicateAttempts ⟨0, .null, false⟩ s with
    | mk o st' =>
      rw [hw] at h3
      cases o with
      | none => exact h3
      | some v =>
        simp only
        split_ifs
        · rw [(saveAccepted_frame env i _ _).2.2.1]; exact h3
        · exact h3

/-- At the end of the loop over the slots, `duplicateAttempts` has grown by the
number of calls whose response was a duplicate against the seen set at the
start of its slot. -/
theorem forLoop_duplicates (env : Env) (st0 : State) (n : Nat) :
    ∃ calls, (forLoop env n st0).llmCalls = st0.llmCalls ++ calls
      ∧ (forLoop env n st0).duplicateAttempts
        = st0.duplicateAttempts + calls.countP (fun c =>
            isDuplicateAttempt generateContentHash
              (forLoop env c.slot st0).existingChallengeHashes
              (env.InvokeLLM c.slot c.attempt)) := by
  induction n with
  | zero => exact ⟨[], by simp [forLoop], by simp [forLoop]⟩
  | succ n ih =>
    obtain ⟨calls, h1, h3⟩ := ih
    obtain ⟨cs, g1, g2, g3⟩ := slot_duplicates env n (forLoop env n st0)
    refine ⟨calls ++ cs, ?_, ?_⟩
    · rw [forLoop_succ, g1, h1, List.append_assoc]
    · rw [forLoop_succ, g3, h3, List.countP_append, Nat.add_assoc]
      congr 2
      apply List.countP_congr
      intro c hc
      rw [g2 c hc]

end AIChallengeManager

/-- Claim C23. Duplicate counter: a run of `AIChallengeManager.generateChallenges`
starts the counter `duplicateAttempts` at 0 whatever it was before, and at the
end of the run the counter is the number of generation calls of the run whose
response parsed to an object with a fingerprint (string title, description and
correct answer) that was in the seen set, the seen set of an attempt being the
one its slot starts with; a malformed response and an accepted response are
never counted. -/
theorem C23_duplicate_counter (env : AIChallengeManager.Env) (selectedSkills : List JSString)
    (n : Nat) (seen : List JSString) (dup : Nat) (hskills : selectedSkills ≠ []) :
    (AIChallengeManager.generateChallenges env selectedSkills n seen dup).duplicateAttempts
      = (AIChallengeManager.generateChallenges env selectedSkills n seen dup).llmCalls.countP
          (fun c => isDuplicateAttempt AIChallengeManager.generateContentHash
            (AIChallengeManager.generateChallenges env selectedSkills c.slot seen
              dup).existingChallengeHashes
            (env.InvokeLLM c.slot c.attempt))
    ∧ (AIChallengeManager.generateChallenges env selectedSkills n seen dup).duplicateAttempts
      = (AIChallengeManager.generateChallenges env selectedSkills n seen 0).duplicateAttempts
    ∧ (∀ (s : List JSString) (r : Response), r.malformed = true →
        isDuplicateAttempt AIChallengeManager.generateContentHash s r = false)
    ∧ (∀ (s : List JSString) (r : Response),
        acceptable AIChallengeManager.generateContentHash s r = true →
        isDuplicateAttempt AIChallengeManager.generateContentHash s r = false) := by
  refine ⟨?_, ?_, ?_, ?_⟩
  · obtain ⟨calls, h1, h3⟩ := AIChallengeManager.forLoop_duplicates env
      ⟨seen, 0, [], [], [], [], [], []⟩ n
    simp only [List.nil_append, Nat.zero_add] at h1 h3
    have hfun : (fun c : LLMCall => isDuplicateAttempt AIChallengeManager.generateContentHash
            (AIChallengeManager.generateChallenges env selectedSkills c.slot seen
              dup).existingChallengeHashes (env.InvokeLLM c.slot c.attempt))
        = (fun c : LLMCall => isDuplicateAttempt AIChallengeManager.generateContentHash
            (AIChallengeManager.forLoop env c.slot
              ⟨seen, 0, [], [], [], [], [], []⟩).existingChallengeHashes
            (env.InvokeLLM c.slot c.attempt)) := by
      funext c
      rw [AIChallengeManager.generateChallenges_eq env selectedSkills c.slot seen dup hskills]
    rw [hfun, AIChallengeManager.generateChallenges_eq env selectedSkills n seen dup hskills,
      h1, h3]
  · rw [AIChallengeManager.generateChallenges_eq env selectedSkills n seen dup hskills,
      AIChallengeManager.generateChallenges_eq env selectedSkills n seen 0 hskills]
  · intro s r hm
    cases r with
    | rejected => rfl
    | text p =>
      cases p with
      | none => rfl
      | some j =>
        cases j with
        | null => rfl
        | atom t => rfl
        | object c =>
          simp only [isDuplicateAttempt]
          cases hh : AIChallengeManager.generateContentHash c.title c.description
            c.correct_answer with
          | none => rfl
          | some h =>
            have := generateContentHash_isString _ _ _ h hh
            simp [Response.malformed, this] at hm
  · intro s r ha
    cases r with
    | rejected => rfl
    | text p =>
      cases p with
      | none => rfl
      | some j =>
        cases j with
        | null => rfl
        | atom t => rfl
        | object c =>
          simp only [isDuplicateAttempt, acceptable] at ha ⊢
          cases hh : AIChallengeManager.generateContentHash c.title c.description
            c.correct_answer with
          | none => rfl
          | some h =>
            rw [hh] at ha
            simpa using ha

/-- Claim C23, an instance: with two slots, an empty seen set, a counter that
stood at 5 and a client always returning
`{title: "T", description: "D", correct_answer: "A"}`, the first call is
accepted and the three calls of the second slot are duplicates: the counter
ends at 3, the number of duplicate calls in the log of four calls. -/
theorem C23_duplicate_counter_witness :
    (AIChallengeManager.generateChallenges (envAlways (.text (some (.object candidateTDA))))
        [lit "Fraud Detection"] 2 [] 5).duplicateAttempts
      = (AIChallengeManager.generateChallenges (envAlways (.text (some (.object candidateTDA))))
          [lit "Fraud Detection"] 2 [] 5).llmCalls.countP
          (fun c => isDuplicateAttempt AIChallengeManager.generateContentHash
            (AIChallengeManager.generateChallenges
              (envAlways (.text (some (.object candidateTDA)))) [lit "Fraud Detection"] c.slot []
              5).existingChallengeHashes
            ((envAlways (.text (some (.object candidateTDA)))).InvokeLLM c.slot c.attempt))
    ∧ (AIChallengeManager.generateChallenges (envAlways (.text (some (.object candidateTDA))))
        [lit "Fraud Detection"] 2 [] 5).duplicateAttempts = 3
    ∧ (AIChallengeManager.generateChallenges (envAlways (.text (some (.object candidateTDA))))
        [lit "Fraud Detection"] 2 [] 5).llmCalls.length = 4 :=
  ⟨(C23_duplicate_counter (envAlways (.text (some (.object candidateTDA))))
      [lit "Fraud Detection"] 2 [] 5 (by decide)).1, by decide, by decide⟩

/-! ## Seeding and the prompt -/

theorem mem_setAdd_iff (s : List JSString) (x h : JSString) :
    h ∈ setAdd s x ↔ h ∈ s ∨ h = x := by
  unfold setAdd
  split_ifs with hx
  · constructor
    · exact fun hm => Or.inl hm
    · rintro (hm | hm)
      · exact hm
      · exact hm ▸ hx
  · simp

theorem nodup_setAdd (s : List JSString) (x : JSString) (hs : s.Nodup) : (setAdd s x).Nodup := by
  unfold setAdd
  split_ifs with hx
  · exact hs
  · rw [List.nodup_append]
    exact ⟨hs, by simp, by
      intro a ha hb
      simp only [List.mem_singleton] at hb
      exact hx (hb ▸ ha)⟩

/-- The set built by the `forEach` of `loadInitialData`, started from any set:
its elements are those of the start and the non-empty content hashes of the
list, without repetition. -/
theorem collectHashes_foldl (l : List ListedChallenge) : ∀ (acc : List JSString),
    (∀ h, h ∈ l.foldl
        (fun hashes challenge =>
          match challenge.content_hash with
          | some h => if !h.isEmpty then setAdd hashes h else hashes
          | none => hashes) acc
      ↔ h ∈ acc ∨ ∃ c ∈ l, c.content_hash = some h ∧ h ≠ [])
    ∧ (acc.Nodup → (l.foldl
        (fun hashes challenge =>
          match challenge.content_hash with
          | some h => if !h.isEmpty then setAdd hashes h else hashes
          | none => hashes) acc).Nodup) := by
  induction l with
  | nil => intro acc; simp
  | cons c rest ih =>
    intro acc
    simp only [List.foldl_cons]
    cases hc : c.content_hash with
    | none =>
      obtain ⟨i1, i2⟩ := ih acc
      refine ⟨fun h => ?_, i2⟩
      rw [i1 h]
      simp [hc]
    | some x =>
      by_cases hx : x = []
      · obtain ⟨i1, i2⟩ := ih acc
        subst hx
        simp only [List.isEmpty_nil, Bool.not_true, Bool.false_eq_true, if_false]
        refine ⟨fun h => ?_, i2⟩
        rw [i1 h]
        constructor
        · rintro (hm | ⟨c', hm, he, hn⟩)
          · exact Or.inl hm
          · exact Or.inr ⟨c', List.mem_cons_of_mem _ hm, he, hn⟩
        · rintro (hm | ⟨c', hm, he, hn⟩)
          · exact Or.inl hm
          · rcases List.mem_cons.mp hm with hm | hm
            · subst hm
              rw [hc] at he
              exact absurd (Option.some.inj he).symm hn
            · exact Or.inr ⟨c', hm, he, hn⟩
      · obtain ⟨i1, i2⟩ := ih (setAdd acc x)
        have he : (!x.isEmpty) = true := by
          cases x with
          | nil => exact absurd rfl hx
          | cons _ _ => rfl
        simp only [he, if_true]
        refine ⟨fun h => ?_, fun hn => i2 (nodup_setAdd acc x hn)⟩
        rw [i1 h, mem_setAdd_iff]
        constructor
        · rintro ((hm | hm) | ⟨c', hm, he', hn⟩)
          · exact Or.inl hm
          · exact Or.inr ⟨c, List.mem_cons_self _ _, by rw [hc, hm], by rw [hm]; exact hx⟩
          · exact Or.inr ⟨c', List.mem_cons_of_mem _ hm, he', hn⟩
        · rintro (hm | ⟨c', hm, he', hn⟩)
          · exact Or.inl (Or.inl hm)
          · rcases List.mem_cons.mp hm with hm | hm
            · subst hm
              rw [hc] at he'
              exact Or.inl (Or.inr (Option.some.inj he').symm)
            · exact Or.inr ⟨c', hm, he', hn⟩

/-- Challenges without a content hash do not matter to the set built. -/
theorem collectHashes_filter (l : List ListedChallenge) :
    collectHashes (l.filter (fun c => decide (c.content_hash ≠ none ∧ c.content_hash ≠ some [])))
      = collectHashes l := by
  unfold collectHashes
  generalize ([] : List JSString) = acc
  induction l generalizing acc with
  | nil => rfl
  | cons c rest ih =>
    cases hc : c.content_hash with
    | none =>
      rw [List.filter_cons_of_neg (by simp [hc])]
      simp only [List.foldl_cons, hc]
      exact ih acc
    | some x =>
      cases x with
      | nil =>
        rw [List.filter_cons_of_neg (by simp [hc])]
        simp only [List.foldl_cons, hc, List.isEmpty_nil, Bool.not_true, Bool.false_eq_true,
          if_false]
        exact ih acc
      | cons a l =>
        rw [List.filter_cons_of_pos (by simp [hc])]
        simp only [List.foldl_cons, hc]
        exact ih _

/-- Claim C24, counterexample. `Challenge.list()` returns a challenge with the
content hash `"dGRh"`, but another load of the same `Promise.all` rejects
(`User.me()` in `PostJobWithAI`, `SkillTag.list()` in `AIChallengeManager`):
after `loadInitialData` the seen-hash set is still empty and does not hold
that hash. -/
theorem C24_seeding_counterexample :
    (∃ c ∈ [(⟨some (lit "dGRh"), 0⟩ : ListedChallenge)],
      c.content_hash = some (lit "dGRh") ∧ lit "dGRh" ≠ [])
    ∧ PostJobWithAI.loadInitialData false true (some [⟨some (lit "dGRh"), 0⟩]) [] = []
    ∧ AIChallengeManager.loadInitialData (some [⟨some (lit "dGRh"), 0⟩]) false [] = []
    ∧ lit "dGRh" ∉ PostJobWithAI.loadInitialData false true (some [⟨some (lit "dGRh"), 0⟩]) []
    ∧ lit "dGRh" ∉ AIChallengeManager.loadInitialData (some [⟨some (lit "dGRh"), 0⟩]) false
        [] := by
  refine ⟨⟨_, List.mem_singleton.mpr rfl, rfl, by decide⟩, ?_, ?_, ?_, ?_⟩ <;> decide

/-- Claim C24, amended. Seeding: after a `loadInitialData` all of whose loads
resolve (`Challenge.list()` and `SkillTag.list()`, in `PostJobWithAI` also
`User.me()`), in `AIChallengeManager` and in `PostJobWithAI`, the seen-hash
set holds exactly the non-empty `content_hash` values of the challenges
`Challenge.list()` returned, each once: a hash is in the set if and only if a
listed challenge has it as its non-empty `content_hash`, whatever the set
held before; a challenge without a `content_hash` (absent or empty)
contributes nothing. When one of the loads rejects, the set is left as it
was before the call. -/
theorem C24_seeding (challengeList : List ListedChallenge) (before : List JSString) :
    ((∀ h, h ∈ AIChallengeManager.loadInitialData (some challengeList) true before
        ↔ ∃ c ∈ challengeList, c.content_hash = some h ∧ h ≠ [])
      ∧ (AIChallengeManager.loadInitialData (some challengeList) true before).Nodup
      ∧ AIChallengeManager.loadInitialData
          (some (challengeList.filter
            (fun c => decide (c.content_hash ≠ none ∧ c.content_hash ≠ some []))))
          true before
        = AIChallengeManager.loadInitialData (some challengeList) true before)
    ∧ ((∀ h, h ∈ PostJobWithAI.loadInitialData true true (some challengeList) before
        ↔ ∃ c ∈ challengeList, c.content_hash = some h ∧ h ≠ [])
      ∧ (PostJobWithAI.loadInitialData true true (some challengeList) before).Nodup
      ∧ PostJobWithAI.loadInitialData true true
          (some (challengeList.filter
            (fun c => decide (c.content_hash ≠ none ∧ c.content_hash ≠ some []))))
          before
        = PostJobWithAI.loadInitialData true true (some challengeList) before)
    ∧ (AIChallengeManager.loadInitialData none true before = before
      ∧ AIChallengeManager.loadInitialData (some challengeList) false before = before
      ∧ PostJobWithAI.loadInitialData true true none before = before
      ∧ PostJobWithAI.loadInitialData false true (some challengeList) before = before
      ∧ PostJobWithAI.loadInitialData true false (some challengeList) before = before) := by
  have hmem : ∀ h, h ∈ collectHashes challengeList
      ↔ ∃ c ∈ challengeList, c.content_hash = some h ∧ h ≠ [] := fun h => by
    have := (collectHashes_foldl challengeList []).1 h
    simpa [collectHashes] using this
  have hnd : (collectHashes challengeList).Nodup :=
    (collectHashes_foldl challengeList []).2 List.nodup_nil
  have hfilter := collectHashes_filter challengeList
  refine ⟨⟨hmem, hnd, hfilter⟩, ⟨hmem, hnd, hfilter⟩, rfl, rfl, rfl, rfl, rfl⟩

/-- Claim C24, an instance: from the listed challenges with the content hashes
`"dGRh"`, none, the empty string and `"dGRh"` again, both pages seed the set
that holds `"dGRh"` once, whatever it held before. -/
theorem C24_seeding_witness :
    AIChallengeManager.loadInitialData
        (some [⟨some (lit "dGRh"), 0⟩, ⟨none, 1⟩, ⟨some [], 2⟩, ⟨some (lit "dGRh"), 3⟩]) true
        [lit "old"] = [lit "dGRh"]
    ∧ (lit "dGRh" ∈ PostJobWithAI.loadInitialData true true
        (some [⟨some (lit "dGRh"), 0⟩, ⟨none, 1⟩, ⟨some [], 2⟩, ⟨some (lit "dGRh"), 3⟩])
        [lit "old"]
      ↔ ∃ c ∈ [(⟨some (lit "dGRh"), 0⟩ : ListedChallenge), ⟨none, 1⟩, ⟨some [], 2⟩,
          ⟨some (lit "dGRh"), 3⟩], c.content_hash = some (lit "dGRh") ∧ lit "dGRh" ≠ []) :=
  ⟨by decide,
    (C24_seeding [⟨some (lit "dGRh"), 0⟩, ⟨none, 1⟩, ⟨some [], 2⟩, ⟨some (lit "dGRh"), 3⟩]
      [lit "old"]).2.1.1 (lit "dGRh")⟩

theorem slice_last (k : Nat) (xs : List JSString) :
    slice (-(k + 1 : Nat)) xs = xs.drop (xs.length - (k + 1)) := by
  have h : (-((k + 1 : Nat) : Int)) < 0 := by omega
  have e : Int.toNat ((xs.length : Int) + -((k + 1 : Nat) : Int)) = xs.length - (k + 1) := by
    omega
  simp only [slice, h, if_true, e]

namespace AIChallengeManager

/-- The part of the prompt before the hash list ends with the start of line 5
of the requirements, and the skills, the difficulty and the type stand before
that. -/
theorem promptHead_parts (skillsText difficulty type : JSString) :
    ∃ pre, promptHead skillsText difficulty type
        = pre ++ lit "5. Avoid these content patterns (hashes): "
      ∧ skillsText <:+: pre ∧ difficulty <:+: pre ∧ type <:+: pre := by
  refine ⟨_, rfl, ?_, ?_, ?_⟩
  · exact (List.suffix_append _ skillsText).isInfix.trans
      ((List.prefix_append _ _).trans ((List.prefix_append _ _).trans
        ((List.prefix_append _ _).trans ((List.prefix_append _ _).trans
          (List.prefix_append _ _))))).isInfix
  · exact (List.suffix_append _ difficulty).isInfix.trans
      ((List.prefix_append _ _).trans ((List.prefix_append _ _).trans
        (List.prefix_append _ _))).isInfix
  · exact (List.suffix_append _ type).isInfix.trans (List.prefix_append _ _).isInfix

theorem promptTail_parts (skillsText difficulty type firstSkill secondSkill : JSString) :
    ∃ post, promptTail skillsText difficulty type firstSkill secondSkill
        = lit "\n\nCHALLENGE REQUIREMENTS:" ++ post := by
  unfold promptTail
  simp only [List.append_assoc]
  exact ⟨_, rfl⟩

end AIChallengeManager

/-- Claim C25. Bounded exclusion hints: for every seen-hash set `S` (in
insertion order), the hash list that `AIChallengeManager.generateAIPrompt`
embeds in line 5 of the prompt is the join with `", "` of the last
`min(20, |S|)` elements of `S`, in their order; the text around it does not
depend on `S`, and the part before it embeds the skills (joined by `", "`),
the difficulty and the challenge type. -/
theorem C25_bounded_exclusion_hints (skills : List JSString) (difficulty type : JSString)
    (S : List JSString) :
    (slice (-20) S = S.drop (S.length - 20)
      ∧ (slice (-20) S).length = min 20 S.length
      ∧ slice (-20) S <:+ S)
    ∧ ∃ pre post,
      (∀ S', AIChallengeManager.generateAIPrompt skills difficulty type S'
        = pre ++ lit "5. Avoid these content patterns (hashes): "
          ++ join (lit ", ") (slice (-20) S')
          ++ (lit "\n\nCHALLENGE REQUIREMENTS:" ++ post))
      ∧ join (lit ", ") skills <:+: pre ∧ difficulty <:+: pre ∧ type <:+: pre := by
  have hs : slice (-20) S = S.drop (S.length - 20) := slice_last 19 S
  refine ⟨⟨hs, ?_, ?_⟩, ?_⟩
  · rw [hs, List.length_drop]; omega
  · rw [hs]; exact List.drop_suffix _ _
  · obtain ⟨pre, hpre, h1, h2, h3⟩ :=
      AIChallengeManager.promptHead_parts (join (lit ", ") skills) difficulty type
    obtain ⟨post, hpost⟩ := AIChallengeManager.promptTail_parts (join (lit ", ") skills)
      difficulty type
      (((splitCommaSpace (join (lit ", ") skills) []).get? 0).getD [])
      (match (splitCommaSpace (join (lit ", ") skills) []).get? 1 with
        | some s =>
          if !s.isEmpty then s
          else ((splitCommaSpace (join (lit ", ") skills) []).get? 0).getD []
        | none => ((splitCommaSpace (join (lit ", ") skills) []).get? 0).getD [])
    refine ⟨pre, post, fun S' => ?_, h1, h2, h3⟩
    rw [← hpre, ← hpost]
    rfl

/-! ## The fingerprint beyond plain content -/

theorem isPlain_of_isLowerDigitSpace (u : Nat) (h : isLowerDigitSpace u = true) :
    isPlain u = true := by
  rw [isPlain_iff]
  simp only [isLowerDigitSpace, Bool.or_eq_true, Bool.and_eq_true, decide_eq_true_eq,
    beq_iff_eq] at h
  omega

theorem base64Encode_append (j : Nat) : ∀ (p r : List Nat), p.length = 3 * j →
    base64Encode (p ++ r) = base64Encode p ++ base64Encode r := by
  induction j with
  | zero =>
    intro p r hp
    have : p = [] := List.length_eq_zero.mp (by omega)
    subst this
    rfl
  | succ j ih =>
    intro p r hp
    match p, hp with
    | a :: b :: c :: rest, hp =>
      have hr : rest.length = 3 * j := by simp only [List.length_cons] at hp; omega
      rw [show (a :: b :: c :: rest) ++ r = a :: b :: c :: (rest ++ r) from rfl]
      simp only [base64Encode, ih rest r hr, List.cons_append]

/-- The base64 text is the text of the 6-bit groups followed by the padding. -/
theorem base64Encode_eq_sextets_pad (x : List Nat) :
    base64Encode x
      = (sextets x).map base64Char ++ List.replicate ((3 - x.length % 3) % 3) 61 := by
  induction x using base64Encode.induct with
  | case1 => rfl
  | case2 a => rfl
  | case3 a b => rfl
  | case4 a b c rest ih =>
    have hl : (3 - (a :: b :: c :: rest).length % 3) % 3 = (3 - rest.length % 3) % 3 := by
      simp only [List.length_cons]; omega
    rw [hl]
    simp only [base64Encode, sextets, ih, List.map_cons, List.cons_append]

theorem btoa_latin1 (k : JSString) (hk : ∀ u ∈ k, u ≤ 255) : btoa k = some (base64Encode k) := by
  have : k.all (fun u => decide (u ≤ 255)) = true := by
    rw [List.all_eq_true]
    intro u hu
    simpa using hk u hu
  simp [btoa, this]

theorem btoa_eq_none (k : JSString) (u : Nat) (hu : u ∈ k) (h : 255 < u) : btoa k = none := by
  have : k.all (fun u => decide (u ≤ 255)) = false := by
    rw [List.all_eq_false]
    exact ⟨u, hu, by simp; omega⟩
  simp [btoa, this]

/-- When the first 24 characters of the content are plain, the fingerprint is
the base64 text of these 24 characters, whatever follows. -/
theorem fingerprint_head (k : JSString) (hlen : 24 ≤ k.length)
    (hk : ∀ u ∈ k.take 24, isPlain u = true) :
    substring0 32 (stripNonAlnum (base64Encode k)) = (sextets (k.take 24)).map base64Char := by
  have hl : (k.take 24).length = 3 * 8 := by rw [List.length_take]; omega
  have e1 := base64Encode_append 8 (k.take 24) (k.drop 24) hl
  rw [List.take_append_drop] at e1
  have e2 := (sextets_append 8 (k.take 24) [] hl).2
  rw [e1, stripNonAlnum, List.filter_append]
  have e3 := stripNonAlnum_base64Encode (k.take 24) hk
  rw [stripNonAlnum] at e3
  rw [e3, substring0]
  apply List.take_left'
  rw [List.length_map, e2]

/-- Claim C26, counterexample. Two triples with the same title of 24 lower-case
letters and spaces, so that both normalised contents have at least 24
characters and share the first 24: for the description `"d"`
`generateContentHash` returns a value, for a description with an em dash it
throws, since `btoa` rejects the content. -/
theorem C26_prefix_collision_counterexample :
    24 ≤ (norm title24 ++ norm (lit "d") ++ norm (lit "a")).length
    ∧ 24 ≤ (norm title24 ++ norm emDashText ++ norm (lit "a")).length
    ∧ (norm title24 ++ norm (lit "d") ++ norm (lit "a")).take 24
        = (norm title24 ++ norm emDashText ++ norm (lit "a")).take 24
    ∧ (∀ u ∈ (norm title24 ++ norm (lit "d") ++ norm (lit "a")).take 24,
        isLowerDigitSpace u = true)
    ∧ AIChallengeManager.generateContentHash (.string title24) (.string (lit "d"))
        (.string (lit "a")) = some (lit "Zm9yZW5zaWMgYXVkaXQgb2YgbGVkZ2Vy")
    ∧ AIChallengeManager.generateContentHash (.string title24) (.string emDashText)
        (.string (lit "a")) = none
    ∧ PostJobWithAI.generateContentHash (.string title24) (.string emDashText)
        (.string (lit "a")) = none := by
  refine ⟨?_, ?_, ?_, ?_, ?_, ?_, ?_⟩ <;> decide

/-- The fingerprint of content without a character above U+00FF whose first 24
characters are plain. -/
theorem generateContentHash_head (t d c : JSString)
    (hl : ∀ u ∈ norm t ++ norm d ++ norm c, u ≤ 255)
    (hlen : 24 ≤ (norm t ++ norm d ++ norm c).length)
    (hp : ∀ u ∈ (norm t ++ norm d ++ norm c).take 24, isPlain u = true) :
    AIChallengeManager.generateContentHash (.string t) (.string d) (.string c)
      = some ((sextets ((norm t ++ norm d ++ norm c).take 24)).map base64Char) := by
  rw [AIChallengeManager.generateContentHash_string, btoa_latin1 _ hl]
  simp only [Option.map_some', Option.some.injEq]
  exact fingerprint_head _ hlen hp

/-- Claim C26, amended. Prefix collision of the client fingerprint: for all
triples whose normalised concatenations contain no character above U+00FF, have
length at least 24 and share the same first 24 characters, all of which are
lower-case ASCII letters, digits or spaces, both `generateContentHash`
functions return the same value, the base64 text of these 24 characters, so
that a response with the second triple is a duplicate, not acceptable, once
the fingerprint of the first is in the seen set; in particular, when the
normalised title has at least 24 such characters, the fingerprint is the same
for all descriptions and correct answers without a character above U+00FF. -/
theorem C26_prefix_collision :
    (∀ (t1 d1 c1 t2 d2 c2 : JSString),
      (∀ u ∈ norm t1 ++ norm d1 ++ norm c1, u ≤ 255) →
      (∀ u ∈ norm t2 ++ norm d2 ++ norm c2, u ≤ 255) →
      24 ≤ (norm t1 ++ norm d1 ++ norm c1).length →
      24 ≤ (norm t2 ++ norm d2 ++ norm c2).length →
      (norm t1 ++ norm d1 ++ norm c1).take 24 = (norm t2 ++ norm d2 ++ norm c2).take 24 →
      (∀ u ∈ (norm t1 ++ norm d1 ++ norm c1).take 24, isLowerDigitSpace u = true) →
      (AIChallengeManager.generateContentHash (.string t1) (.string d1) (.string c1)
          = some ((sextets ((norm t1 ++ norm d1 ++ norm c1).take 24)).map base64Char)
        ∧ AIChallengeManager.generateContentHash (.string t2) (.string d2) (.string c2)
          = AIChallengeManager.generateContentHash (.string t1) (.string d1) (.string c1)
        ∧ PostJobWithAI.generateContentHash (.string t2) (.string d2) (.string c2)
          = PostJobWithAI.generateContentHash (.string t1) (.string d1) (.string c1))
      ∧ ∀ (x : Candidate) (seen : List JSString),
          x.title = .string t2 → x.description = .string d2 → x.correct_answer = .string c2 →
          (sextets ((norm t1 ++ norm d1 ++ norm c1).take 24)).map base64Char ∈ seen →
          acceptable AIChallengeManager.generateContentHash seen (.text (some (.object x)))
            = false
          ∧ acceptable PostJobWithAI.generateContentHash seen (.text (some (.object x)))
            = false
          ∧ isDuplicateAttempt AIChallengeManager.generateContentHash seen
            (.text (some (.object x))) = true)
    ∧ (∀ (t d c d' c' : JSString),
      24 ≤ (norm t).length →
      (∀ u ∈ (norm t).take 24, isLowerDigitSpace u = true) →
      (∀ u ∈ norm t ++ norm d ++ norm c, u ≤ 255) →
      (∀ u ∈ norm t ++ norm d' ++ norm c', u ≤ 255) →
      AIChallengeManager.generateContentHash (.string t) (.string d) (.string c)
        = AIChallengeManager.generateContentHash (.string t) (.string d') (.string c')
      ∧ PostJobWithAI.generateContentHash (.string t) (.string d) (.string c)
        = PostJobWithAI.generateContentHash (.string t) (.string d') (.string c')) := by
  have main : ∀ (t1 d1 c1 t2 d2 c2 : JSString),
      (∀ u ∈ norm t1 ++ norm d1 ++ norm c1, u ≤ 255) →
      (∀ u ∈ norm t2 ++ norm d2 ++ norm c2, u ≤ 255) →
      24 ≤ (norm t1 ++ norm d1 ++ norm c1).length →
      24 ≤ (norm t2 ++ norm d2 ++ norm c2).length →
      (norm t1 ++ norm d1 ++ norm c1).take 24 = (norm t2 ++ norm d2 ++ norm c2).take 24 →
      (∀ u ∈ (norm t1 ++ norm d1 ++ norm c1).take 24, isLowerDigitSpace u = true) →
      AIChallengeManager.generateContentHash (.string t1) (.string d1) (.string c1)
          = some ((sextets ((norm t1 ++ norm d1 ++ norm c1).take 24)).map base64Char)
        ∧ AIChallengeManager.generateContentHash (.string t2) (.string d2) (.string c2)
          = some ((sextets ((norm t1 ++ norm d1 ++ norm c1).take 24)).map base64Char) := by
    intro t1 d1 c1 t2 d2 c2 hl1 hl2 hn1 hn2 heq hp
    have hp1 : ∀ u ∈ (norm t1 ++ norm d1 ++ norm c1).take 24, isPlain u = true :=
      fun u hu => isPlain_of_isLowerDigitSpace u (hp u hu)
    have hp2 : ∀ u ∈ (norm t2 ++ norm d2 ++ norm c2).take 24, isPlain u = true := by
      rw [← heq]; exact hp1
    refine ⟨generateContentHash_head t1 d1 c1 hl1 hn1 hp1, ?_⟩
    rw [generateContentHash_head t2 d2 c2 hl2 hn2 hp2, heq]
  constructor
  · intro t1 d1 c1 t2 d2 c2 hl1 hl2 hn1 hn2 heq hp
    obtain ⟨g1, g2⟩ := main t1 d1 c1 t2 d2 c2 hl1 hl2 hn1 hn2 heq hp
    refine ⟨⟨g1, by rw [g1, g2], ?_⟩, ?_⟩
    · rw [← generateContentHash_eq, g1, g2]
    · intro x seen hx1 hx2 hx3 hmem
      have hset : setHas seen
          ((sextets ((norm t1 ++ norm d1 ++ norm c1).take 24)).map base64Char) = true := by
        unfold setHas
        exact decide_eq_true hmem
      refine ⟨?_, ?_, ?_⟩
      · simp only [acceptable, hx1, hx2, hx3, g2, hset, Bool.not_true]
      · simp only [acceptable, hx1, hx2, hx3, ← generateContentHash_eq, g2, hset, Bool.not_true]
      · simp only [isDuplicateAttempt, hx1, hx2, hx3, g2, hset]
  · intro t d c d' c' hn hp hl hl'
    have take_eq : ∀ (a b : JSString),
        (norm t ++ norm a ++ norm b).take 24 = (norm t).take 24 := fun a b => by
      rw [List.append_assoc, List.take_append_of_le_length hn]
    have len_le : ∀ (a b : JSString), 24 ≤ (norm t ++ norm a ++ norm b).length := fun a b => by
      simp only [List.length_append]; omega
    obtain ⟨g1, g2⟩ := main t d c t d' c' hl hl' (len_le d c) (len_le d' c')
      (by rw [take_eq, take_eq]) (by rw [take_eq]; exact hp)
    exact ⟨by rw [g1, g2], by rw [← generateContentHash_eq, g1, g2]⟩

/-- Claim C26, an instance: with the title `"forensic audit of ledger"` of 24
characters, the triples with description and answer `"d"`, `"a"` and
`"other"`, `"x"` have the same fingerprint in both pages. -/
theorem C26_prefix_collision_witness :
    AIChallengeManager.generateContentHash (.string title24) (.string (lit "d"))
        (.string (lit "a"))
      = AIChallengeManager.generateContentHash (.string title24) (.string (lit "other"))
        (.string (lit "x"))
    ∧ PostJobWithAI.generateContentHash (.string title24) (.string (lit "d"))
        (.string (lit "a"))
      = PostJobWithAI.generateContentHash (.string title24) (.string (lit "other"))
        (.string (lit "x")) :=
  C26_prefix_collision.2 title24 (lit "d") (lit "a") (lit "other") (lit "x")
    (by decide) (by decide) (by decide) (by decide)

/-- Claim C28. The client fingerprint is exact on short content: when the
normalised concatenated content has at most 24 characters, all of them
lower-case ASCII letters, digits or spaces, the fingerprint in both pages is
the base64 text of the whole content without its padding (nothing else is
stripped, nothing is cut off), and two such contents that differ have
different fingerprints. -/
theorem C28_exact_on_short_content (t1 d1 c1 t2 d2 c2 : JSString)
    (hn1 : (norm t1 ++ norm d1 ++ norm c1).length ≤ 24)
    (hn2 : (norm t2 ++ norm d2 ++ norm c2).length ≤ 24)
    (hp1 : ∀ u ∈ norm t1 ++ norm d1 ++ norm c1, isLowerDigitSpace u = true)
    (hp2 : ∀ u ∈ norm t2 ++ norm d2 ++ norm c2, isLowerDigitSpace u = true) :
    (∃ f, AIChallengeManager.generateContentHash (.string t1) (.string d1) (.string c1) = some f
      ∧ PostJobWithAI.generateContentHash (.string t1) (.string d1) (.string c1) = some f
      ∧ btoa (norm t1 ++ norm d1 ++ norm c1)
        = some (f ++ List.replicate ((3 - (norm t1 ++ norm d1 ++ norm c1).length % 3) % 3) 61)
      ∧ f.length ≤ 32 ∧ ∀ u ∈ f, isAlnum u = true)
    ∧ (norm t1 ++ norm d1 ++ norm c1 ≠ norm t2 ++ norm d2 ++ norm c2 →
      AIChallengeManager.generateContentHash (.string t1) (.string d1) (.string c1)
        ≠ AIChallengeManager.generateContentHash (.string t2) (.string d2) (.string c2)
      ∧ PostJobWithAI.generateContentHash (.string t1) (.string d1) (.string c1)
        ≠ PostJobWithAI.generateContentHash (.string t2) (.string d2) (.string c2)) := by
  have q1 : ∀ u ∈ norm t1 ++ norm d1 ++ norm c1, isPlain u = true :=
    fun u hu => isPlain_of_isLowerDigitSpace u (hp1 u hu)
  have q2 : ∀ u ∈ norm t2 ++ norm d2 ++ norm c2, isPlain u = true :=
    fun u hu => isPlain_of_isLowerDigitSpace u (hp2 u hu)
  have hf : AIChallengeManager.generateContentHash (.string t1) (.string d1) (.string c1)
      = some ((sextets (norm t1 ++ norm d1 ++ norm c1)).map base64Char) := by
    rw [AIChallengeManager.generateContentHash_string, btoa_plain _ q1]
    simp only [Option.map_some', Option.some.injEq]
    rw [fingerprint_plain _ q1, List.take_of_length_le hn1]
  constructor
  · refine ⟨_, hf, by rw [← generateContentHash_eq]; exact hf, ?_, ?_, ?_⟩
    · rw [btoa_plain _ q1, base64Encode_eq_sextets_pad]
    · have := sextets_length_le (norm t1 ++ norm d1 ++ norm c1)
      rw [List.length_map]
      omega
    · intro u hu
      have hs := stripNonAlnum_base64Encode _ q1
      rw [← hs, stripNonAlnum] at hu
      exact (List.mem_filter.mp hu).2
  · intro hne
    have key : AIChallengeManager.generateContentHash (.string t1) (.string d1) (.string c1)
        ≠ AIChallengeManager.generateContentHash (.string t2) (.string d2) (.string c2) := by
      intro he
      have := (generateContentHash_plain_eq_iff t1 d1 c1 t2 d2 c2 q1 q2).mp he
      rw [List.take_of_length_le hn1, List.take_of_length_le hn2] at this
      exact hne this
    exact ⟨key, by rw [← generateContentHash_eq]; exact key⟩

/-- Claim C28, an instance: the contents `"tda"` and `"tdb"` have the
fingerprints `"dGRh"` and `"dGRi"`. -/
theorem C28_exact_on_short_content_witness :
    AIChallengeManager.generateContentHash (.string (lit "T")) (.string (lit "D"))
        (.string (lit "A")) = some (lit "dGRh")
    ∧ AIChallengeManager.generateContentHash (.string (lit "T")) (.string (lit "D"))
        (.string (lit "B")) = some (lit "dGRi")
    ∧ (AIChallengeManager.generateContentHash (.string (lit "T")) (.string (lit "D"))
        (.string (lit "A"))
        ≠ AIChallengeManager.generateContentHash (.string (lit "T")) (.string (lit "D"))
          (.string (lit "B"))
      ∧ PostJobWithAI.generateContentHash (.string (lit "T")) (.string (lit "D"))
        (.string (lit "A"))
        ≠ PostJobWithAI.generateContentHash (.string (lit "T")) (.string (lit "D"))
          (.string (lit "B"))) :=
  ⟨by decide, by decide,
    (C28_exact_on_short_content (lit "T") (lit "D") (lit "A") (lit "T") (lit "D") (lit "B")
      (by decide) (by decide) (by decide) (by decide)).2 (by decide)⟩

/-- The client fingerprint is defined exactly for three strings whose
normalised content has no character above U+00FF. -/
theorem generateContentHash_isSome_iff (t d c : Value) :
    (AIChallengeManager.generateContentHash t d c).isSome = true
      ↔ ∃ ts ds cs, t = .string ts ∧ d = .string ds ∧ c = .string cs
          ∧ ∀ u ∈ norm ts ++ norm ds ++ norm cs, u ≤ 255 := by
  constructor
  · intro h
    obtain ⟨f, hf⟩ := Option.isSome_iff_exists.mp h
    have hs := generateContentHash_isString t d c f hf
    cases t with
    | string ts =>
      cases d with
      | string ds =>
        cases c with
        | string cs =>
          refine ⟨ts, ds, cs, rfl, rfl, rfl, ?_⟩
          intro u hu
          by_contra hgt
          rw [AIChallengeManager.generateContentHash_string,
            btoa_eq_none _ u hu (by omega)] at hf
          simp at hf
        | undefined => simp [Value.isString] at hs
        | boolean _ => simp [Value.isString] at hs
        | other => simp [Value.isString] at hs
      | undefined => simp [Value.isString] at hs
      | boolean _ => simp [Value.isString] at hs
      | other => simp [Value.isString] at hs
    | undefined => simp [Value.isString] at hs
    | boolean _ => simp [Value.isString] at hs
    | other => simp [Value.isString] at hs
  · rintro ⟨ts, ds, cs, rfl, rfl, rfl, hl⟩
    rw [AIChallengeManager.generateContentHash_string, btoa_latin1 _ hl]
    rfl

/-- A response with a character above U+00FF in its normalised content is an
object for which the fingerprint function throws. -/
theorem nonLatin1_spec (r : Response) (h : r.nonLatin1 = true) :
    ∃ x, r = .text (some (.object x))
      ∧ AIChallengeManager.generateContentHash x.title x.description x.correct_answer = none := by
  cases r with
  | rejected => simp [Response.nonLatin1] at h
  | text p =>
    cases p with
    | none => simp [Response.nonLatin1] at h
    | some j =>
      cases j with
      | null => simp [Response.nonLatin1] at h
      | atom t => simp [Response.nonLatin1] at h
      | object x =>
        refine ⟨x, rfl, ?_⟩
        cases ht : x.title with
        | string ts =>
          cases hd : x.description with
          | string ds =>
            cases hc : x.correct_answer with
            | string cs =>
              simp only [Response.nonLatin1, ht, hd, hc, List.any_eq_true,
                decide_eq_true_eq] at h
              obtain ⟨u, hu, hgt⟩ := h
              rw [AIChallengeManager.generateContentHash_string, btoa_eq_none _ u hu hgt]
              rfl
            | undefined => simp [Response.nonLatin1, ht, hd, hc] at h
            | boolean _ => simp [Response.nonLatin1, ht, hd, hc] at h
            | other => simp [Response.nonLatin1, ht, hd, hc] at h
          | undefined => simp [Response.nonLatin1, ht, hd] at h
          | boolean _ => simp [Response.nonLatin1, ht, hd] at h
          | other => simp [Response.nonLatin1, ht, hd] at h
        | undefined => simp [Response.nonLatin1, ht] at h
        | boolean _ => simp [Response.nonLatin1, ht] at h
        | other => simp [Response.nonLatin1, ht] at h

theorem nonLatin1_not_acceptable (r : Response) (seen : List JSString)
    (h : r.nonLatin1 = true) :
    r ≠ .rejected ∧ acceptable AIChallengeManager.generateContentHash seen r = false
      ∧ acceptable PostJobWithAI.generateContentHash seen r = false
      ∧ isDuplicateAttempt AIChallengeManager.generateContentHash seen r = false := by
  obtain ⟨x, rfl, hx⟩ := nonLatin1_spec r h
  refine ⟨by simp, ?_, ?_, ?_⟩
  · simp only [acceptable, hx]
  · simp only [acceptable, ← generateContentHash_eq, hx]
  · simp only [isDuplicateAttempt, hx]

/-- An attempt whose response has no fingerprint is consumed: the loop goes on
with the attempt counted and the call logged, and nothing else changed. -/
theorem AIChallengeManager.whileLoop_no_hash (env : AIChallengeManager.Env) (i fuel : Nat)
    (v : LoopVars) (st : AIChallengeManager.State) (x : Candidate)
    (hu : v.isUnique = false) (ha : v.attempts < AIChallengeManager.maxDuplicateAttempts)
    (hr : env.InvokeLLM i (v.attempts + 1) = .text (some (.object x)))
    (hx : AIChallengeManager.generateContentHash x.title x.description x.correct_answer = none) :
    AIChallengeManager.whileLoop env i (fuel + 1) v st
      = AIChallengeManager.whileLoop env i fuel ⟨v.attempts + 1, .object x, false⟩
          { st with llmCalls := st.llmCalls ++ [⟨i, v.attempts + 1, temperatureAt 8 (v.attempts + 1)⟩] } := by
  cases v with
  | mk a ch u =>
    simp only at hu ha hr
    subst hu
    simp only [AIChallengeManager.whileLoop, ha, hr, hx, Bool.not_false, Bool.true_and,
      decide_True, if_true]

theorem PostJobWithAI.whileLoop_no_hash_job (llm : Nat → Nat → Response)
    (jd : PostJobWithAI.JobDetails) (i fuel : Nat)
    (v : LoopVars) (st : PostJobWithAI.State) (x : Candidate)
    (hu : v.isUnique = false) (ha : v.attempts < 3)
    (hr : llm i (v.attempts + 1) = .text (some (.object x)))
    (hx : PostJobWithAI.generateContentHash x.title x.description x.correct_answer = none) :
    PostJobWithAI.whileLoop llm jd i (fuel + 1) v st
      = PostJobWithAI.whileLoop llm jd i fuel ⟨v.attempts + 1, .object x, false⟩
          { st with llmCalls := st.llmCalls ++ [⟨i, v.attempts + 1, temperatureAt 7 (v.attempts + 1)⟩] } := by
  cases v with
  | mk a ch u =>
    simp only at hu ha hr
    subst hu
    simp only [PostJobWithAI.whileLoop, ha, hr, hx, Bool.not_false, Bool.true_and,
      decide_True, if_true]

/-- Claim C27. The client fingerprint is partial: in both pages
`generateContentHash` returns a value if and only if its three arguments are
strings and the normalised content has no character above U+00FF (`btoa`
rejects the others); a response whose normalised content has such a character
is never accepted, whatever the seen set, and is not counted as a duplicate;
an attempt with such a response is consumed (the loop goes on with the
attempt counted and the call logged, the seen set as it was); and in a run
whose every response is of this kind each slot makes its three calls, the
seen set stays as it was and nothing is created or pushed. -/
theorem C27_partial_fingerprint :
    (∀ t d c : Value,
      ((AIChallengeManager.generateContentHash t d c).isSome = true
        ↔ ∃ ts ds cs, t = .string ts ∧ d = .string ds ∧ c = .string cs
            ∧ ∀ u ∈ norm ts ++ norm ds ++ norm cs, u ≤ 255)
      ∧ ((PostJobWithAI.generateContentHash t d c).isSome = true
        ↔ ∃ ts ds cs, t = .string ts ∧ d = .string ds ∧ c = .string cs
            ∧ ∀ u ∈ norm ts ++ norm ds ++ norm cs, u ≤ 255))
    ∧ (∀ (r : Response) (seen : List JSString), r.nonLatin1 = true →
      r ≠ .rejected ∧ acceptable AIChallengeManager.generateContentHash seen r = false
        ∧ acceptable PostJobWithAI.generateContentHash seen r = false
        ∧ isDuplicateAttempt AIChallengeManager.generateContentHash seen r = false)
    ∧ (∀ (env : AIChallengeManager.Env) (i fuel : Nat) (v : LoopVars)
        (st : AIChallengeManager.State),
      v.isUnique = false → v.attempts < AIChallengeManager.maxDuplicateAttempts →
      (env.InvokeLLM i (v.attempts + 1)).nonLatin1 = true →
      ∃ x, env.InvokeLLM i (v.attempts + 1) = .text (some (.object x))
        ∧ AIChallengeManager.whileLoop env i (fuel + 1) v st
          = AIChallengeManager.whileLoop env i fuel ⟨v.attempts + 1, .object x, false⟩
              { st with llmCalls :=
                  st.llmCalls ++ [⟨i, v.attempts + 1, temperatureAt 8 (v.attempts + 1)⟩] })
    ∧ (∀ (llm : Nat → Nat → Response) (jd : PostJobWithAI.JobDetails) (i fuel : Nat)
        (v : LoopVars) (st : PostJobWithAI.State),
      v.isUnique = false → v.attempts < 3 →
      (llm i (v.attempts + 1)).nonLatin1 = true →
      ∃ x, llm i (v.attempts + 1) = .text (some (.object x))
        ∧ PostJobWithAI.whileLoop llm jd i (fuel + 1) v st
          = PostJobWithAI.whileLoop llm jd i fuel ⟨v.attempts + 1, .object x, false⟩
              { st with llmCalls :=
                  st.llmCalls ++ [⟨i, v.attempts + 1, temperatureAt 7 (v.attempts + 1)⟩] })
    ∧ (∀ (env : AIChallengeManager.Env) (selectedSkills : List JSString) (n : Nat)
        (seen : List JSString) (dup : Nat),
      selectedSkills ≠ [] → (∀ i k, (env.InvokeLLM i k).nonLatin1 = true) →
      (AIChallengeManager.generateChallenges env selectedSkills n seen dup).llmCalls
          = (List.range n).flatMap (fun i => attemptCalls 8 i 3)
        ∧ (AIChallengeManager.generateChallenges env selectedSkills n seen
            dup).existingChallengeHashes = seen
        ∧ (AIChallengeManager.generateChallenges env selectedSkills n seen dup).createCalls = []
        ∧ (AIChallengeManager.generateChallenges env selectedSkills n seen
            dup).generatedChallenges = [])
    ∧ (∀ (llm : Nat → Nat → Response) (jd : PostJobWithAI.JobDetails) (n : Nat)
        (seen : List JSString) (generated : List Json),
      (jd.title ≠ [] ∧ jd.description ≠ [] ∧ jd.required_skills ≠ []) →
      (∀ i k, (llm i k).nonLatin1 = true) →
      (PostJobWithAI.generateChallengesForJob llm jd n seen generated).llmCalls
          = (List.range n).flatMap (fun i => attemptCalls 7 i 3)
        ∧ (PostJobWithAI.generateChallengesForJob llm jd n seen
            generated).existingChallengeHashes = seen
        ∧ (PostJobWithAI.generateChallengesForJob llm jd n seen generated).newChallenges = []) := by
  refine ⟨fun t d c => ⟨generateContentHash_isSome_iff t d c, ?_⟩,
    fun r seen h => nonLatin1_not_acceptable r seen h, ?_, ?_, ?_, ?_⟩
  · rw [← generateContentHash_eq]
    exact generateContentHash_isSome_iff t d c
  · intro env i fuel v st hu ha hn
    obtain ⟨x, hr, hx⟩ := nonLatin1_spec _ hn
    exact ⟨x, hr, AIChallengeManager.whileLoop_no_hash env i fuel v st x hu ha hr hx⟩
  · intro llm jd i fuel v st hu ha hn
    obtain ⟨x, hr, hx⟩ := nonLatin1_spec _ hn
    exact ⟨x, hr, PostJobWithAI.whileLoop_no_hash_job llm jd i fuel v st x hu ha hr
      (by rw [← generateContentHash_eq]; exact hx)⟩
  · intro env selectedSkills n seen dup hskills hall
    rw [AIChallengeManager.generateChallenges_eq env selectedSkills n seen dup hskills]
    obtain ⟨h1, h2, h3, _, h5⟩ := AIChallengeManager.forLoop_no_accept env
      ⟨seen, 0, [], [], [], [], [], []⟩
      (fun i k => ⟨(nonLatin1_not_acceptable _ seen (hall i k)).1,
        (nonLatin1_not_acceptable _ seen (hall i k)).2.1⟩) n
    simp only [List.nil_append] at h1
    exact ⟨h1, h2, h3, h5⟩
  · intro llm jd n seen generated hjob hall
    rw [PostJobWithAI.generateChallengesForJob_eq llm jd n seen generated hjob]
    obtain ⟨h1, h2, h3⟩ := PostJobWithAI.forLoop_no_accept_job llm jd ⟨seen, [], []⟩
      (fun i k => ⟨(nonLatin1_not_acceptable _ seen (hall i k)).1,
        (nonLatin1_not_acceptable _ seen (hall i k)).2.2.1⟩) n
    simp only [List.nil_append] at h1
    exact ⟨h1, h2, h3⟩

/-- Claim C27, an instance: the response with an em dash in its description is
not a thrown call, is not acceptable against the empty seen set in either
page, and is not a duplicate; two slots of such responses make six calls and
leave the seen set empty. -/
theorem C27_partial_fingerprint_witness :
    (emDashResponse ≠ .rejected
      ∧ acceptable AIChallengeManager.generateContentHash [] emDashResponse = false
      ∧ acceptable PostJobWithAI.generateContentHash [] emDashResponse = false
      ∧ isDuplicateAttempt AIChallengeManager.generateContentHash [] emDashResponse = false)
    ∧ ((AIChallengeManager.generateChallenges (envAlways emDashResponse)
          [lit "Fraud Detection"] 2 [] 0).llmCalls
        = (List.range 2).flatMap (fun i => attemptCalls 8 i 3)
      ∧ (AIChallengeManager.generateChallenges (envAlways emDashResponse)
          [lit "Fraud Detection"] 2 [] 0).existingChallengeHashes = []
      ∧ (AIChallengeManager.generateChallenges (envAlways emDashResponse)
          [lit "Fraud Detection"] 2 [] 0).createCalls = []
      ∧ (AIChallengeManager.generateChallenges (envAlways emDashResponse)
          [lit "Fraud Detection"] 2 [] 0).generatedChallenges = []) :=
  ⟨C27_partial_fingerprint.2.1 emDashResponse [] (by decide),
   C27_partial_fingerprint.2.2.2.2.1 (envAlways emDashResponse) [lit "Fraud Detection"] 2 [] 0
    (by decide) (fun _ _ => (by decide : emDashResponse.nonLatin1 = true))⟩

/-- Claim C29. The two client fingerprint implementations agree: for all
arguments, `generateContentHash` of `AIChallengeManager.jsx` and of
`PostJobWithAI.jsx` return the same value or both throw; hence a response is
acceptable in one page exactly when it is in the other, content whose
fingerprint (computed by either page) is in the seen set of the other page is
not acceptable there, and when a challenge with the non-empty fingerprint of
some content, as `AIChallengeManager` computes it, is among the challenges
`PostJobWithAI.loadInitialData` lists, a run of `generateChallengesForJob`
whose client keeps returning that content pushes nothing. -/
theorem C29_implementations_agree :
    (∀ t d c : Value,
      AIChallengeManager.generateContentHash t d c = PostJobWithAI.generateContentHash t d c)
    ∧ (∀ (seen : List JSString) (r : Response),
      acceptable AIChallengeManager.generateContentHash seen r
        = acceptable PostJobWithAI.generateContentHash seen r)
    ∧ (∀ (x : Candidate) (h : JSString) (seen : List JSString),
      (AIChallengeManager.generateContentHash x.title x.description x.correct_answer = some h →
        h ∈ seen →
        acceptable PostJobWithAI.generateContentHash seen (.text (some (.object x))) = false)
      ∧ (PostJobWithAI.generateContentHash x.title x.description x.correct_answer = some h →
        h ∈ seen →
        acceptable AIChallengeManager.generateContentHash seen (.text (some (.object x))) = false
        ∧ isDuplicateAttempt AIChallengeManager.generateContentHash seen
            (.text (some (.object x))) = true))
    ∧ (∀ (x : Candidate) (h : JSString) (challengeList : List ListedChallenge)
        (before : List JSString) (llm : Nat → Nat → Response) (jd : PostJobWithAI.JobDetails)
        (n : Nat) (generated : List Json),
      AIChallengeManager.generateContentHash x.title x.description x.correct_answer = some h →
      h ≠ [] → (∃ c ∈ challengeList, c.content_hash = some h) →
      (jd.title ≠ [] ∧ jd.description ≠ [] ∧ jd.required_skills ≠ []) →
      (∀ i k, llm i k = .text (some (.object x))) →
      h ∈ PostJobWithAI.loadInitialData true true (some challengeList) before
      ∧ (PostJobWithAI.generateChallengesForJob llm jd n
          (PostJobWithAI.loadInitialData true true (some challengeList) before)
          generated).newChallenges = []
      ∧ (PostJobWithAI.generateChallengesForJob llm jd n
          (PostJobWithAI.loadInitialData true true (some challengeList) before)
          generated).existingChallengeHashes
        = PostJobWithAI.loadInitialData true true (some challengeList) before) := by
  have hacc : ∀ (x : Candidate) (h : JSString) (seen : List JSString),
      AIChallengeManager.generateContentHash x.title x.description x.correct_answer = some h →
      h ∈ seen →
      acceptable AIChallengeManager.generateContentHash seen (.text (some (.object x))) = false
      ∧ isDuplicateAttempt AIChallengeManager.generateContentHash seen
          (.text (some (.object x))) = true := by
    intro x h seen hh hm
    have hset : setHas seen h = true := by
      unfold setHas
      exact decide_eq_true hm
    exact ⟨by simp only [acceptable, hh, hset, Bool.not_true],
      by simp only [isDuplicateAttempt, hh, hset]⟩
  refine ⟨fun t d c => rfl, fun seen r => by rw [generateContentHash_eq], ?_, ?_⟩
  · intro x h seen
    constructor
    · intro hh hm
      rw [← generateContentHash_eq]
      exact (hacc x h seen hh hm).1
    · intro hh hm
      rw [← generateContentHash_eq] at hh
      exact hacc x h seen hh hm
  · intro x h challengeList before llm jd n generated hh hne hex hjob hall
    have hmem : h ∈ PostJobWithAI.loadInitialData true true (some challengeList) before := by
      have := (collectHashes_foldl challengeList []).1 h
      obtain ⟨c, hc, hce⟩ := hex
      exact this.mpr (Or.inr ⟨c, hc, hce, hne⟩)
    refine ⟨hmem, ?_⟩
    rw [PostJobWithAI.generateChallengesForJob_eq llm jd n _ generated hjob]
    obtain ⟨_, h2, h3⟩ := PostJobWithAI.forLoop_no_accept_job llm jd
      ⟨PostJobWithAI.loadInitialData true true (some challengeList) before, [], []⟩
      (fun i k => by
        rw [hall i k]
        refine ⟨by simp, ?_⟩
        rw [← generateContentHash_eq]
        exact (hacc x h _ hh hmem).1) n
    exact ⟨h3, h2⟩

/-- Claim C29, an instance: the content `"tda"` has the fingerprint `"dGRh"` in
`AIChallengeManager`; once a listed challenge carries it, `PostJobWithAI`
seeds it and a run of two slots whose client keeps returning that content
pushes nothing. -/
theorem C29_implementations_agree_witness :
    lit "dGRh" ∈ PostJobWithAI.loadInitialData true true (some [⟨some (lit "dGRh"), 0⟩]) []
    ∧ (PostJobWithAI.generateChallengesForJob (fun _ _ => .text (some (.object candidateTDA)))
        jobAuditor 2 (PostJobWithAI.loadInitialData true true (some [⟨some (lit "dGRh"), 0⟩]) [])
        []).newChallenges = []
    ∧ (PostJobWithAI.generateChallengesForJob (fun _ _ => .text (some (.object candidateTDA)))
        jobAuditor 2 (PostJobWithAI.loadInitialData true true (some [⟨some (lit "dGRh"), 0⟩]) [])
        []).existingChallengeHashes
      = PostJobWithAI.loadInitialData true true (some [⟨some (lit "dGRh"), 0⟩]) [] :=
  C29_implementations_agree.2.2.2 candidateTDA (lit "dGRh") [⟨some (lit "dGRh"), 0⟩] []
    (fun _ _ => .text (some (.object candidateTDA))) jobAuditor 2 []
    (by decide) (by decide) ⟨⟨some (lit "dGRh"), 0⟩, by simp, rfl⟩ (by decide)
    (fun _ _ => rfl)

namespace Server

/-- Every challenge pushed by the loop of `POST /generate-ai` has the type
`ai_generated`. -/
theorem generateLoop_type (rt : Runtime) (faults : Faults) (db : Db) (jobTitle : JSString)
    (difficulty : BodyValue) :
    ∀ (remaining i : Nat) (st st' : GenState),
      (∀ c ∈ st.challenges, c.challenge_type = lit "ai_generated") →
      generateLoop rt faults db jobTitle difficulty remaining i st = some st' →
      ∀ c ∈ st'.challenges, c.challenge_type = lit "ai_generated" := by
  intro remaining
  induction remaining with
  | zero =>
    intro i st st' hi h
    simp only [generateLoop, Option.some.injEq] at h
    subst h
    exact hi
  | succ n ih =>
    intro i st st' hi h
    simp only [generateLoop] at h
    split_ifs at h <;> first
      | exact ih _ _ _ hi h
      | (refine ih _ _ _ ?_ h
         intro c hc
         simp only [List.mem_append, List.mem_singleton] at hc
         rcases hc with hc | hc
         · exact hi c hc
         · rw [hc])

/-- What a response of `POST /generate-ai` that carries challenges says about
each of them. -/
theorem postGenerateAI_returned (rt : Runtime) (faults : Faults) (auth : Auth) (db : Db)
    (jobTitle difficulty : BodyValue) (count : Count) (resp : HttpResponse)
    (cs : List GeneratedChallenge)
    (h : postGenerateAI rt faults auth db jobTitle difficulty count = some resp)
    (hp : resp.payload = .challenges cs) :
    ∀ c ∈ cs, c.content_hash = generateContentHash rt (c.title ++ c.description)
      ∧ db.hasHash c.content_hash = false ∧ c.challenge_type = lit "ai_generated" := by
  obtain ⟨n, st, _, hr, hcs, _, _⟩ := generateHandler_challenges rt faults db jobTitle
    difficulty count resp cs
    (postGenerateAI_challenges rt faults auth db jobTitle difficulty count resp cs h hp) hp
  obtain ⟨title, hl⟩ := generateRun_eq_some rt faults db jobTitle difficulty n st hr
  have inv := (generateLoop_invariant rt faults db title difficulty n 0
    ⟨[], []⟩ st (by simp) (by simp) hl).2
  have ty := generateLoop_type rt faults db title difficulty n 0 ⟨[], []⟩ st (by simp) hl
  rw [← hcs]
  exact fun c hc => ⟨(inv c hc).2.1, (inv c hc).2.2, ty c hc⟩

/-- A `POST /` request of type `ai_generated` answered 201 has stored the
challenge with the hash of its title and description. -/
theorem postChallenge_created (rt : Runtime) (faults : Faults) (uid : Nat) (body : CreateBody)
    (db : Db) (content : JSString)
    (h1 : body.challenge_type = .string (lit "ai_generated"))
    (h2 : plus body.title body.description = some content)
    (h201 : (postChallenge rt faults (.user uid true) body db).1.status = 201) :
    (postChallenge rt faults (.user uid true) body db).1.payload
      = .challenge ⟨faults.newId, body.title, body.description, body.challenge_type,
          .string (generateContentHash rt content), uid, body.rest⟩
    ∧ (postChallenge rt faults (.user uid true) body db).2.challenges
      = db.challenges ++ [⟨faults.newId, body.title, body.description, body.challenge_type,
          .string (generateContentHash rt content), uid, body.rest⟩] := by
  simp only [postChallenge, guarded, if_true, createHandler_ai rt faults body db uid content h1 h2]
    at h201 ⊢
  split_ifs at h201 ⊢ <;> simp_all

/-- A `POST /` request of type `ai_generated` whose hash is stored already
creates nothing, whoever sends it and whatever fails. -/
theorem postChallenge_duplicate (rt : Runtime) (faults : Faults) (auth : Auth) (body : CreateBody)
    (db : Db) (content : JSString)
    (h1 : body.challenge_type = .string (lit "ai_generated"))
    (h2 : plus body.title body.description = some content)
    (hh : db.hasHash (generateContentHash rt content) = true) :
    (postChallenge rt faults auth body db).1.status ≠ 201
    ∧ (postChallenge rt faults auth body db).2 = db := by
  cases auth with
  | noToken => simp [postChallenge, guarded]
  | invalid => simp [postChallenge, guarded]
  | unknownUser => simp [postChallenge, guarded]
  | user id ok =>
    cases ok with
    | false => simp [postChallenge, guarded]
    | true =>
      simp only [postChallenge, guarded, if_true,
        createHandler_ai rt faults body db id content h1 h2, hh]
      split_ifs <;> simp

end Server

/-- Claim C30. Server hash consistency between generation and creation: for
every challenge `c` returned by `POST /generate-ai`, a `POST /` request with
the type, title and description of `c` that is answered 201 has stored the
challenge with the content hash `c` carries (both are
`generateContentHash(title + description)`); after that, the same request
creates nothing again, whoever sends it and whatever fails, and is answered
400 when sent by a company user and its lookup does not throw; and no later
response of `POST /generate-ai`, for any job title, carries a challenge with
that content hash or with that title and description. -/
theorem C30_server_hash_consistency (rt : Server.Runtime)
    (faultsG faultsC faults2 faults3 : Server.Faults) (auth auth2 auth3 : Server.Auth)
    (uid uid2 : Nat) (db db1 : Server.Db)
    (jobTitle difficulty jobTitle3 difficulty3 : Server.BodyValue)
    (count count3 : Server.Count) (resp : Server.HttpResponse)
    (cs : List Server.GeneratedChallenge) (c : Server.GeneratedChallenge)
    (body : Server.CreateBody)
    (hgen : Server.postGenerateAI rt faultsG auth db jobTitle difficulty count = some resp)
    (hresp : resp.payload = .challenges cs)
    (hc : c ∈ cs)
    (hb1 : body.challenge_type = .string c.challenge_type)
    (hb2 : body.title = .string c.title) (hb3 : body.description = .string c.description)
    (h201 : (Server.postChallenge rt faultsC (.user uid true) body db1).1.status = 201) :
    (∃ stored, (Server.postChallenge rt faultsC (.user uid true) body db1).1.payload
        = .challenge stored
      ∧ stored ∈ (Server.postChallenge rt faultsC (.user uid true) body db1).2.challenges
      ∧ stored.content_hash = .string c.content_hash
      ∧ c.content_hash = Server.generateContentHash rt (c.title ++ c.description))
    ∧ ((Server.postChallenge rt faults2 auth2 body
          (Server.postChallenge rt faultsC (.user uid true) body db1).2).1.status ≠ 201
      ∧ (Server.postChallenge rt faults2 auth2 body
          (Server.postChallenge rt faultsC (.user uid true) body db1).2).2
        = (Server.postChallenge rt faultsC (.user uid true) body db1).2)
    ∧ (faults2.findFirst 0 = false →
      Server.postChallenge rt faults2 (.user uid2 true) body
          (Server.postChallenge rt faultsC (.user uid true) body db1).2
        = (⟨400, .error (lit
            "A similar challenge already exists. Please regenerate or modify the content.")⟩,
           (Server.postChallenge rt faultsC (.user uid true) body db1).2))
    ∧ (∀ resp3 cs3, Server.postGenerateAI rt faults3 auth3
          (Server.postChallenge rt faultsC (.user uid true) body db1).2
          jobTitle3 difficulty3 count3 = some resp3 → resp3.payload = .challenges cs3 →
      ∀ c3 ∈ cs3, c3.content_hash ≠ c.content_hash
        ∧ ¬(c3.title = c.title ∧ c3.description = c.description)) := by
  obtain ⟨e1, _, e3⟩ := Server.postGenerateAI_returned rt faultsG auth db jobTitle difficulty
    count resp cs hgen hresp c hc
  have t1 : body.challenge_type = .string (lit "ai_generated") := by rw [hb1, e3]
  have p1 : Server.plus body.title body.description = some (c.title ++ c.description) := by
    rw [hb2, hb3]; rfl
  obtain ⟨g1, g2⟩ := Server.postChallenge_created rt faultsC uid body db1
    (c.title ++ c.description) t1 p1 h201
  rw [← e1] at g1 g2
  have hh : (Server.postChallenge rt faultsC (.user uid true) body db1).2.hasHash
      (Server.generateContentHash rt (c.title ++ c.description)) = true := by
    rw [← e1]
    simp [Server.Db.hasHash, g2]
  refine ⟨⟨_, g1, by rw [g2]; simp, rfl, e1⟩, ?_, ?_, ?_⟩
  · exact Server.postChallenge_duplicate rt faults2 auth2 body _ (c.title ++ c.description)
      t1 p1 hh
  · intro hf
    simp only [Server.postChallenge, Server.guarded, if_true]
    rw [Server.createHandler_ai rt faults2 body _ uid2 (c.title ++ c.description) t1 p1]
    simp only [Server.postChallenge, Server.guarded, if_true] at hh
    simp only [hf, hh, if_true, if_false, Bool.false_eq_true]
  · intro resp3 cs3 hgen3 hresp3 c3 hc3
    obtain ⟨f1, f2, _⟩ := Server.postGenerateAI_returned rt faults3 auth3 _ jobTitle3
      difficulty3 count3 resp3 cs3 hgen3 hresp3 c3 hc3
    have hne : c3.content_hash ≠ c.content_hash := by
      intro he
      rw [he, e1, hh] at f2
      exact absurd f2 (by simp)
    refine ⟨hne, ?_⟩
    rintro ⟨ht, hd⟩
    apply hne
    rw [f1, e1, ht, hd]

/-- Claim C30, an instance: with the identity as digest, the first of the four
challenges generated for the job title `"Auditor"` on the empty database is
created through `POST /`; the same request sent again is answered 400 and
leaves the database as it is. -/
theorem C30_server_hash_consistency_witness :
    Server.postChallenge plainRuntime noFaults (.user 2 true)
        (aiBody (.string firstGenerated.title) (.string firstGenerated.description)
          (.string firstGenerated.correct_answer))
        (Server.postChallenge plainRuntime noFaults (.user 1 true)
          (aiBody (.string firstGenerated.title) (.string firstGenerated.description)
            (.string firstGenerated.correct_answer)) ⟨[], []⟩).2
      = (⟨400, .error (lit
          "A similar challenge already exists. Please regenerate or modify the content.")⟩,
         (Server.postChallenge plainRuntime noFaults (.user 1 true)
          (aiBody (.string firstGenerated.title) (.string firstGenerated.description)
            (.string firstGenerated.correct_answer)) ⟨[], []⟩).2) :=
  (C30_server_hash_consistency plainRuntime noFaults noFaults noFaults noFaults
    (.user 1 true) (.user 2 true) (.user 1 true) 1 2 ⟨[], []⟩ ⟨[], []⟩
    (.string (lit "Auditor")) .undefined (.string (lit "Auditor")) .undefined
    (.finite false 4 1) (.finite false 4 1) ⟨200, .challenges generated4⟩
    generated4 firstGenerated
    (aiBody (.string firstGenerated.title) (.string firstGenerated.description)
      (.string firstGenerated.correct_answer))
    (by decide) rfl (by decide) (by decide) rfl rfl (by decide)).2.2.1 rfl

end ProofJobs
